import Mathlib

/-!
# go-ibax: block production, transaction pool, key bans and rollback

A shallow embedding of the parts of the node that the specification talks about:

* `model/transaction.go`: the pool row, the `expediteOrder` clause, `GetAllUnusedTransactions`;
* `daemons/block_generator.go`: `processTransactions`;
* `block/ban.go`: `IsKeyBanned`, `BadTxForBan`;
* `rollback/block.go`: `RollbackBlock`, `rollbackBlock`;
* `daemons/blocks_collection.go`: `processBlocks`, `ReplaceBlocksFromHost`, `getBlocks`,
  the closure `playRawBlock` of `UpdateChain`;
* `daemons/confirmations.go`: `Confirmations`, `confirmationsBlocks`;
* `utils/tx/builder.go`, `utils/metric/collector.go`;
* `service/node_ban.go`: `IsBanned`, `localBan`;
* `transaction/db.go`: `CheckLogTx`; `model/blockchain.go`: `GetBlockchain`;
* `script/compile.go`: the expression compiler `compileEval`, `ContractsList`,
  `StateName`, the state machine of `CompileBlock` with its handlers, `FlushBlock`.

Conventions.  Byte strings are lists of naturals.  A relational table is the list of its
rows.  An SQL statement whose text is in the source is modelled by its relational meaning
on the tables.  Functions of packages that are not part of the sources at hand are taken as
parameters (collected in structures named `...Ops` or `...Env`); they may fail.
-/

namespace Ibax

/-- Byte strings (`[]byte`). -/
abbrev Bytes := List Nat

/-- Go `error` values are represented by their message. -/
abbrev Err := String

/-! ## model/transaction.go -/

/-- Constant `TransactionRateOnBlock` (`iota + 1`). -/
def TransactionRateOnBlock : Int := 1
/-- Constant `TransactionRateApiContract`. -/
def TransactionRateApiContract : Int := 2
/-- Constant `TransactionRateSystemServer`. -/
def TransactionRateSystemServer : Int := 3
/-- Constant `TransactionRateEcosystemMiner`. -/
def TransactionRateEcosystemMiner : Int := 4
/-- Constant `TransactionRateSystemMiner`. -/
def TransactionRateSystemMiner : Int := 5
/-- Constant `TransactionRateStopNetwork`. -/
def TransactionRateStopNetwork : Int := 6

/-- The row type `model.Transaction` of table `transactions` (the pool).  `Expedite` is a
`decimal.Decimal`; decimals are rationals.  `Type_` is the field `Type`. -/
structure Transaction where
  Hash : Bytes
  Data : Bytes
  Used : Int
  HighRate : Int
  Expedite : ℚ
  Type_ : Int
  KeyID : Int
  Sent : Int
  Verified : Int
  Time : Int
deriving DecidableEq

/-- Method `(t *Transaction) GetTransactionRateStopNetwork`. -/
def Transaction.GetTransactionRateStopNetwork (t : Transaction) : Bool :=
  t.HighRate == TransactionRateStopNetwork

/-- The order denoted by `expediteOrder = "high_rate,expedite DESC,time ASC"`: row `a` may
precede row `b`.  The first key carries no direction, so it is ascending (the SQL default);
the second is descending, the third ascending. -/
def expediteOrder (a b : Transaction) : Prop :=
  a.HighRate < b.HighRate ∨
    (a.HighRate = b.HighRate ∧
      (b.Expedite < a.Expedite ∨ (a.Expedite = b.Expedite ∧ a.Time ≤ b.Time)))

instance expediteOrder.decidable : DecidableRel expediteOrder := fun a b => by
  unfold expediteOrder
  exact inferInstance

/-- Function `GetAllUnusedTransactions(dbTransaction, limit)` on the rows of table
`transactions`: `WHERE used = 0 ORDER BY high_rate,expedite DESC,time ASC`, with
`LIMIT limit` when `limit > 0`.  Rows that the clause does not tell apart keep their table
order. -/
def GetAllUnusedTransactions (transactions : List Transaction) (limit : Int) :
    List Transaction :=
  let query := (transactions.filter (fun t => t.Used == 0)).insertionSort expediteOrder
  if limit > 0 then query.take limit.toNat else query

/-! ## block/ban.go -/

/-- The section `conf.Config.BanKey` of the configuration: `BadTime` and `BanTime` are
minutes, `BadTx` is the size of the buffer of bad-transaction times. -/
structure BanKeyConfig where
  BadTime : Int
  BanTime : Int
  BadTx : Int
deriving DecidableEq

/-- Constant `time.Minute` as a `time.Duration`, in nanoseconds. -/
def Minute : Int := 60 * 1000000000

/-- The type `banKey`.  An instant (`time.Time`) is the number of nanoseconds elapsed since
the zero `time.Time`, so the zero value is `0`.  Durations are assumed not to overflow. -/
structure banKey where
  Time : Int
  Bad : List Int
deriving DecidableEq

/-- The variable `banList`, a `map[int64]banKey`. -/
abbrev BanList := Int → Option banKey

/-- The loop of `IsKeyBanned` over `i = 0 .. BadTx-1`, with `n` iterations left from index
`i`: `some true` when some `ban.Bad[i].Add(BadTime minutes).After(now)`, `some false` when
the loop runs to its end, `none` when `ban.Bad[i]` is out of range (a run-time panic). -/
def IsKeyBanned.scan (cfg : BanKeyConfig) (now : Int) (Bad : List Int) :
    Nat → Nat → Option Bool
  | 0, _ => some false
  | n + 1, i =>
    match Bad[i]? with
    | none => none
    | some t =>
      if now < t + cfg.BadTime * Minute then some true
      else IsKeyBanned.scan cfg now Bad n (i + 1)

/-- Function `IsKeyBanned(keyID)` with the clock reading `now`: the returned value and the
ban list afterwards; `none` is a run-time panic. -/
def IsKeyBanned (cfg : BanKeyConfig) (now : Int) (banList : BanList) (keyID : Int) :
    Option (Bool × BanList) :=
  match banList keyID with
  | some ban =>
    if now < ban.Time then some (true, banList)
    else
      match IsKeyBanned.scan cfg now ban.Bad cfg.BadTx.toNat 0 with
      | none => none
      | some true => some (false, banList)
      | some false =>
        -- Delete if time of all bad tx is old
        some (false, Function.update banList keyID none)
  | none => some (false, banList)

/-- The loop of `BadTxForBan` over `i = 0 .. BadTx-1`, with `n` iterations left from index
`i` and the current values of `bMin` and `count`; `none` is an index out of range. -/
def BadTxForBan.scan (cfg : BanKeyConfig) (now : Int) (Bad : List Int) :
    Nat → Nat → Nat → Int → Option (Nat × Int)
  | 0, _, bMin, count => some (bMin, count)
  | n + 1, i, bMin, count =>
    match Bad[i]? with
    | none => none
    | some t =>
      let count' := if now < t + cfg.BadTime * Minute then count + 1 else count
      if i > bMin then
        match Bad[bMin]? with
        | none => none
        | some tMin =>
          BadTxForBan.scan cfg now Bad n (i + 1) (if t < tMin then i else bMin) count'
      else BadTxForBan.scan cfg now Bad n (i + 1) bMin count'

/-- Function `BadTxForBan(keyID)` with the clock reading `now`: the ban list afterwards;
`none` is a run-time panic (an index out of range, or `make` with a negative size). -/
def BadTxForBan (cfg : BanKeyConfig) (now : Int) (banList : BanList) (keyID : Int) :
    Option BanList :=
  match banList keyID with
  | some ban =>
    match BadTxForBan.scan cfg now ban.Bad cfg.BadTx.toNat 0 0 0 with
    | none => none
    | some (bMin, count) =>
      if bMin < ban.Bad.length then
        let Bad := ban.Bad.set bMin now
        let Time := if count ≥ cfg.BadTx - 1 then now + cfg.BanTime * Minute else ban.Time
        some (Function.update banList keyID (some ⟨Time, Bad⟩))
      else none
  | none =>
    if cfg.BadTx ≤ 0 then none
    else
      some (Function.update banList keyID
        (some ⟨0, (List.replicate cfg.BadTx.toNat 0).set 0 now⟩))

/-! ## daemons/block_generator.go -/

/-- The fields of a decoded `transaction.Transaction` that the code below reads: `TxHash`,
`TxType`, `TxHeader.KeyID`, and whether `TxSmart` and `TxContract` are non-nil. -/
structure transaction.Transaction where
  TxHash : Bytes
  TxType : Int
  KeyID : Int
  TxSmart : Bool
  TxContract : Bool
deriving DecidableEq

/-- What `transaction.UnmarshallTransaction` hands back: a transaction and no error, or an
error together with a transaction that may be nil. -/
inductive Unmarshalled where
  | ok (tr : transaction.Transaction)
  | failed (tr : Option transaction.Transaction) (err : Err)
deriving DecidableEq

/-- The errors `limits.CheckLimit` can return: the two sentinels `block.ErrLimitStop` and
`block.ErrLimitSkip`, or any other error. -/
inductive LimitError where
  | ErrLimitStop
  | ErrLimitSkip
  | other (msg : Err)
deriving DecidableEq

/-- The error message `err.Error()` of a limit error. -/
def LimitError.Error : LimitError → Err
  | .ErrLimitStop => "Limit stop"
  | .ErrLimitSkip => "Limit skip"
  | .other msg => msg

/-- The functions `processTransactions` calls that live in other packages: the decoder
`transaction.UnmarshallTransaction`, and the block limits (`block.NewLimits(nil)` with its
stateful `CheckLimit`), whose state has type `L`. -/
structure GeneratorEnv (L : Type) where
  UnmarshallTransaction : Bytes → Unmarshalled
  NewLimits : L
  CheckLimit : L → transaction.Transaction → Option LimitError × L

/-- The local type `badTxStruct`: what is sent on `txBadChan`. -/
structure badTxStruct where
  hash : Bytes
  msg : Err
  keyID : Int
deriving DecidableEq

/-- The `for i, txItem := range txs` loop of `processTransactions`, from index `i` on, with
`rest` the transactions not yet visited, `limits` the state of the block limits, `txList`
the list collected so far and `bad` what has been sent on `txBadChan`.  `done i` tells
whether the deadline channel is ready when iteration `i` reaches the `select`.

The two `break` statements stand inside the `select`, so they leave the `select` and the
loop goes on with the next transaction. -/
def processTransactions.loop {L : Type} (env : GeneratorEnv L) (done : Nat → Bool) :
    Nat → List Transaction → L → List Transaction → List badTxStruct →
      List Transaction × List badTxStruct
  | _, [], _, txList, bad => (txList, bad)
  | i, txItem :: rest, limits, txList, bad =>
    if done i then (txList, bad)
    else if txItem.GetTransactionRateStopNetwork then
      -- txList = append(txList[:0], txs[i]); break
      processTransactions.loop env done (i + 1) rest limits [txItem] bad
    else
      match env.UnmarshallTransaction txItem.Data with
      | .failed (some tr) err =>
        processTransactions.loop env done (i + 1) rest limits txList
          (bad ++ [⟨tr.TxHash, err, tr.KeyID⟩])
      | .failed none _ =>
        processTransactions.loop env done (i + 1) rest limits txList bad
      | .ok tr =>
        if tr.TxSmart then
          match env.CheckLimit limits tr with
          | (some err, limits') =>
            if err = LimitError.ErrLimitStop ∧ i > 0 then
              -- break
              processTransactions.loop env done (i + 1) rest limits' txList bad
            else if err ≠ LimitError.ErrLimitSkip then
              processTransactions.loop env done (i + 1) rest limits' txList
                (bad ++ [⟨tr.TxHash, err.Error, tr.KeyID⟩])
            else
              processTransactions.loop env done (i + 1) rest limits' txList bad
          | (none, limits') =>
            processTransactions.loop env done (i + 1) rest limits' (txList ++ [txItem]) bad
        else
          processTransactions.loop env done (i + 1) rest limits (txList ++ [txItem]) bad

/-- Function `processTransactions(logger, txs, done, st)`: `txs` are the delayed
transactions, `pool` the rows of table `transactions` (the query for them is taken to
succeed), `maxTxCount` the value of `syspar.GetMaxTxCount()`.  The first component is the
returned list, the second what was reported as bad. -/
def processTransactions {L : Type} (env : GeneratorEnv L) (pool : List Transaction)
    (maxTxCount : Int) (txs : List Transaction) (done : Nat → Bool) :
    List Transaction × List badTxStruct :=
  let trs := GetAllUnusedTransactions pool maxTxCount
  processTransactions.loop env done 0 (txs ++ trs) env.NewLimits [] []

/-! ## The persistent store -/

/-- The row type `model.Block` of table `block_chain`. -/
structure model.Block where
  ID : Int
  Hash : Bytes
  RollbacksHash : Bytes
  Data : Bytes
  EcosystemID : Int
  KeyID : Int
  NodePosition : Int
  Time : Int
  Tx : Int
deriving DecidableEq

/-- The zero value of `model.Block`, what `&model.Block{}` holds before a query fills it. -/
def model.Block.zero : model.Block := ⟨0, [], [], [], 0, 0, 0, 0, 0⟩

/-- The row type `model.InfoBlock` of the singleton table `info_block`, with the fields
that `RollbackBlock` sets. -/
structure model.InfoBlock where
  Hash : Bytes
  RollbacksHash : Bytes
  BlockID : Int
  NodePosition : String
  KeyID : Int
  Time : Int
  CurrentVersion : String
deriving DecidableEq

/-- The persistent state: the tables `block_chain`, `info_block` and `transactions`, and
`rest` for all the other tables. -/
structure DB (ρ : Type) where
  block_chain : List model.Block
  info_block : Option model.InfoBlock
  transactions : List Transaction
  rest : ρ

/-- Calls on the database connection that open or close a transaction. -/
inductive DbEvent where
  | StartTransaction
  | Rollback
  | Commit
deriving DecidableEq

/-- What a function that works on the store leaves behind: the persistent state `db`, the
returned error `err` (`none` is `nil`), and the transaction calls it made, in order. -/
structure Outcome (ρ : Type) where
  db : DB ρ
  err : Option Err
  events : List DbEvent

/-- Function `MarkTransactionUnusedAndUnverified`:
`UPDATE transactions SET used = 0, verified = 0 WHERE hash = ?`. -/
def MarkTransactionUnusedAndUnverified (transactions : List Transaction)
    (transactionHash : Bytes) : List Transaction :=
  transactions.map fun t =>
    if t.Hash = transactionHash then { t with Used := 0, Verified := 0 } else t

/-- Function `MarkVerifiedAndNotUsedTransactionsUnverified`:
`UPDATE transactions SET verified = 0 WHERE verified = 1 AND used = 0`. -/
def MarkVerifiedAndNotUsedTransactionsUnverified (transactions : List Transaction) :
    List Transaction :=
  transactions.map fun t =>
    if t.Verified = 1 ∧ t.Used = 0 then { t with Verified := 0 } else t

/-- Method `(b *Block) GetMaxBlock`, that is `DBConn.Last(b)`: the row with the greatest primary
key; `b` keeps its zero value when the table is empty. -/
def model.Block.GetMaxBlock : List model.Block → model.Block
  | [] => model.Block.zero
  | r :: rows => rows.foldl (fun b x => if b.ID < x.ID then x else b) r

/-- Modelled from the spec: the body of `(b *Block) Get(blockID)` is missing in the source;
the spec has it load the block with the given id ("Load parent block").  It is the lookup
by primary key, and `b` keeps its zero value when there is no such row. -/
def model.Block.Get (block_chain : List model.Block) (blockID : Int) : model.Block :=
  (block_chain.find? (fun r => r.ID == blockID)).getD model.Block.zero

/-- Method `(b *Block) DeleteById`: `DELETE FROM block_chain WHERE id = ?`. -/
def model.Block.DeleteById (block_chain : List model.Block) (id : Int) : List model.Block :=
  block_chain.filter (fun r => r.ID != id)

/-- Method `(b *Block) GetBlocksFrom(startFromID, ordering, limit)`: the rows with
`id > startFromID` ordered by id, descending when `ordering` is `"desc"` and ascending
otherwise, all of them when `limit` is 0 (or negative) and the first `limit` otherwise. -/
def model.Block.GetBlocksFrom (block_chain : List model.Block) (startFromID : Int)
    (ordering : String) (limit : Int) : List model.Block :=
  let rows := block_chain.filter (fun r => decide (r.ID > startFromID))
  let sorted :=
    if ordering = "desc" then rows.insertionSort (fun a b => a.ID ≥ b.ID)
    else rows.insertionSort (fun a b => a.ID ≤ b.ID)
  if limit > 0 then sorted.take limit.toNat else sorted

/-! ## rollback/block.go -/

/-- The fields of `utils.BlockData` (a block header) that the code below reads. -/
structure utils.BlockData where
  BlockID : Int
  Time : Int
  EcosystemID : Int
  KeyID : Int
  NodePosition : Int
  Version : Int
  Hash : Bytes
  RollbacksHash : Bytes
deriving DecidableEq

/-- The fields of a decoded `block.Block` that the code below reads. -/
structure block.Block where
  Header : utils.BlockData
  PrevHeader : utils.BlockData
  MrklRoot : Bytes
  Transactions : List transaction.Transaction
  SysUpdate : Bool
deriving DecidableEq

/-- Variable `ErrLastBlock = errors.New("Block is not the last")`. -/
def ErrLastBlock : Err := "Block is not the last"

/-- A step on a state `σ`: the state it leaves and the error it returns, if any. -/
abbrev Step (σ : Type) := σ → σ × Option Err

/-- Run `f` after a step that returned no error; keep the error otherwise. -/
def Step.next {σ : Type} (r : σ × Option Err) (f : Step σ) : σ × Option Err :=
  match r with
  | (s, none) => f s
  | (s, some e) => (s, some e)

/-- The functions that `rollbackBlock` calls for each transaction, on the state `σ` of the
open DB transaction: the four statements on `transactions`, `log_transactions`,
`transactions_status` and `queue_tx`, the contract rollback `rollbackTransaction`, and for
the other transactions `transaction.GetTransaction` and the `Init` and `Rollback` of the
handler it returns; with the table `consts.TxTypes` and the wrapper `utils.ErrInfo`. -/
structure RollbackOps (σ : Type) where
  MarkTransactionUnusedAndUnverified : Bytes → Step σ
  DeleteLogTransactionsByHash : Bytes → Step σ
  UpdateBlockID : Int → Bytes → Step σ
  DeleteQueueTxByHash : Bytes → Step σ
  rollbackTransaction : Bytes → Step σ
  TxTypes : Int → String
  GetTransaction : transaction.Transaction → String → Step σ
  Init : transaction.Transaction → Step σ
  Rollback : transaction.Transaction → Step σ
  ErrInfo : Err → Err

/-- Wrap the error of a step with `utils.ErrInfo`. -/
def RollbackOps.wrap {σ : Type} (ops : RollbackOps σ) (r : σ × Option Err) :
    σ × Option Err :=
  (r.1, r.2.map ops.ErrInfo)

/-- The body of the loop of `rollbackBlock` for the transaction `t`. -/
def rollbackBlock.body {σ : Type} (ops : RollbackOps σ) (t : transaction.Transaction) :
    Step σ := fun s =>
  Step.next (ops.MarkTransactionUnusedAndUnverified t.TxHash s) fun s =>
  Step.next (ops.DeleteLogTransactionsByHash t.TxHash s) fun s =>
  Step.next (ops.UpdateBlockID 0 t.TxHash s) fun s =>
  Step.next (ops.DeleteQueueTxByHash t.TxHash s) fun s =>
  if t.TxContract then ops.rollbackTransaction t.TxHash s
  else
    Step.next (ops.wrap (ops.GetTransaction t (ops.TxTypes t.TxType) s)) fun s =>
    Step.next (ops.wrap (ops.Init t s)) fun s =>
    ops.wrap (ops.Rollback t s)

/-- The loop `for i := len(block.Transactions) - 1; i >= 0; i--` of `rollbackBlock`, about
to run with `i = n - 1`. -/
def rollbackBlock.loop {σ : Type} (ops : RollbackOps σ)
    (Transactions : List transaction.Transaction) :
    (n : Nat) → n ≤ Transactions.length → Step σ
  | 0, _, s => (s, none)
  | i + 1, h, s =>
    let t := Transactions.get ⟨i, h⟩
    Step.next (rollbackBlock.body ops t s) (rollbackBlock.loop ops Transactions i (by omega))

/-- Function `rollbackBlock(dbTransaction, block)`. -/
def rollbackBlock {σ : Type} (ops : RollbackOps σ) (block : block.Block) : Step σ :=
  rollbackBlock.loop ops block.Transactions block.Transactions.length (le_refl _)

/-- What `RollbackBlock` needs from outside: the decoder `block.UnmarshallBlock`, the
functions called by `rollbackBlock`, `(ib *InfoBlock) Update`, and the errors with which
the database may answer `GetMaxBlock`, `StartTransaction`, `DeleteById`, `Get` and
`Commit` (`none` when it answers normally). -/
structure RollbackEnv (ρ : Type) where
  UnmarshallBlock : Bytes → Bool → Except Err block.Block
  ops : RollbackOps (DB ρ)
  Update : model.InfoBlock → Step (DB ρ)
  GetMaxBlockErr : DB ρ → Option Err
  StartTransactionErr : DB ρ → Option Err
  DeleteByIdErr : DB ρ → Option Err
  GetErr : DB ρ → Option Err
  CommitErr : DB ρ → Option Err

/-- Modelled from the spec: the statements of `RollbackBlock` between the check of the tip
and the lookup of the parent are missing in the source.  By the spec (4.5, steps 2 and 3,
and `block_chain` being "append-only except deletes during rollback") they open the DB
transaction, run `rollbackBlock` on the decoded block and delete the row of the block; an
error after the transaction is open rolls it back.  The result is the state inside the
transaction, or the error to return together with the transaction calls made. -/
def RollbackBlock.undo {ρ : Type} (env : RollbackEnv ρ) (bl : block.Block) (db : DB ρ) :
    Except (Err × List DbEvent) (DB ρ) :=
  match env.StartTransactionErr db with
  | some err => .error (err, [])
  | none =>
    match rollbackBlock env.ops bl db with
    | (_, some err) => .error (err, [.StartTransaction, .Rollback])
    | (w, none) =>
      match env.DeleteByIdErr w with
      | some err => .error (err, [.StartTransaction, .Rollback])
      | none =>
        .ok { w with block_chain := model.Block.DeleteById w.block_chain bl.Header.BlockID }

/-- Function `RollbackBlock(data)` on the persistent state `db`. -/
def RollbackBlock {ρ : Type} (env : RollbackEnv ρ) (data : Bytes) (db : DB ρ) : Outcome ρ :=
  match env.UnmarshallBlock data true with
  | .error err => ⟨db, some err, []⟩
  | .ok bl =>
    match env.GetMaxBlockErr db with
    | some err => ⟨db, some err, []⟩
    | none =>
      let b := model.Block.GetMaxBlock db.block_chain
      if b.ID ≠ bl.Header.BlockID then ⟨db, some ErrLastBlock, []⟩
      else
        match RollbackBlock.undo env bl db with
        | .error (err, events) => ⟨db, some err, events⟩
        | .ok w =>
          match env.GetErr db with
          | some err => ⟨db, some err, [.StartTransaction, .Rollback]⟩
          | none =>
            let b := model.Block.Get db.block_chain (bl.Header.BlockID - 1)
            match env.UnmarshallBlock b.Data false with
            | .error err => ⟨db, some err, [.StartTransaction, .Rollback]⟩
            | .ok bl =>
              let ib : model.InfoBlock :=
                { Hash := b.Hash
                  RollbacksHash := b.RollbacksHash
                  BlockID := b.ID
                  NodePosition := toString b.NodePosition
                  KeyID := b.KeyID
                  Time := b.Time
                  CurrentVersion := toString bl.Header.Version }
              match env.Update ib w with
              | (_, some err) => ⟨db, some err, [.StartTransaction, .Rollback]⟩
              | (w, none) =>
                match env.CommitErr w with
                | some err => ⟨db, some err, [.StartTransaction, .Commit]⟩
                | none => ⟨w, none, [.StartTransaction, .Commit]⟩

/-! ## daemons/blocks_collection.go -/

/-- What `processBlocks` and `ReplaceBlocksFromHost` need from outside: the environment of
`RollbackBlock`; the hash `crypto.DoubleHash(b.Header.ForSha(b.PrevHeader, b.MrklRoot))`;
the methods `Check` (which may read the committed state and the state inside the
transaction) and `Play` of a block; `block.UpdBlockInfo`, `syspar.SysUpdate` and
`block.InsertIntoBlockchain`; and the errors with which the database may answer
`StartTransaction`, `Commit`, `MarkVerifiedAndNotUsedTransactionsUnverified` and
`GetBlocksFrom`. -/
structure BlocksEnv (ρ : Type) where
  rb : RollbackEnv ρ
  HeaderHash : block.Block → Bytes
  Check : block.Block → DB ρ → DB ρ → Option Err
  Play : block.Block → Step (DB ρ)
  UpdBlockInfo : block.Block → Step (DB ρ)
  SysUpdate : Step (DB ρ)
  InsertIntoBlockchain : block.Block → Step (DB ρ)
  StartTransactionErr : DB ρ → Option Err
  CommitErr : DB ρ → Option Err
  MarkErr : DB ρ → Option Err
  GetBlocksFromErr : DB ρ → Option Err

/-- The calls made by `processBlocks` whose error it returns. -/
inductive processBlocks.Call where
  | StartTransaction
  | Check
  | Play
  | UpdBlockInfo
  | SysUpdate
  | InsertIntoBlockchain
  | Commit
deriving DecidableEq, Repr

/-- What `processBlocks` and `ReplaceBlocksFromHost` leave behind: the committed persistent
state `db`; the content `dbTransaction` of a DB transaction that is still open at the
return, that is, started and neither rolled back nor committed (`none` when no transaction
is open); the returned error; the call of `processBlocks` that failed, if one did; and the
transaction calls made, in order. -/
structure BlocksOutcome (ρ : Type) where
  db : DB ρ
  dbTransaction : Option (DB ρ)
  err : Option Err
  failed : Option processBlocks.Call
  events : List DbEvent

/-- The first loop of `processBlocks`, about to run with `i = n - 1`: `db` is the committed
state, `prevBlocks` the map of the blocks played so far, `played` these blocks as the loop
left them, `w` the state inside the transaction.  The returns after
`dbTransaction.Rollback()` drop the content of the transaction; the return after a failed
`syspar.SysUpdate` makes no such call and leaves the transaction open with what was
written in it. -/
def processBlocks.play {ρ : Type} (env : BlocksEnv ρ) (db : DB ρ)
    (blocks : List block.Block) :
    (n : Nat) → n ≤ blocks.length → (Int → Option block.Block) → List block.Block →
      DB ρ →
      Except (BlocksOutcome ρ) (List block.Block × DB ρ)
  | 0, _, _, played, w => .ok (played, w)
  | i + 1, h, prevBlocks, played, w =>
    let b := blocks.get ⟨i, h⟩
    let b : block.Block :=
      match prevBlocks (b.Header.BlockID - 1) with
      | some p =>
        { b with
          PrevHeader :=
            { b.PrevHeader with
              Hash := p.Header.Hash
              RollbacksHash := p.Header.RollbacksHash
              Time := p.Header.Time
              BlockID := p.Header.BlockID
              EcosystemID := p.Header.EcosystemID
              KeyID := p.Header.KeyID
              NodePosition := p.Header.NodePosition } }
      | none => b
    let b : block.Block := { b with Header := { b.Header with Hash := env.HeaderHash b } }
    match env.Check b db w with
    | some err =>
      -- dbTransaction.Rollback(); return err
      .error ⟨db, none, some err, some .Check, [.StartTransaction, .Rollback]⟩
    | none =>
      match env.Play b w with
      | (_, some err) =>
        -- dbTransaction.Rollback(); return utils.ErrInfo(err)
        .error ⟨db, none, some (env.rb.ops.ErrInfo err), some .Play,
          [.StartTransaction, .Rollback]⟩
      | (w, none) =>
        let prevBlocks := Function.update prevBlocks b.Header.BlockID (some b)
        -- for last block we should update block info
        match (if i = 0 then env.UpdBlockInfo b w else (w, none)) with
        | (_, some err) =>
          -- dbTransaction.Rollback(); return utils.ErrInfo(err)
          .error ⟨db, none, some (env.rb.ops.ErrInfo err), some .UpdBlockInfo,
            [.StartTransaction, .Rollback]⟩
        | (w, none) =>
          match (if b.SysUpdate then env.SysUpdate w else (w, none)) with
          | (w, some err) =>
            -- return utils.ErrInfo(err), without dbTransaction.Rollback()
            .error ⟨db, some w, some (env.rb.ops.ErrInfo err), some .SysUpdate,
              [.StartTransaction]⟩
          | (w, none) =>
            processBlocks.play env db blocks i (by omega) prevBlocks (b :: played) w

/-- The second loop of `processBlocks` over the played blocks, about to run with
`i = n - 1`. -/
def processBlocks.insert {ρ : Type} (env : BlocksEnv ρ) (blocks : List block.Block) :
    (n : Nat) → n ≤ blocks.length → Step (DB ρ)
  | 0, _, w => (w, none)
  | i + 1, h, w =>
    Step.next (env.InsertIntoBlockchain (blocks.get ⟨i, h⟩) w)
      (processBlocks.insert env blocks i (by omega))

/-- Function `processBlocks(blocks)` on the persistent state `db`. -/
def processBlocks {ρ : Type} (env : BlocksEnv ρ) (blocks : List block.Block) (db : DB ρ) :
    BlocksOutcome ρ :=
  match env.StartTransactionErr db with
  | some err => ⟨db, none, some (env.rb.ops.ErrInfo err), some .StartTransaction, []⟩
  | none =>
    match processBlocks.play env db blocks blocks.length (le_refl _) (fun _ => none) [] db with
    | .error o => o
    | .ok (played, w) =>
      -- If all right we can delete old blockchain and write new
      match processBlocks.insert env played played.length (le_refl _) w with
      | (_, some err) =>
        -- dbTransaction.Rollback(); return err
        ⟨db, none, some err, some .InsertIntoBlockchain, [.StartTransaction, .Rollback]⟩
      | (w, none) =>
        -- return dbTransaction.Commit()
        match env.CommitErr w with
        | some err => ⟨db, none, some err, some .Commit, [.StartTransaction, .Commit]⟩
        | none => ⟨w, none, none, none, [.StartTransaction, .Commit]⟩

/-- The loop `for _, b := range myRollbackBlocks` of `ReplaceBlocksFromHost`, from the
outcome `o` reached so far; it stops at the first error, wrapped by `utils.ErrInfo`. -/
def ReplaceBlocksFromHost.rollbackOld {ρ : Type} (env : BlocksEnv ρ) :
    List model.Block → Outcome ρ → Outcome ρ
  | [], o => o
  | b :: myRollbackBlocks, o =>
    let r := RollbackBlock env.rb b.Data o.db
    match r.err with
    | some err => ⟨r.db, some (env.rb.ops.ErrInfo err), o.events ++ r.events⟩
    | none =>
      ReplaceBlocksFromHost.rollbackOld env myRollbackBlocks
        ⟨r.db, none, o.events ++ r.events⟩

/-- The part of `ReplaceBlocksFromHost` that precedes `processBlocks`, given the result
`blocks` of `getBlocks`: mark the verified and unused pool transactions unverified, take
the starting `blockID` from the last fetched block, and roll back the local blocks from
there on, newest first. -/
def ReplaceBlocksFromHost.prepare {ρ : Type} (env : BlocksEnv ρ) (blocks : List block.Block)
    (blockID : Int) (db : DB ρ) : Outcome ρ :=
  -- mark all transaction as unverified
  match env.MarkErr db with
  | some err => ⟨db, some (env.rb.ops.ErrInfo err), []⟩
  | none =>
    let db : DB ρ :=
      { db with transactions := MarkVerifiedAndNotUsedTransactionsUnverified db.transactions }
    -- get starting blockID from slice of blocks
    let blockID :=
      match blocks.getLast? with
      | some b => b.Header.BlockID
      | none => blockID
    match env.GetBlocksFromErr db with
    | some err => ⟨db, some (env.rb.ops.ErrInfo err), []⟩
    | none =>
      let myRollbackBlocks := model.Block.GetBlocksFrom db.block_chain (blockID - 1) "desc" 0
      ReplaceBlocksFromHost.rollbackOld env myRollbackBlocks ⟨db, none, []⟩

/-- Function `ReplaceBlocksFromHost(ctx, host, blockID, replaceCount)` on the persistent state `db`,
where `fetched` is what `getBlocks(ctx, host, blockID, replaceCount)` returns.  The cache of
`transaction.CleanCache` and the objects of `smart.SavepointSmartVMObjects` live in memory
and are not part of the persistent state. -/
def ReplaceBlocksFromHost {ρ : Type} (env : BlocksEnv ρ)
    (fetched : Except Err (List block.Block)) (blockID : Int) (db : DB ρ) :
    BlocksOutcome ρ :=
  match fetched with
  | .error err => ⟨db, none, some err, none, []⟩
  | .ok blocks =>
    let o := ReplaceBlocksFromHost.prepare env blocks blockID db
    match o.err with
    | some err => ⟨o.db, none, some err, none, o.events⟩
    | none =>
      -- err = processBlocks(blocks)
      let r := processBlocks env blocks o.db
      ⟨r.db, r.dbTransaction, r.err, r.failed, o.events ++ r.events⟩

/-! ## The ordering stated by the specification, and concrete inputs -/

/-- The order as the specification words it, `(high_rate DESC, expedite DESC, time ASC)`:
row `a` may precede row `b`. -/
def specOrder (a b : Transaction) : Prop :=
  b.HighRate < a.HighRate ∨
    (a.HighRate = b.HighRate ∧
      (b.Expedite < a.Expedite ∨ (a.Expedite = b.Expedite ∧ a.Time ≤ b.Time)))

instance specOrder.decidable : DecidableRel specOrder := fun a b => by
  unfold specOrder
  exact inferInstance

/-- A pool row with the given hash (also its data), rate and time: unused, verified. -/
def poolRow (hash : Nat) (highRate : Int) (time : Int) : Transaction :=
  { Hash := [hash], Data := [hash], Used := 0, HighRate := highRate, Expedite := 0,
    Type_ := 0, KeyID := 1, Sent := 0, Verified := 1, Time := time }

/-- A decoder that accepts every transaction; the transaction whose data is `[0]` decodes
to one without `TxSmart`, every other to a smart-contract transaction. -/
def decodeAll (data : Bytes) : Unmarshalled :=
  .ok { TxHash := data, TxType := 0, KeyID := 1, TxSmart := data != [0], TxContract := true }

/-- Limits that never object. -/
def noLimits : GeneratorEnv Unit :=
  { UnmarshallTransaction := decodeAll, NewLimits := (), CheckLimit := fun _ _ => (none, ()) }

/-- Limits that count the checked transactions and answer `ErrLimitStop` from the second
one on. -/
def stopAfterOne : GeneratorEnv Nat :=
  { UnmarshallTransaction := decodeAll
    NewLimits := 0
    CheckLimit := fun n _ => (if n ≥ 1 then some LimitError.ErrLimitStop else none, n + 1) }

/-- The configuration of scenario S6: a window of 10 minutes, a ban of 60 minutes, a buffer
of 5 slots. -/
def S6.cfg : BanKeyConfig := { BadTime := 10, BanTime := 60, BadTx := 5 }

/-- Five times, one minute apart, from minute 1000 on. -/
def S6.times : List Int :=
  [1000 * Minute, 1001 * Minute, 1002 * Minute, 1003 * Minute, 1004 * Minute]

/-- The empty ban list. -/
def BanList.empty : BanList := fun _ => none

/-- A ban list in which key 7 has an expired ban time and one bad transaction at minute
1000. -/
def S6.oneBad : BanList :=
  Function.update BanList.empty 7 (some ⟨0, [1000 * Minute, 0, 0, 0, 0]⟩)

/-- A ban list in which key 7 has an entry whose times are all old. -/
def S6.allOld : BanList :=
  Function.update BanList.empty 7 (some ⟨0, [0, 0, 0, 0, 0]⟩)

/-! ## Recording the calls of `rollbackBlock` -/

/-- The names of the functions `rollbackBlock` calls for a transaction. -/
inductive StepName where
  | MarkTransactionUnusedAndUnverified
  | DeleteLogTransactionsByHash
  | UpdateBlockID
  | DeleteQueueTxByHash
  | rollbackTransaction
  | GetTransaction
  | Init
  | Rollback
deriving DecidableEq

/-- A recorded call: the function, the hash of the transaction it was called for, and the
error it returned. -/
structure Call where
  step : StepName
  hash : Bytes
  err : Option Err
deriving DecidableEq

/-- The function and the hash of a recorded call. -/
def Call.key (c : Call) : StepName × Bytes := (c.step, c.hash)

/-- Run the step `f` and append the call to the record kept beside the state. -/
def Step.record {σ : Type} (name : StepName) (hash : Bytes) (f : Step σ) :
    Step (σ × List Call) := fun s =>
  (((f s.1).1, s.2 ++ [⟨name, hash, (f s.1).2⟩]), (f s.1).2)

/-- The functions `ops`, each recording its calls. -/
def RollbackOps.traced {σ : Type} (ops : RollbackOps σ) : RollbackOps (σ × List Call) :=
  { MarkTransactionUnusedAndUnverified := fun h =>
      Step.record .MarkTransactionUnusedAndUnverified h
        (ops.MarkTransactionUnusedAndUnverified h)
    DeleteLogTransactionsByHash := fun h =>
      Step.record .DeleteLogTransactionsByHash h (ops.DeleteLogTransactionsByHash h)
    UpdateBlockID := fun id h => Step.record .UpdateBlockID h (ops.UpdateBlockID id h)
    DeleteQueueTxByHash := fun h =>
      Step.record .DeleteQueueTxByHash h (ops.DeleteQueueTxByHash h)
    rollbackTransaction := fun h =>
      Step.record .rollbackTransaction h (ops.rollbackTransaction h)
    TxTypes := ops.TxTypes
    GetTransaction := fun t m => Step.record .GetTransaction t.TxHash (ops.GetTransaction t m)
    Init := fun t => Step.record .Init t.TxHash (ops.Init t)
    Rollback := fun t => Step.record .Rollback t.TxHash (ops.Rollback t)
    ErrInfo := ops.ErrInfo }

/-- The calls that undo one transaction when none of them fails. -/
def rollbackBlock.calls (t : transaction.Transaction) : List (StepName × Bytes) :=
  [(.MarkTransactionUnusedAndUnverified, t.TxHash), (.DeleteLogTransactionsByHash, t.TxHash),
    (.UpdateBlockID, t.TxHash), (.DeleteQueueTxByHash, t.TxHash)] ++
  if t.TxContract then [(.rollbackTransaction, t.TxHash)]
  else [(.GetTransaction, t.TxHash), (.Init, t.TxHash), (.Rollback, t.TxHash)]

/-- What the record `cs` of the calls for one transaction `t` looks like when the body of
the loop returned `err`. -/
def BodyLog {σ : Type} (ops : RollbackOps σ) (t : transaction.Transaction) (cs : List Call)
    (err : Option Err) : Prop :=
  cs ≠ [] ∧ (cs.map Call.key) <+: rollbackBlock.calls t ∧
  (∀ c ∈ cs.dropLast, c.err = none) ∧
  (err = none → cs.map Call.key = rollbackBlock.calls t ∧ ∀ c ∈ cs, c.err = none) ∧
  (∀ e, err = some e → ∃ c e0, cs.getLast? = some c ∧ c.err = some e0 ∧
    (e = e0 ∨ e = ops.ErrInfo e0))

/-! ## A small store and environment for concrete runs -/

/-- A row of `block_chain` with the given id, whose data is the id as one byte. -/
def chainRow (id : Nat) : model.Block :=
  { ID := id, Hash := [id], RollbacksHash := [], Data := [id], EcosystemID := 1, KeyID := 1,
    NodePosition := 0, Time := id, Tx := 0 }

/-- A decoded block with the given id and no transactions. -/
def plainBlock (id : Nat) : block.Block :=
  { Header := ⟨id, id, 1, 1, 0, 1, [], []⟩
    PrevHeader := ⟨id - 1, id - 1, 1, 1, 0, 1, [], []⟩
    MrklRoot := []
    Transactions := []
    SysUpdate := false }

/-- A decoder of blocks: one byte `n` is the block `plainBlock n`, anything else an
error. -/
def decodeBlock : Bytes → Bool → Except Err block.Block
  | [n], _ => .ok (plainBlock n)
  | _, _ => .error "bad block data"

/-- Steps that all succeed and change nothing. -/
def idleOps (σ : Type) : RollbackOps σ :=
  { MarkTransactionUnusedAndUnverified := fun _ s => (s, none)
    DeleteLogTransactionsByHash := fun _ s => (s, none)
    UpdateBlockID := fun _ _ s => (s, none)
    DeleteQueueTxByHash := fun _ s => (s, none)
    rollbackTransaction := fun _ s => (s, none)
    TxTypes := fun _ => ""
    GetTransaction := fun _ _ s => (s, none)
    Init := fun _ s => (s, none)
    Rollback := fun _ s => (s, none)
    ErrInfo := fun e => e }

/-- An environment of `RollbackBlock` in which the database never fails. -/
def idleRollbackEnv : RollbackEnv Unit :=
  { UnmarshallBlock := decodeBlock
    ops := idleOps (DB Unit)
    Update := fun ib db => ({ db with info_block := some ib }, none)
    GetMaxBlockErr := fun _ => none
    StartTransactionErr := fun _ => none
    DeleteByIdErr := fun _ => none
    GetErr := fun _ => none
    CommitErr := fun _ => none }

/-- An environment of `processBlocks` in which every block fails its `Check`. -/
def failingCheckEnv : BlocksEnv Unit :=
  { rb := idleRollbackEnv
    HeaderHash := fun b => [b.Header.BlockID.toNat]
    Check := fun _ _ _ => some "check failed"
    Play := fun _ db => (db, none)
    UpdBlockInfo := fun _ db => (db, none)
    SysUpdate := fun db => (db, none)
    InsertIntoBlockchain := fun _ db => (db, none)
    StartTransactionErr := fun _ => none
    CommitErr := fun _ => none
    MarkErr := fun _ => none
    GetBlocksFromErr := fun _ => none }

/-- An environment of `processBlocks` in which `Play` marks the pool transactions used and
`syspar.SysUpdate` fails. -/
def failingSysUpdateEnv : BlocksEnv Unit :=
  { failingCheckEnv with
    Check := fun _ _ _ => none
    Play := fun _ db =>
      ({ db with transactions := db.transactions.map fun t => { t with Used := 1 } }, none)
    SysUpdate := fun db => (db, some "sysupdate failed") }

/-- A store with blocks 1 and 2 and one verified, unused pool transaction. -/
def smallStore : DB Unit :=
  { block_chain := [chainRow 1, chainRow 2]
    info_block := none
    transactions := [poolRow 1 2 5]
    rest := () }

/-! ## The pool and the log of transactions under `rollbackBlock` -/

/-- The row type `model.LogTransaction` of table `log_transactions`, with the fields that
`InsertInLogTx` sets. -/
structure model.LogTransaction where
  Hash : Bytes
  Block : Int
deriving DecidableEq

/-- The tables besides `block_chain`, `info_block` and `transactions`: `log_transactions`,
and `other` for the remaining ones. -/
structure Tables (τ : Type) where
  log_transactions : List model.LogTransaction
  other : τ

/-- Modelled from the spec: `model.DeleteLogTransactionsByHash` is not in the sources.  By
the spec (4.5, step 3) the rollback of a transaction "deletes log-transaction ... entries
for that hash", that is `DELETE FROM log_transactions WHERE hash = ?`. -/
def DeleteLogTransactionsByHash (log_transactions : List model.LogTransaction)
    (hash : Bytes) : List model.LogTransaction :=
  log_transactions.filter (fun r => r.Hash != hash)

/-- The callees of `rollbackBlock` on the store: `MarkTransactionUnusedAndUnverified` and
`DeleteLogTransactionsByHash` as statements on their tables, each failing when the
database answers with an error (`markErr`, `deleteErr`), and the functions of `ext` for
the callees that are not in the sources. -/
def storeOps {τ : Type} (ext : RollbackOps (DB (Tables τ)))
    (markErr deleteErr : Bytes → DB (Tables τ) → Option Err) : RollbackOps (DB (Tables τ)) :=
  { ext with
    MarkTransactionUnusedAndUnverified := fun hash db =>
      match markErr hash db with
      | some err => (db, some err)
      | none =>
        ({ db with transactions := MarkTransactionUnusedAndUnverified db.transactions hash },
          none)
    DeleteLogTransactionsByHash := fun hash db =>
      match deleteErr hash db with
      | some err => (db, some err)
      | none =>
        ({ db with
            rest := { db.rest with
              log_transactions := DeleteLogTransactionsByHash db.rest.log_transactions hash } },
          none) }

/-- A step leaves the tables `transactions` and `log_transactions` as they are. -/
def Step.KeepsPoolAndLog {τ : Type} (f : Step (DB (Tables τ))) : Prop :=
  ∀ db, (f db).1.transactions = db.transactions ∧
    (f db).1.rest.log_transactions = db.rest.log_transactions

/-- The callees of `rollbackBlock` that are not in the sources (`UpdateBlockID` on
`transactions_status`, `DeleteQueueTxByHash` on `queue_tx`, the rollback of the contract
or of the handler) leave the tables `transactions` and `log_transactions` as they are. -/
def RollbackOps.KeepPoolAndLog {τ : Type} (ext : RollbackOps (DB (Tables τ))) : Prop :=
  (∀ id hash, Step.KeepsPoolAndLog (ext.UpdateBlockID id hash)) ∧
  (∀ hash, Step.KeepsPoolAndLog (ext.DeleteQueueTxByHash hash)) ∧
  (∀ hash, Step.KeepsPoolAndLog (ext.rollbackTransaction hash)) ∧
  (∀ t name, Step.KeepsPoolAndLog (ext.GetTransaction t name)) ∧
  (∀ t, Step.KeepsPoolAndLog (ext.Init t)) ∧
  (∀ t, Step.KeepsPoolAndLog (ext.Rollback t))

/-- The pool after the transactions with the hashes `hashes` were marked unused and
unverified. -/
def markAll (hashes : List Bytes) (transactions : List Transaction) : List Transaction :=
  transactions.map fun r => if r.Hash ∈ hashes then { r with Used := 0, Verified := 0 } else r

/-- A decoded block with the given id and two transactions, with hashes `[1]` (a contract)
and `[2]`. -/
def twoTxBlock (id : Nat) : block.Block :=
  { plainBlock id with
    Transactions := [⟨[1], 0, 1, true, true⟩, ⟨[2], 0, 1, false, false⟩] }

/-- A store with three pool rows, two of them used, and two logged transactions. -/
def loggedStore : DB (Tables Unit) :=
  { block_chain := [chainRow 1, chainRow 2]
    info_block := none
    transactions :=
      [{ poolRow 1 2 5 with Used := 1 }, { poolRow 2 2 6 with Used := 1 }, poolRow 3 2 7]
    rest := { log_transactions := [⟨[1], 2⟩, ⟨[2], 2⟩, ⟨[9], 1⟩], other := () } }

/-! ## daemons/blocks_collection.go: `getBlocks` -/

/-- What `getBlocks` needs from outside: the system parameter `syspar.GetRbBlocks1()`; the
answer of `tcpclient.GetBlocksBodies`, an error or the bodies the peer sends on the
channel, in order; `block.ProcessBlockWherePrevFromBlockchainTable`;
`syspar.GetNodePublicKeyByPosition`; whether `utils.CheckSign` accepts the signature of a
block under a key; and the wrappers `utils.WithBan` and `utils.ErrInfo`. -/
structure FetchEnv where
  GetRbBlocks1 : Int
  GetBlocksBodies : Except Err (List Bytes)
  ProcessBlockWherePrevFromBlockchainTable : Bytes → Except Err block.Block
  GetNodePublicKeyByPosition : Int → Except Err Bytes
  CheckSign : Bytes → block.Block → Bool
  WithBan : Err → Err
  ErrInfo : Err → Err

/-- The loop `for binaryBlock := range blocksCh` of `getBlocks` over the bodies still to
come, with the blocks saved so far and the id expected next. -/
def getBlocks.loop (env : FetchEnv) (blockID minCount : Int) :
    List Bytes → List block.Block → Int → Except Err (List block.Block)
  | [], blocks, _ => .ok blocks
  | binaryBlock :: blocksCh, blocks, nextBlockID =>
    if blockID < 2 then .ok blocks
    -- if the limit of blocks received from the node was exaggerated
    else if (blocks.length : Int) ≥ env.GetRbBlocks1 then .ok blocks
    else
      match env.ProcessBlockWherePrevFromBlockchainTable binaryBlock with
      | .error err => .error err
      | .ok bl =>
        if bl.Header.BlockID ≠ nextBlockID then
          .error (env.WithBan "bad block_data['block_id']")
        else
          -- the public key of the one who has generated this block
          match env.GetNodePublicKeyByPosition bl.Header.NodePosition with
          | .error err => .error (env.ErrInfo err)
          | .ok nodePublicKey =>
            -- save the block
            let blocks := blocks ++ [bl]
            -- check the signature
            if env.CheckSign nodePublicKey bl ∧ (blocks.length : Int) ≥ minCount then
              .ok blocks
            else getBlocks.loop env blockID minCount blocksCh blocks (nextBlockID - 1)

/-- Function `getBlocks(ctx, host, blockID, minCount)`. -/
def getBlocks (env : FetchEnv) (blockID minCount : Int) : Except Err (List block.Block) :=
  match env.GetBlocksBodies with
  | .error err => .error (env.WithBan err)
  | .ok blocksCh => getBlocks.loop env blockID minCount blocksCh [] blockID

/-- A peer that streams the blocks 9, 8, 7, 6, all badly signed, to a node whose
`rollback_blocks` is 2. -/
def longStream : FetchEnv :=
  { GetRbBlocks1 := 2
    GetBlocksBodies := .ok [[9], [8], [7], [6]]
    ProcessBlockWherePrevFromBlockchainTable := fun data => decodeBlock data true
    GetNodePublicKeyByPosition := fun _ => .ok []
    CheckSign := fun _ _ => false
    WithBan := fun e => e
    ErrInfo := fun e => e }

/-! ## daemons/confirmations.go -/

/-- The row type `model.Confirmation` of table `confirmations`, with the fields that
`confirmationsBlocks` sets. -/
structure model.Confirmation where
  BlockID : Int
  Good : Int
  Bad : Int
  Time : Int
deriving DecidableEq

/-- Method `(c *Confirmation) GetGoodBlock(goodCount)`, that is
`DBConn.Where("good >= ?", goodCount).Last(&c)`: the row with `good >= goodCount` that has
the greatest primary key `block_id`; `c` keeps its zero value when there is none. -/
def model.Confirmation.GetGoodBlock (confirmations : List model.Confirmation)
    (goodCount : Int) : model.Confirmation :=
  match confirmations.filter (fun c => decide (c.Good ≥ goodCount)) with
  | [] => ⟨0, 0, 0, 0⟩
  | c :: rows => rows.foldl (fun b x => if b.BlockID < x.BlockID then x else b) c

/-- Method `(c *Confirmation) Save()`, that is `DBConn.Save(c)`: the row with the primary
key `block_id` of `c` is replaced by `c`, and `c` is inserted when there is none. -/
def model.Confirmation.Save (confirmations : List model.Confirmation)
    (c : model.Confirmation) : List model.Confirmation :=
  if confirmations.any (fun r => decide (r.BlockID = c.BlockID)) then
    confirmations.map (fun r => if r.BlockID = c.BlockID then c else r)
  else confirmations ++ [c]

/-- What the daemon `Confirmations` keeps between its runs: the variable `tick` and
`d.sleepTime`, in seconds. -/
structure ConfirmationsState where
  tick : Int
  sleepTime : Int
deriving DecidableEq

/-- What a call of `confirmationsBlocks` comes to: the table `confirmations` it leaves, the
ids of the blocks for which it asked the hosts, in the order of asking (`probed`), the
error it returns, and whether it never returns because it waits for an answer that no
goroutine sends (`blocked`). -/
structure ConfirmationsRun where
  confirmations : List model.Confirmation
  probed : List Int
  err : Option Err
  blocked : Bool
deriving DecidableEq

/-- What a run of `Confirmations` comes to: the daemon is already running (`busy`), a query
failed (`failed`), there is no block yet (`noBlocks`), or `confirmationsBlocks` is called
with `lastBlockID` and `startBlockID` and comes to `run` (`probe`). -/
inductive ConfirmationsCall where
  | busy
  | failed (err : Err)
  | noBlocks
  | probe (lastBlockID startBlockID : Int) (run : ConfirmationsRun)
deriving DecidableEq

/-- What `Confirmations` and `confirmationsBlocks` read: whether the compare-and-swap on
`d.atomic` succeeds, the constant `consts.MIN_CONFIRMED_NODES`, the table `confirmations`,
the `BlockID` of `info_block` as `infoBlock.Get()` reads it, and the errors with which the
database may answer the two queries; then, in the round of `confirmationsBlocks` for a
block id: `ctx.Err()`, the `Hash` of the row that `block.Get(blockID)` reads or its error,
`converter.BinToHex`, the result of
`service.GetNodesBanService().FilterBannedHosts(syspar.GetRemoteHosts())`,
`tcpclient.NormalizeHostAddress(host, consts.DEFAULT_TCP_PORT)`, the answer that
`IsReachable(host, blockID, ch, d.logger)` sends on the channel (the answer of
`tcpclient.CheckConfirmation`, or `"0"` after `consts.WAIT_CONFIRMED_NODES` seconds),
`time.Now().Unix()`, and the error of `confirmation.Save()`. -/
structure ConfirmationsEnv where
  free : Bool
  MIN_CONFIRMED_NODES : Int
  confirmations : List model.Confirmation
  infoBlockID : Int
  GetGoodBlockErr : Option Err
  GetErr : Option Err
  ctxErr : Int → Option Err
  Get : Int → Except Err Bytes
  BinToHex : Bytes → String
  FilterBannedHosts : Int → Except Err (List String)
  NormalizeHostAddress : String → Except Err String
  IsReachable : String → Int → String
  now : Int → Int
  SaveErr : model.Confirmation → Option Err

/-- The loop `for blockID := lastBlockID; blockID >= startBlockID; blockID--` of
`confirmationsBlocks`, about to test its condition for `blockID`, where `n` is the number
of ids from `blockID` down to `startBlockID`, so that the condition holds exactly when `n`
is not 0; `r` is what the call has come to so far.  A host whose address is not normalized
starts no goroutine, and the loop that receives `len(hosts)` answers then waits forever. -/
def confirmationsBlocks.loop (env : ConfirmationsEnv) (startBlockID : Int) :
    Nat → Int → ConfirmationsRun → ConfirmationsRun
  | 0, _, r => r
  | n + 1, blockID, r =>
    match env.ctxErr blockID with
    | some err => { r with err := some err }
    | none =>
      match env.Get blockID with
      | .error err => { r with err := some err }
      | .ok Hash =>
        let hashStr := env.BinToHex Hash
        if hashStr.length = 0 then
          -- continue
          confirmationsBlocks.loop env startBlockID n (blockID - 1) r
        else
          match env.FilterBannedHosts blockID with
          | .error err => { r with err := some err }
          | .ok hosts =>
            let r := { r with probed := r.probed ++ [blockID] }
            let started := hosts.filterMap fun host => (env.NormalizeHostAddress host).toOption
            if started.length < hosts.length then { r with blocked := true }
            else
              let answers := started.map fun host => env.IsReachable host blockID
              let st1 : Int := answers.countP fun answer => answer == hashStr
              let st0 : Int := answers.countP fun answer => answer != hashStr
              let confirmation : model.Confirmation := ⟨blockID, st1, st0, env.now blockID⟩
              match env.SaveErr confirmation with
              | some err => { r with err := some err }
              | none =>
                let r :=
                  { r with confirmations := model.Confirmation.Save r.confirmations confirmation }
                if blockID > startBlockID ∧ st1 ≥ env.MIN_CONFIRMED_NODES then
                  -- break
                  r
                else confirmationsBlocks.loop env startBlockID n (blockID - 1) r

/-- Function `confirmationsBlocks(ctx, d, lastBlockID, startBlockID)` on the table
`env.confirmations`. -/
def confirmationsBlocks (env : ConfirmationsEnv) (lastBlockID startBlockID : Int) :
    ConfirmationsRun :=
  confirmationsBlocks.loop env startBlockID (lastBlockID - startBlockID + 1).toNat lastBlockID
    ⟨env.confirmations, [], none, false⟩

/-- Function `Confirmations(ctx, d)`: the state it leaves and what it comes to. -/
def Confirmations (env : ConfirmationsEnv) (d : ConfirmationsState) :
    ConfirmationsState × ConfirmationsCall :=
  if ¬ env.free then (d, .busy)
  else
    -- the first 2 minutes we sleep for 10 sec for blocks to be collected
    let tick := d.tick + 1
    let sleepTime := if tick < 12 then 10 else 1
    -- check last blocks, but not more than 5
    match env.GetGoodBlockErr with
    | some err => (⟨tick, sleepTime⟩, .failed err)
    | none =>
      let ConfirmedBlockID :=
        (model.Confirmation.GetGoodBlock env.confirmations env.MIN_CONFIRMED_NODES).BlockID
      match env.GetErr with
      | some err => (⟨tick, sleepTime⟩, .failed err)
      | none =>
        let lastBlockID := env.infoBlockID
        if lastBlockID = 0 then (⟨tick, sleepTime⟩, .noBlocks)
        else
          let far := lastBlockID - ConfirmedBlockID > 5
          let startBlockID : Int := if far then ConfirmedBlockID + 1 else 0
          let sleepTime := if far then 10 else sleepTime
          let tick := if far then 0 else tick
          let startBlockID := if startBlockID = 0 then lastBlockID else startBlockID
          (⟨tick, sleepTime⟩,
            .probe lastBlockID startBlockID (confirmationsBlocks env lastBlockID startBlockID))

/-- The table `confirmations` in which block 7 is the last block with two good answers. -/
def confirmedUpTo7 : List model.Confirmation :=
  [⟨6, 3, 0, 60⟩, ⟨7, 2, 1, 70⟩, ⟨8, 1, 2, 80⟩]

/-- A run of `Confirmations` with the given tip on the table `confirmedUpTo7`, with
`MIN_CONFIRMED_NODES = 2`: every block has the hash `"ab"`, and each of the three hosts
gives the answer `answer`. -/
def answerEnv (tip : Int) (answer : String) : ConfirmationsEnv :=
  { free := true, MIN_CONFIRMED_NODES := 2, confirmations := confirmedUpTo7,
    infoBlockID := tip, GetGoodBlockErr := none, GetErr := none
    ctxErr := fun _ => none
    Get := fun blockID => .ok [blockID.toNat]
    BinToHex := fun Hash => if Hash.isEmpty then "" else "ab"
    FilterBannedHosts := fun _ => .ok ["h1", "h2", "h3"]
    NormalizeHostAddress := fun host => .ok host
    IsReachable := fun _ _ => answer
    now := fun _ => 90
    SaveErr := fun _ => none }

/-- A run of `Confirmations` with the given tip on the table `confirmedUpTo7`, in which no
host answers in time, so that `IsReachable` sends `"0"` for each. -/
def tipEnv (tip : Int) : ConfirmationsEnv := answerEnv tip "0"

/-! ## utils/tx/builder.go -/

/-- The fields of `tx.Header` that `createDelayTx` sets. -/
structure tx.Header where
  ID : Int
  Time : Int
  EcosystemID : Int
  KeyID : Int
  NetworkID : Int
deriving DecidableEq

/-- The fields of `tx.SmartContract` that `newTransaction` and `createDelayTx` set, with
the parameters `Params` of some type `π`. -/
structure tx.SmartContract (π : Type) where
  Header : tx.Header
  PublicKey : Bytes
  SignedBy : Int
  Params : π
deriving DecidableEq

/-- The functions `newTransaction` calls: `crypto.PrivateToPublic`, `crypto.Address`,
`msgpack.Marshal`, `crypto.DoubleHash`, `crypto.Sign` and
`converter.EncodeLengthPlusData`. -/
structure TxEnv (π : Type) where
  PrivateToPublic : Bytes → Except Err Bytes
  Address : Bytes → Int
  Marshal : tx.SmartContract π → Except Err Bytes
  DoubleHash : Bytes → Bytes
  Sign : Bytes → Bytes → Except Err Bytes
  EncodeLengthPlusData : Bytes → Bytes

/-- Function `newTransaction(smartTx, privateKey, internal)`: the results `data`, `hash`
and `err` (a nil slice is the empty list). -/
def newTransaction {π : Type} (env : TxEnv π) (smartTx : tx.SmartContract π)
    (privateKey : Bytes) (internal : Bool) : Bytes × Bytes × Option Err :=
  match env.PrivateToPublic privateKey with
  | .error err => ([], [], some err)
  | .ok publicKey =>
    let smartTx := { smartTx with PublicKey := publicKey }
    let smartTx :=
      if internal then { smartTx with SignedBy := env.Address publicKey } else smartTx
    match env.Marshal smartTx with
    | .error err => ([], [], some err)
    | .ok data =>
      let hash := env.DoubleHash data
      match env.Sign privateKey hash with
      | .error err => (data, hash, some err)
      | .ok signature =>
        ([128] ++ env.EncodeLengthPlusData data ++ env.EncodeLengthPlusData signature,
          hash, none)

/-- Function `NewInternalTransaction(smartTx, privateKey)`. -/
def NewInternalTransaction {π : Type} (env : TxEnv π) (smartTx : tx.SmartContract π)
    (privateKey : Bytes) : Bytes × Bytes × Option Err :=
  newTransaction env smartTx privateKey true

/-- Function `NewTransaction(smartTx, privateKey)`. -/
def NewTransaction {π : Type} (env : TxEnv π) (smartTx : tx.SmartContract π)
    (privateKey : Bytes) : Bytes × Bytes × Option Err :=
  newTransaction env smartTx privateKey false

/-- Stand-ins for the codec and the cryptography, enough to tell two bodies apart: the
public key is the private key, the address is the length of the key, the encoding of a
transaction is its public key followed by `SignedBy`, the hash is the data itself, the
signature is the key followed by the hash, and a length prefix is one byte. -/
def toyTxEnv : TxEnv Unit :=
  { PrivateToPublic := fun k => .ok k
    Address := fun k => k.length
    Marshal := fun s => .ok (s.PublicKey ++ [s.SignedBy.toNat])
    DoubleHash := fun d => d
    Sign := fun k h => .ok (k ++ h)
    EncodeLengthPlusData := fun d => d.length :: d }

/-- A transaction signed by key 5. -/
def signedBy5 : tx.SmartContract Unit :=
  { Header := ⟨1, 1000, 1, 5, 1⟩, PublicKey := [], SignedBy := 5, Params := () }

/-! ## daemons/block_generator.go: `BlockGenerator` -/

/-- Method `Unix()` of an instant (`time.Time`) given as the number of nanoseconds since the
Unix epoch: the number of seconds, rounded down. -/
def Unix (t : Int) : Int := t / 1000000000

/-- The fields of the header literal `utils.BlockData` of `BlockGenerator` that are in the
source. -/
structure HeaderStart where
  BlockID : Int
  Time : Int
  EcosystemID : Int
deriving DecidableEq

/-- What a run of `BlockGenerator` comes to: it returns nil without a block (`skipped`), it
returns an error (`failed`), or it assembles a block with the header `header` from the
transactions `trs` (`assembled`; the statements that sign and insert the block are not in
the source). -/
inductive Generated where
  | skipped
  | failed (err : Err)
  | assembled (header : HeaderStart) (trs : List Transaction)
deriving DecidableEq

/-- What `BlockGenerator` reads: whether the compare-and-swap on `d.atomic` succeeds,
`service.IsNodePaused`, the two answers of `syspar.GetThisNodePosition`, the methods
`BlockForTimeExists`, `TimeToGenerate` and `RangeByTime` of the block time counter,
`prevBlock.Get()`, the node private key, `RunForDelayBlockID`, and for
`processTransactions` its environment, the pool, `syspar.GetMaxTxCount()` and, for the
time `endTime.Sub(st)` left, whether the deadline has fired at an iteration. -/
structure BlockGeneratorEnv (L : Type) where
  free : Bool
  IsNodePaused : Bool
  GetThisNodePosition : Except Err Int
  GetThisNodePositionLocked : Except Err Int
  BlockForTimeExists : Int → Int → Bool × Option Err
  TimeToGenerate : Int → Int → Except Err Bool
  RangeByTime : Int → Except Err (Int × Int)
  prevBlockGet : Except Err model.InfoBlock
  NodePrivateKey : String
  RunForDelayBlockID : Int → Except Err (List Transaction)
  gen : GeneratorEnv L
  pool : List Transaction
  GetMaxTxCount : Int
  done : Int → Nat → Bool

/-- Function `BlockGenerator(ctx, d)` at the instant `st = time.Now()`, up to the header
literal. -/
def BlockGenerator {L : Type} (env : BlockGeneratorEnv L) (st : Int) : Generated :=
  if ¬ env.free then .skipped
  else if env.IsNodePaused then .skipped
  else
    match env.GetThisNodePosition with
    | .error _ => .skipped
    | .ok _ =>
      -- wee need fresh myNodePosition after locking
      match env.GetThisNodePositionLocked with
      | .error err => .failed err
      | .ok nodePosition =>
        if (env.BlockForTimeExists st nodePosition).1 ∨
            (env.BlockForTimeExists st nodePosition).2 ≠ none then .skipped
        else
          match env.TimeToGenerate st nodePosition with
          | .error err => .failed err
          | .ok timeToGenerate =>
            if ¬ timeToGenerate then .skipped
            else
              match env.RangeByTime st with
              | .error err => .failed err
              | .ok (_, endTime) =>
                match env.prevBlockGet with
                | .error err => .failed err
                | .ok prevBlock =>
                  if env.NodePrivateKey.length < 1 then .failed "node private key is empty"
                  else
                    match env.RunForDelayBlockID (prevBlock.BlockID + 1) with
                    | .error err => .failed err
                    | .ok txs =>
                      let trs := (processTransactions env.gen env.pool env.GetMaxTxCount txs
                        (env.done (endTime - st))).1
                      -- Block generation will be started only if we have transactions
                      if trs.length = 0 then .skipped
                      else
                        .assembled
                          { BlockID := prevBlock.BlockID + 1
                            Time := Unix st
                            EcosystemID := 0 } trs

/-- A node whose slots last four seconds (`RangeByTime` gives the start and the end of the
slot of an instant), which may always generate, with block 41 as the previous block and
one transaction in the pool. -/
def fourSecondSlots : BlockGeneratorEnv Unit :=
  { free := true
    IsNodePaused := false
    GetThisNodePosition := .ok 0
    GetThisNodePositionLocked := .ok 0
    BlockForTimeExists := fun _ _ => (false, none)
    TimeToGenerate := fun _ _ => .ok true
    RangeByTime := fun t => .ok (t - t % 4000000000, t - t % 4000000000 + 4000000000)
    prevBlockGet := .ok ⟨[41], [], 41, "0", 1, 996, "1"⟩
    NodePrivateKey := "key"
    RunForDelayBlockID := fun _ => .ok []
    gen := noLimits
    pool := [poolRow 1 2 5]
    GetMaxTxCount := 0
    done := fun _ _ => false }

/-! ## utils/metric/collector.go -/

/-- The type `metric.Value`. -/
structure metric.Value where
  Time : Int
  Metric : String
  Key : String
  Value : Int
deriving DecidableEq

/-- A value held in a `types.Map` of a metric: an `int64` or a `string`. -/
inductive metric.Field where
  | int64 (n : Int)
  | string (s : String)
deriving DecidableEq

/-- Method `(v *Value) ToMap()`: the map with the keys `time`, `metric`, `key` and `value`,
given as the list of its entries. -/
def metric.Value.ToMap (v : metric.Value) : List (String × metric.Field) :=
  [("time", .int64 v.Time), ("metric", .string v.Metric), ("key", .string v.Key),
    ("value", .int64 v.Value)]

/-- The type `CollectorFunc`: from the time of the block to values or an error. -/
abbrev metric.CollectorFunc := Int → Except Err (List metric.Value)

/-- The type `Collector`. -/
structure metric.Collector where
  funcs : List metric.CollectorFunc

/-- Function `NewCollector(funcs...)`. -/
def metric.NewCollector (funcs : List metric.CollectorFunc) : metric.Collector :=
  { funcs := [] ++ funcs }

/-- The loop `for _, fn := range c.funcs` of `Values`, with the values collected so far. -/
def metric.Collector.Values.loop (timeBlock : Int) :
    List metric.CollectorFunc → List (List (String × metric.Field)) →
      List (List (String × metric.Field))
  | [], values => values
  | fn :: funcs, values =>
    match fn timeBlock with
    | .error _ => metric.Collector.Values.loop timeBlock funcs values
    | .ok result =>
      metric.Collector.Values.loop timeBlock funcs
        (result.foldl (fun values v => values ++ [v.ToMap]) values)

/-- Method `(c *Collector) Values(timeBlock)`. -/
def metric.Collector.Values (c : metric.Collector) (timeBlock : Int) :
    List (List (String × metric.Field)) :=
  metric.Collector.Values.loop timeBlock c.funcs []

/-- Function `MockValue(v)` of the test, as `TestValue` shows it. -/
def metric.MockValue (v : Int) : metric.Value :=
  { Time := 1, Metric := "test_metric", Key := "ecosystem_1", Value := v }

/-- Function `MockCollectorFunc(v, err)` of the test: the error when there is one, the one
value `MockValue(v)` otherwise. -/
def metric.MockCollectorFunc (v : Int) (err : Option Err) : metric.CollectorFunc :=
  fun _ =>
    match err with
    | some e => .error e
    | none => .ok [metric.MockValue v]

/-! ### packages/script/compile.go: the expression compiler

The lexer, the byte-code constants and the types `Lexem`, `ByteCode`, `Block`, `ObjInfo`
live in files of the package other than `compile.go`.  Their constants are named here as
constructors (two constants of one Go `switch` or of one map literal are different numbers,
so different constructors), and `cmdUnary`, the `keywords` table and `getObjByName` are
fields of `script.VM`. -/

/-- Named uint32 constants that a lexeme carries as its value: the operator identifiers
that are keys of `opers`, and the key word identifiers read in `compile.go`. -/
inductive script.LexConst
  | isOr | isAnd | isEqEq | isNotEq | isLess | isGrEq | isGreat | isLessEq
  | isPlus | isMinus | isAsterisk | isSolidus | isSign | isNot | isLPar | isRPar
  | keyContract | keyFunc | keyTail
  | keyReturn | keyContinue | keyBreak | keyIf | keyWhile | keyElse | keyVar | keyTX
  | keySettings | keyError | keyWarning | keyInfo
  | other (code : Nat)
  deriving DecidableEq, Repr

/-- Types of lexemes (`Lexem.Type`).  `zero` is the value `uint32(0)` that `prevLex` starts
with; `lexKeyword key` is `lexKeyword | (key << 8)`. -/
inductive script.LexType
  | zero
  | lexNewLine | lexOper | lexNumber | lexString | lexIdent | lexExtend | lexType
  | lexKeyword (key : script.LexConst)
  | isLPar | isRPar | isComma | isDot | isColon | isEq
  | isLCurly | isRCurly | isLBrack | isRBrack
  | other (code : Nat)
  deriving DecidableEq, Repr

/-- Plain Go values held in an `interface{}`: the value of a lexeme, and what `cmdPush`
pushes. -/
inductive script.Plain
  | nil
  | uint32 (c : script.LexConst)
  | string (s : String)
  | int64 (n : Int)
  | float64 (text : String)
  | int (n : Int)
  | stateID (state : Nat)
  deriving DecidableEq, Repr

/-- Lexeme: its type, its value and the source line. -/
structure script.Lexem where
  Type_ : script.LexType
  Value : script.Plain
  Line : Nat
  deriving DecidableEq, Repr

/-- Byte-code commands named in `compile.go`. -/
inductive script.Cmd
  | cmdPush | cmdVar | cmdExtend | cmdCallExtend | cmdCall | cmdCallVari
  | cmdIndex | cmdSetIndex | cmdFuncName | cmdUnwrapArr | cmdMapInit | cmdArrayInit
  | cmdSys
  | cmdNot | cmdSign
  | cmdAdd | cmdSub | cmdMul | cmdDiv | cmdAnd | cmdOr
  | cmdEqual | cmdNotEq | cmdLess | cmdNotLess | cmdGreat | cmdNotGreat
  | cmdIf | cmdElse | cmdWhile | cmdContinue | cmdBreak | cmdLabel | cmdReturn | cmdError
  | cmdAssignVar | cmdAssign
  | other (code : Nat)
  deriving DecidableEq, Repr

/-- Kinds of objects and of blocks. -/
inductive script.ObjType
  | ObjUnknown | ObjContract | ObjFunc | ObjExtFunc | ObjVar | ObjExtend
  | other (code : Nat)
  deriving DecidableEq, Repr

/-- The fields of `FuncInfo` read by the compiler; `Names` holds the keys of the map of
tails (`none` for a nil pointer). -/
structure script.FuncInfo where
  CanWrite : Bool
  Variadic : Bool
  Names : Option (List String)
  ID : Nat
  deriving DecidableEq, Repr

/-- The fields of `ContractInfo` read by the compiler; `Used` holds the keys of the map (a
nil map has no keys). -/
structure script.ContractInfo where
  ID : Nat
  Name : String
  CanWrite : Bool
  Used : List String
  deriving DecidableEq, Repr

/-- The fields of `ExtFuncInfo` read by the expression compiler. -/
structure script.ExtFuncInfo where
  Name : String
  Params : List String
  Auto : List String
  Variadic : Bool
  CanWrite : Bool
  deriving DecidableEq, Repr

/-- The `Info interface{}` of a block. -/
inductive script.BlockInfo
  | nil
  | uint32 (state : Nat)
  | funcInfo (info : script.FuncInfo)
  | contractInfo (info : script.ContractInfo)
  deriving DecidableEq, Repr

/-- The `Value interface{}` of an object.  For the expression compiler a `*Block` is kept
as the `Info` the block had when the object was looked up (`block`): that is all it reads
through the pointer.  In the tree of blocks that `CompileBlock` builds, a `*Block` that
`fNameBlock` stores in an object is a child of the block that holds the object, and is
named by its index in `Children` (`child`). -/
inductive script.ObjValue
  | nil
  | int (n : Int)
  | block (info : script.BlockInfo)
  | extFunc (info : script.ExtFuncInfo)
  | string (s : String)
  | child (index : Nat)
  deriving DecidableEq, Repr

/-- Object of a block: `ObjInfo`. -/
structure script.ObjInfo where
  Type_ : script.ObjType
  Value : script.ObjValue
  deriving DecidableEq, Repr

/-- Item of a map or array literal (`mapItem`); the constructor is the `Type` field.  A
`*types.Map` is kept as the sequence of its `Set` calls. -/
inductive script.mapItem
  | mapConst (v : script.Plain)
  | mapVar (obj : script.ObjInfo) (owner : Option Nat)
  | mapMap (m : List (String × script.mapItem))
  | mapExtend (v : script.Plain)
  | mapArray (a : List script.mapItem)

/-- Value of `cmdIndex` and `cmdSetIndex`; the owner block is named by its index in the
block stack. -/
structure script.IndexInfo where
  VarOffset : Int
  Owner : Option Nat
  Extend : String
  deriving DecidableEq, Repr

/-- The `Value interface{}` of a byte-code.  The `*Block` of `cmdIf`, `cmdElse` and
`cmdWhile` is a child of the block that holds the byte-code, and is named by its index in
`Children`. -/
inductive script.BCValue
  | plain (v : script.Plain)
  | uint16 (n : Nat)
  | objInfo (obj : script.ObjInfo)
  | varInfo (obj : script.ObjInfo) (owner : Option Nat)
  | indexInfo (info : Option script.IndexInfo)
  | funcNameCmd (name : String) (count : Int)
  | mapInit (m : List (String × script.mapItem))
  | arrayInit (a : List script.mapItem)
  | block (index : Nat)

/-- Byte-code: command, source line and value. -/
structure script.ByteCode where
  Cmd : script.Cmd
  Line : Nat
  Value : script.BCValue

/-- The fields of `Block` used by the expression compiler. -/
structure script.Block where
  Objects : List (String × script.ObjInfo)
  Type_ : script.ObjType
  Info : script.BlockInfo
  Code : List script.ByteCode

/-- Errors of the expression compiler.  `Errorf` is an error built by `fmt.Errorf`,
`panic` a run-time panic of the Go code (failed type assertion, nil dereference, index out
of range), `outOfFuel` the end of a bound that the model puts on the iterations of a loop
(not reached as long as the loop moves forward through the lexemes or down the buffer). -/
inductive script.EvalErr
  | errEndExp | errOper | errRecursion | errMultiIndex
  | errUnexpComma | errUnexpColon | errUnexpKey | errUnexpValue
  | errUnclosedMap | errUnclosedArray | errCondWrite
  | Errorf (msg : String)
  | panic (what : String)
  | outOfFuel
  deriving DecidableEq, Repr

/-- Entry of the table `opers`: command and priority. -/
structure script.operPrior where
  Cmd : script.Cmd
  Priority : Nat
  deriving DecidableEq, Repr

/-- The table `opers`; `cmdUnary` is the constant of that name. -/
def script.opers (cmdUnary : Nat) : script.LexConst → Option script.operPrior
  | .isOr => some ⟨.cmdOr, 10⟩
  | .isAnd => some ⟨.cmdAnd, 15⟩
  | .isEqEq => some ⟨.cmdEqual, 20⟩
  | .isNotEq => some ⟨.cmdNotEq, 20⟩
  | .isLess => some ⟨.cmdLess, 22⟩
  | .isGrEq => some ⟨.cmdNotLess, 22⟩
  | .isGreat => some ⟨.cmdGreat, 22⟩
  | .isLessEq => some ⟨.cmdNotGreat, 22⟩
  | .isPlus => some ⟨.cmdAdd, 25⟩
  | .isMinus => some ⟨.cmdSub, 25⟩
  | .isAsterisk => some ⟨.cmdMul, 30⟩
  | .isSolidus => some ⟨.cmdDiv, 30⟩
  | .isSign => some ⟨.cmdSign, cmdUnary⟩
  | .isNot => some ⟨.cmdNot, cmdUnary⟩
  | .isLPar => some ⟨.cmdSys, 0xff⟩
  | .isRPar => some ⟨.cmdSys, 0⟩
  | _ => none

/-- StateName checks the name of the contract and modifies it to `@[state]name` if it is
necessary. -/
def script.StateName (state : Nat) (name : String) : String :=
  match name.data with
  | [] => "@" ++ toString state ++ name
  | c :: rest =>
    if c ≠ '@' then "@" ++ toString state ++ name
    else
      match rest with
      | [] => name
      | d :: _ => if d < '0' ∨ '9' < d then "@1" ++ String.mk rest else name

/-- The loop of `findVar`, over the indices below `n` from the highest down. -/
def script.findVar.loop (name : String) (block : List script.Block) :
    Nat → Option (script.ObjInfo × Nat)
  | 0 => none
  | i + 1 =>
    match (block.getD i ⟨[], .ObjUnknown, .nil, []⟩).Objects.lookup name with
    | some ret => some (ret, i)
    | none => script.findVar.loop name block i

/-- Search of a name in the block stack, innermost block first; the owner is returned as
its index. -/
def script.findVar (name : String) (block : List script.Block) :
    Option (script.ObjInfo × Nat) :=
  script.findVar.loop name block block.length

/-- What `compile.go` takes from outside the file: the field `Extern` of the VM, the method
`getObjByName`, the constant `cmdUnary` and the table `keywords`.  `callGuard` stands for
the statements of the call branch of `compileEval` that are not in the source file (they
follow `var (` and end in a block): they may replace the object that was found or end the
compilation with an error. -/
structure script.VM where
  Extern : Bool
  getObjByName : String → Option script.ObjInfo
  cmdUnary : Nat
  keywords : List (String × script.LexConst)
  callGuard : script.Lexem → Option script.ObjInfo →
    Except script.EvalErr (Option script.ObjInfo)

/-- Search of an object by name, then by state-qualified name, in the block stack and then
among the objects of the VM. -/
def script.VM.findObj (vm : script.VM) (name : String) (block : List script.Block) :
    Except script.EvalErr (Option script.ObjInfo × Option Nat) :=
  match block with
  | [] => .error (.panic "index out of range")
  | root :: _ =>
    match root.Info with
    | .uint32 state =>
      let sname := script.StateName state name
      match script.findVar name block with
      | some (ret, owner) => .ok (some ret, some owner)
      | none =>
        match (if sname.length > 0 then script.findVar sname block else none) with
        | some (ret, owner) => .ok (some ret, some owner)
        | none =>
          let ret := vm.getObjByName name
          .ok (if ret.isNone ∧ sname.length > 0 then vm.getObjByName sname else ret, none)
    | _ => .error (.panic "interface conversion")

/-- Marks every function and contract block of the stack as writing. -/
def script.setWritable (block : List script.Block) :
    Except script.EvalErr (List script.Block) :=
  block.mapM fun blockItem =>
    match blockItem.Type_, blockItem.Info with
    | .ObjFunc, .funcInfo info =>
      .ok { blockItem with Info := .funcInfo { info with CanWrite := true } }
    | .ObjFunc, _ => .error (.panic "interface conversion")
    | .ObjContract, .contractInfo info =>
      .ok { blockItem with Info := .contractInfo { info with CanWrite := true } }
    | .ObjContract, _ => .error (.panic "interface conversion")
    | _, _ => .ok blockItem

/-- The type assertion `.(string)` on a plain value. -/
def script.Plain.asString : script.Plain → Except script.EvalErr String
  | .string s => .ok s
  | _ => .error (.panic "interface conversion")

/-- States of the literal parser (`mustKey`, `mustColon`, `mustComma`, `mustValue`). -/
inductive script.mapState
  | mustKey | mustColon | mustComma | mustValue
  deriving DecidableEq, Repr

/-- The loop over `keywords` in `getInitMap`: the entry whose identifier prints like the
value of the lexeme (a key word lexeme carries its identifier as a uint32). -/
def script.VM.keywordOf (vm : script.VM) (v : script.Plain) :
    Option (String × script.LexConst) :=
  vm.keywords.find? fun kv => decide (script.Plain.uint32 kv.2 = v)

mutual

/-- One value of a map or array literal, read at index `i`; returns the item and the index
of its last lexeme.  The first argument bounds the depth of the calls. -/
def script.VM.getInitValue (vm : script.VM) (lexems : List script.Lexem)
    (block : List script.Block) (fuel i : Nat) : Except script.EvalErr (script.mapItem × Nat) :=
  match fuel with
  | 0 => .error .outOfFuel
  | fuel + 1 =>
    match lexems[i]? with
    | none => .error (.panic "index out of range")
    | some lexem =>
      match lexem.Type_ with
      | .isLBrack =>
        match script.VM.getInitArray vm lexems block fuel i with
        | .ok (subArr, i) => .ok (.mapArray subArr, i)
        | .error err => .error err
      | .isLCurly =>
        match script.VM.getInitMap vm lexems block false fuel i with
        | .ok (subMap, i) => .ok (.mapMap subMap, i)
        | .error err => .error err
      | .lexExtend => .ok (.mapExtend lexem.Value, i)
      | .lexIdent =>
        match lexem.Value.asString with
        | .error err => .error err
        | .ok name =>
          match vm.findObj name block with
          | .error err => .error err
          | .ok (none, _) => .error (.Errorf ("unknown identifier " ++ name))
          | .ok (some objInfo, tobj) => .ok (.mapVar objInfo tobj, i)
      | .lexNumber | .lexString => .ok (.mapConst lexem.Value, i)
      | _ => .error .errUnexpValue
termination_by structural fuel

/-- Map literal starting at index `ind` (the brace, or the first key when `oneItem`);
returns the items set and the index of the last lexeme read. -/
def script.VM.getInitMap (vm : script.VM) (lexems : List script.Lexem)
    (block : List script.Block) (oneItem : Bool) (fuel ind : Nat) :
    Except script.EvalErr (List (String × script.mapItem) × Nat) :=
  match fuel with
  | 0 => .error .outOfFuel
  | fuel + 1 =>
    script.VM.getInitMap.loop vm lexems block oneItem fuel
      (ind + if oneItem then 0 else 1) "" [] .mustKey
termination_by structural fuel

/-- The loop `main` of `getInitMap` with the statements after it. -/
def script.VM.getInitMap.loop (vm : script.VM) (lexems : List script.Lexem)
    (block : List script.Block) (oneItem : Bool) (fuel i : Nat) (key : String)
    (ret : List (String × script.mapItem)) (state : script.mapState) :
    Except script.EvalErr (List (String × script.mapItem) × Nat) :=
  match fuel with
  | 0 => .error .outOfFuel
  | fuel + 1 =>
    let finish : Except script.EvalErr (List (String × script.mapItem) × Nat) :=
      if ret.isEmpty ∧ state = .mustKey then .error .errUnexpKey
      else if i = lexems.length then .error .errUnclosedMap
      else .ok (ret, i)
    match lexems[i]? with
    | none => finish
    | some lexem =>
      if lexem.Type_ = .lexNewLine then
        script.VM.getInitMap.loop vm lexems block oneItem fuel (i + 1) key ret state
      else if lexem.Type_ = .isRCurly then finish
      else if (lexem.Type_ = .isComma ∨ lexem.Type_ = .isRBrack) ∧ oneItem then
        .ok (ret, i - 1)
      else
        match state with
        | .mustComma =>
          if lexem.Type_ ≠ .isComma then .error .errUnexpComma
          else script.VM.getInitMap.loop vm lexems block oneItem fuel (i + 1) key ret .mustKey
        | .mustColon =>
          if lexem.Type_ ≠ .isColon then .error .errUnexpColon
          else
            script.VM.getInitMap.loop vm lexems block oneItem fuel (i + 1) key ret .mustValue
        | .mustKey =>
          match lexem.Type_ with
          | .lexIdent | .lexString =>
            match lexem.Value.asString with
            | .error err => .error err
            | .ok s =>
              script.VM.getInitMap.loop vm lexems block oneItem fuel (i + 1) s ret .mustColon
          | .lexExtend =>
            match lexem.Value.asString with
            | .error err => .error err
            | .ok s =>
              script.VM.getInitMap.loop vm lexems block oneItem fuel (i + 1) ("$" ++ s) ret
                .mustColon
          | .lexKeyword _ =>
            match vm.keywordOf lexem.Value with
            | some (ikey, v) =>
              if v = .keyFunc ∧ i + 1 < lexems.length ∧
                  (lexems.getD (i + 1) lexem).Type_ = .lexIdent then
                script.VM.getInitMap.loop vm lexems block oneItem fuel (i + 1) ikey ret
                  .mustKey
              else
                script.VM.getInitMap.loop vm lexems block oneItem fuel (i + 1) ikey ret
                  .mustColon
            | none =>
              script.VM.getInitMap.loop vm lexems block oneItem fuel (i + 1) key ret
                .mustColon
          | _ => .error .errUnexpKey
        | .mustValue =>
          match script.VM.getInitValue vm lexems block fuel i with
          | .error err => .error err
          | .ok (mapi, i) =>
            script.VM.getInitMap.loop vm lexems block oneItem fuel (i + 1) key
              (ret ++ [(key, mapi)]) .mustComma
termination_by structural fuel

/-- Array literal whose bracket is at index `ind`; returns the items and the index of the
closing bracket. -/
def script.VM.getInitArray (vm : script.VM) (lexems : List script.Lexem)
    (block : List script.Block) (fuel ind : Nat) :
    Except script.EvalErr (List script.mapItem × Nat) :=
  match fuel with
  | 0 => .error .outOfFuel
  | fuel + 1 => script.VM.getInitArray.loop vm lexems block fuel (ind + 1) [] .mustValue
termination_by structural fuel

/-- The loop `main` of `getInitArray` with the statements after it. -/
def script.VM.getInitArray.loop (vm : script.VM) (lexems : List script.Lexem)
    (block : List script.Block) (fuel i : Nat) (ret : List script.mapItem)
    (state : script.mapState) : Except script.EvalErr (List script.mapItem × Nat) :=
  match fuel with
  | 0 => .error .outOfFuel
  | fuel + 1 =>
    let finish : Except script.EvalErr (List script.mapItem × Nat) :=
      if ret.length > 0 ∧ state = .mustValue then .error .errUnexpValue
      else if i = lexems.length then .error .errUnclosedArray
      else .ok (ret, i)
    match lexems[i]? with
    | none => finish
    | some lexem =>
      if lexem.Type_ = .lexNewLine then
        script.VM.getInitArray.loop vm lexems block fuel (i + 1) ret state
      else if lexem.Type_ = .isRBrack then finish
      else
        match state with
        | .mustComma =>
          if lexem.Type_ ≠ .isComma then .error .errUnexpComma
          else script.VM.getInitArray.loop vm lexems block fuel (i + 1) ret .mustValue
        | .mustValue =>
          if i + 1 < lexems.length ∧ (lexems.getD (i + 1) lexem).Type_ = .isColon then
            match script.VM.getInitMap vm lexems block true fuel i with
            | .error err => .error err
            | .ok (subMap, i) =>
              script.VM.getInitArray.loop vm lexems block fuel (i + 1)
                (ret ++ [.mapMap subMap]) .mustComma
          else
            match script.VM.getInitValue vm lexems block fuel i with
            | .error err => .error err
            | .ok (arri, i) =>
              script.VM.getInitArray.loop vm lexems block fuel (i + 1) (ret ++ [arri])
                .mustComma
        | _ => script.VM.getInitArray.loop vm lexems block fuel (i + 1) ret state
termination_by structural fuel

end

/-- The type assertion `.(uint16)` on the value of a byte-code. -/
def script.BCValue.asUint16 : script.BCValue → Except script.EvalErr Nat
  | .uint16 n => .ok n
  | _ => .error (.panic "interface conversion")

/-- The type assertion `.(*ObjInfo)` on the value of a byte-code. -/
def script.BCValue.asObjInfo : script.BCValue → Except script.EvalErr script.ObjInfo
  | .objInfo obj => .ok obj
  | _ => .error (.panic "interface conversion")

/-- The chain `.Value.(*Block).Info.(*FuncInfo)` on an object. -/
def script.ObjInfo.funcInfo (obj : script.ObjInfo) : Except script.EvalErr script.FuncInfo :=
  match obj.Value with
  | .block (.funcInfo info) => .ok info
  | _ => .error (.panic "interface conversion")

/-- The assertion `.Value.(ExtFuncInfo)` on an object. -/
def script.ObjInfo.extFuncInfo (obj : script.ObjInfo) :
    Except script.EvalErr script.ExtFuncInfo :=
  match obj.Value with
  | .extFunc info => .ok info
  | _ => .error (.panic "interface conversion")

/-- The local variables of `compileEval`.  The stacks `buffer` and `parcount` are kept
with their top first (the last element of the Go slice is the head of the list);
`bytecode` and the block stack are in the order of the Go slices. -/
structure script.EvalState where
  i : Nat
  buffer : List script.ByteCode
  bytecode : List script.ByteCode
  parcount : List Int
  setIndex : Bool
  indexInfo : Option script.IndexInfo
  noMap : Bool
  prevLex : script.LexType
  block : List script.Block

/-- How the `switch` of one iteration of the loop `main` is left: at its end (with the
command `cmd` of the iteration), by `continue main` or by `break main` (with the final
index, which `i--` can take below zero). -/
inductive script.Flow
  | endSwitch (s : script.EvalState) (cmd : Option script.ByteCode)
  | continueMain (s : script.EvalState)
  | breakMain (s : script.EvalState) (i : Int)

/-- The loop of the case `isComma`: moves the buffer to the byte-code down to the nearest
opening bracket. -/
def script.compileEval.commaLoop :
    List script.ByteCode → List script.ByteCode →
      Except script.EvalErr (List script.ByteCode × List script.ByteCode)
  | [], bytecode => .ok ([], bytecode)
  | prev :: buffer, bytecode =>
    if prev.Cmd = .cmdSys then
      match prev.Value.asUint16 with
      | .error err => .error err
      | .ok v =>
        if v = 0xff then .ok (prev :: buffer, bytecode)
        else script.compileEval.commaLoop buffer (bytecode ++ [prev])
    else script.compileEval.commaLoop buffer (bytecode ++ [prev])

/-- The loop of the cases `isRPar` and `isRBrack`: moves the buffer to the byte-code down
to the nearest opening bracket, which is dropped. -/
def script.compileEval.pairLoop (lexem : script.Lexem) :
    List script.ByteCode → List script.ByteCode →
      Except script.EvalErr (List script.ByteCode × List script.ByteCode)
  | [], _ =>
    match lexem.Value.asString with
    | .error err => .error err
    | .ok _ => .error (.Errorf "there is not pair")
  | prev :: buffer, bytecode =>
    match prev.Value.asUint16 with
    | .error err => .error err
    | .ok v =>
      if v = 0xff then .ok (buffer, bytecode)
      else script.compileEval.pairLoop lexem buffer (bytecode ++ [prev])

/-- The unary operators that lie directly under the top of the buffer (the loop over
`unar`): the run, top first, and the buffer under it. -/
def script.compileEval.unaryRun (cmdUnary : Nat) :
    List script.ByteCode → Except script.EvalErr (List script.ByteCode × List script.ByteCode)
  | [] => .ok ([], [])
  | b :: rest =>
    match b.Value.asUint16 with
    | .error err => .error err
    | .ok prior =>
      if prior = cmdUnary then
        match script.compileEval.unaryRun cmdUnary rest with
        | .error err => .error err
        | .ok (run, under) => .ok (b :: run, under)
      else .ok ([], b :: rest)

/-- The loop of the case `lexOper`: operators of the buffer whose priority is not lower
than that of `oper` go to the byte-code, then `byteOper` is pushed.  A run of unary
operators is appended in the order of the slice, the deepest first.  The first argument
bounds the iterations; the length of the buffer is enough. -/
def script.compileEval.operLoop (cmdUnary : Nat) (oper : script.operPrior)
    (byteOper : script.ByteCode) :
    Nat → List script.ByteCode → List script.ByteCode →
      Except script.EvalErr (List script.ByteCode × List script.ByteCode)
  | _, [], bytecode => .ok ([byteOper], bytecode)
  | 0, _ :: _, _ => .error .outOfFuel
  | fuel + 1, prev :: buffer, bytecode =>
    match prev.Value.asUint16 with
    | .error err => .error err
    | .ok prior =>
      if prior ≥ oper.Priority ∧ oper.Priority ≠ cmdUnary ∧ prev.Cmd ≠ .cmdSys then
        if prior = cmdUnary then
          match script.compileEval.unaryRun cmdUnary buffer with
          | .error err => .error err
          | .ok (run, under) =>
            script.compileEval.operLoop cmdUnary oper byteOper fuel under
              (bytecode ++ (prev :: run).reverse)
        else script.compileEval.operLoop cmdUnary oper byteOper fuel buffer (bytecode ++ [prev])
      else .ok (byteOper :: prev :: buffer, bytecode)

/-- The case `lexOper` of `compileEval`. -/
def script.VM.compileEval.lexOper (vm : script.VM) (lexems : List script.Lexem)
    (lexem : script.Lexem) (s : script.EvalState) : Except script.EvalErr script.Flow :=
  match lexem.Value with
  | .uint32 c =>
    match script.opers vm.cmdUnary c with
    | some oper =>
      let prevType : script.LexType :=
        if s.i > 0 then (lexems.getD (s.i - 1) lexem).Type_ else .zero
      if oper.Cmd = .cmdSub ∧ (s.i = 0 ∨ (prevType ≠ .lexNumber ∧ prevType ≠ .lexIdent ∧
          prevType ≠ .lexExtend ∧ prevType ≠ .lexString ∧ prevType ≠ .isRCurly ∧
          prevType ≠ .isRBrack ∧ prevType ≠ .isRPar)) then
        let oper : script.operPrior := ⟨.cmdSign, vm.cmdUnary⟩
        match script.compileEval.operLoop vm.cmdUnary oper
            ⟨oper.Cmd, lexem.Line, .uint16 oper.Priority⟩ s.buffer.length s.buffer
            s.bytecode with
        | .error err => .error err
        | .ok (buffer, bytecode) =>
          .ok (.endSwitch { s with buffer := buffer, bytecode := bytecode } none)
      else if s.prevLex = .lexOper ∧ oper.Priority ≠ vm.cmdUnary then .error .errOper
      else
        match script.compileEval.operLoop vm.cmdUnary oper
            ⟨oper.Cmd, lexem.Line, .uint16 oper.Priority⟩ s.buffer.length s.buffer
            s.bytecode with
        | .error err => .error err
        | .ok (buffer, bytecode) =>
          .ok (.endSwitch { s with buffer := buffer, bytecode := bytecode } none)
    | none => .error (.Errorf "unknown operator")
  | _ => .error (.panic "interface conversion")

/-- The case `lexExtend` of `compileEval`. -/
def script.VM.compileEval.lexExtend (lexems : List script.Lexem) (lexem : script.Lexem)
    (s : script.EvalState) : Except script.EvalErr script.Flow :=
  let s := { s with noMap := true }
  if s.i + 2 < lexems.length ∧ (lexems.getD (s.i + 1) lexem).Type_ = .isLPar then
    let count : Int := if (lexems.getD (s.i + 2) lexem).Type_ ≠ .isRPar then 1 else 0
    match lexem.Value.asString with
    | .error err => .error err
    | .ok name =>
      .ok (.endSwitch { s with
        parcount := count :: s.parcount,
        buffer := ⟨.cmdCallExtend, lexem.Line, .plain (.string name)⟩ :: s.buffer } none)
  else
    match lexem.Value.asString with
    | .error err => .error err
    | .ok name =>
      let cmd : script.ByteCode := ⟨.cmdExtend, lexem.Line, .plain (.string name)⟩
      if s.i + 1 < lexems.length ∧ (lexems.getD (s.i + 1) lexem).Type_ = .isLBrack then
        .ok (.endSwitch { s with
          buffer := ⟨.cmdIndex, lexem.Line, .indexInfo (some ⟨0, none, name⟩)⟩ :: s.buffer }
          (some cmd))
      else .ok (.endSwitch s (some cmd))

/-- The loop over the block stack for the call of the contract `name`, from the innermost
block outwards (the argument is the stack with its last block first): a contract block
of that name is a recursion, every other contract block records the name as used. -/
def script.compileEval.usedLoop (name : String) :
    List script.Block → Except script.EvalErr (List script.Block)
  | [] => .ok []
  | topblock :: rest =>
    if topblock.Type_ = .ObjContract then
      match topblock.Info with
      | .contractInfo info =>
        if name = info.Name then .error .errRecursion
        else
          match script.compileEval.usedLoop name rest with
          | .error err => .error err
          | .ok rest =>
            .ok ({ topblock with
              Info := .contractInfo { info with
                Used := if name ∈ info.Used then info.Used else info.Used ++ [name] } }
              :: rest)
      | _ => .error (.panic "interface conversion")
    else
      match script.compileEval.usedLoop name rest with
      | .error err => .error err
      | .ok rest => .ok (topblock :: rest)

/-- The branch of the case `lexIdent` for a name followed by an opening parenthesis; `obj`
is the object after the statements that stand between `var (` and
`if objInfo.Type == ObjContract`. -/
def script.VM.compileEval.call (vm : script.VM) (lexems : List script.Lexem)
    (lexem : script.Lexem) (value : String) (obj : script.ObjInfo) (s : script.EvalState) :
    Except script.EvalErr script.Flow := do
  let objContract : Option script.BlockInfo ←
    if obj.Type_ = .ObjContract then
      match obj.Value with
      | .nil => pure none
      | .block info => pure (some info)
      | _ => throw (.panic "interface conversion")
    else pure none
  let isContract : Bool := obj.Type_ = .ObjContract
  let objInfo : script.ObjInfo ←
    if isContract then
      match ← vm.findObj "ExecContract" s.block with
      | (some exec, _) => pure exec
      | (none, _) => throw (.panic "nil pointer dereference")
    else pure obj
  let variadic : Bool ←
    if objInfo.Type_ = .ObjExtFunc then do
      let info ← objInfo.extFuncInfo
      pure info.Variadic
    else if objInfo.Type_ = .ObjFunc then do
      let info ← objInfo.funcInfo
      pure info.Variadic
    else pure false
  let callCmd : script.Cmd := if variadic then .cmdCallVari else .cmdCall
  let count : Int := if (lexems.getD (s.i + 2) lexem).Type_ ≠ .isRPar then 1 else 0
  let buffer := ⟨callCmd, lexem.Line, .objInfo objInfo⟩ :: s.buffer
  let (block, bytecode, count) ←
    if isContract then do
      let state ←
        match s.block.head? with
        | some ⟨_, _, .uint32 state, _⟩ => pure state
        | some _ => throw (script.EvalErr.panic "interface conversion")
        | none => throw (script.EvalErr.panic "index out of range")
      let name := script.StateName state value
      let block ← (script.compileEval.usedLoop name s.block.reverse).map List.reverse
      let block ←
        match objContract with
        | none => pure block
        | some (.contractInfo info) =>
          if info.CanWrite then script.setWritable block else pure block
        | some _ => throw (script.EvalErr.panic "interface conversion")
      let bytecode := s.bytecode ++ [⟨.cmdPush, lexem.Line, .plain (.string name)⟩]
      if count = 0 then
        pure (block, bytecode ++ [⟨.cmdPush, lexem.Line, .plain (.string "")⟩,
          ⟨.cmdPush, lexem.Line, .plain (.string "")⟩], (3 : Int))
      else pure (block, bytecode, count + 1)
    else pure (s.block, s.bytecode, count)
  let (bytecode, count) ←
    if value = "CallContract" then
      match block.head? with
      | some ⟨_, _, .uint32 state, _⟩ =>
        pure (bytecode ++ [⟨.cmdPush, lexem.Line, .plain (.stateID state)⟩], count + 1)
      | some _ => throw (script.EvalErr.panic "interface conversion")
      | none => throw (script.EvalErr.panic "index out of range")
    else pure (bytecode, count)
  pure (.endSwitch { s with
    buffer := buffer, bytecode := bytecode, block := block,
    parcount := count :: s.parcount } none)

/-- The case `lexIdent` of `compileEval`; `ind` is the index at which the expression
starts. -/
def script.VM.compileEval.lexIdent (vm : script.VM)
    (lexems : List script.Lexem) (ind : Nat) (lexem : script.Lexem) (s : script.EvalState) :
    Except script.EvalErr script.Flow :=
  let s := { s with noMap := true }
  match lexem.Value.asString with
  | .error err => .error err
  | .ok value =>
    match vm.findObj value s.block with
    | .error err => .error err
    | .ok (objInfo, tobj) =>
      if objInfo.isNone ∧ (¬ vm.Extern ∨ s.i > ind ∨ s.i + 2 ≥ lexems.length ∨
          (lexems.getD (s.i + 1) lexem).Type_ ≠ .isLPar) then
        .error (.Errorf ("eUnknownIdent " ++ value))
      else if s.i + 2 < lexems.length ∧ (lexems.getD (s.i + 1) lexem).Type_ = .isLPar then
        match vm.callGuard lexem objInfo with
        | .error err => .error err
        | .ok none => .error (.panic "nil pointer dereference")
        | .ok (some obj) => script.VM.compileEval.call vm lexems lexem value obj s
      else
        match objInfo with
        | none => .error (.panic "nil pointer dereference")
        | some obj =>
          if s.i + 2 < lexems.length ∧ (lexems.getD (s.i + 1) lexem).Type_ = .isLBrack then
            if obj.Type_ ≠ .ObjVar then .error (.Errorf ("unknown variable " ++ value))
            else
              match obj.Value with
              | .int offset =>
                .ok (.endSwitch { s with
                  buffer := ⟨.cmdIndex, lexem.Line, .indexInfo (some ⟨offset, tobj, ""⟩)⟩
                    :: s.buffer }
                  (some ⟨.cmdVar, lexem.Line, .varInfo obj tobj⟩))
              | _ => .error (.panic "interface conversion")
          else if obj.Type_ ≠ .ObjVar then .error (.Errorf ("unknown variable " ++ value))
          else .ok (.endSwitch s (some ⟨.cmdVar, lexem.Line, .varInfo obj tobj⟩))

/-- The end of the case `isRPar` for the call `prev` on top of the buffer `prev :: rest`:
the count of parameters is checked and the call goes to the byte-code; a `tail` call is
pushed in its place. -/
def script.compileEval.finishCall (lexem : script.Lexem) (objInfo : script.ObjInfo)
    (prev : script.ByteCode) (rest : List script.ByteCode) (tail : Option script.ByteCode)
    (s : script.EvalState) : Except script.EvalErr script.Flow :=
  match s.parcount with
  | [] => .error (.panic "index out of range")
  | count :: parcount => do
    if objInfo.Type_ = .ObjExtFunc then
      let extinfo ← objInfo.extFuncInfo
      let wantlen : Int := extinfo.Params.length - (extinfo.Auto.filter (·.length > 0)).length
      if count ≠ wantlen ∧ (¬ extinfo.Variadic ∨ count < wantlen) then
        throw (.Errorf ("eWrongParams " ++ extinfo.Name))
    let bytecode :=
      if prev.Cmd = .cmdCallVari then
        s.bytecode ++ [⟨.cmdPush, lexem.Line, .plain (.int count)⟩]
      else s.bytecode
    let s := { s with buffer := rest, bytecode := bytecode ++ [prev], parcount := parcount }
    match tail with
    | some tail =>
      pure (.endSwitch { s with
        buffer := tail :: s.buffer, parcount := 1 :: s.parcount, i := s.i + 2 } none)
    | none => pure (.endSwitch s none)

/-- The case `isRPar` of `compileEval`. -/
def script.VM.compileEval.isRPar (vm : script.VM) (lexems : List script.Lexem)
    (lexem : script.Lexem) (s : script.EvalState) : Except script.EvalErr script.Flow := do
  let s := { s with noMap := true }
  let (buffer, bytecode) ← script.compileEval.pairLoop lexem s.buffer s.bytecode
  let s := { s with buffer := buffer, bytecode := bytecode }
  match s.buffer with
  | [] => pure (.endSwitch s none)
  | top :: under =>
    let s ←
      if top.Cmd = .cmdFuncName then
        match top.Value, s.parcount with
        | .funcNameCmd name _, count :: parcount =>
          pure { s with
            buffer := under, parcount := parcount,
            bytecode := s.bytecode ++ [⟨top.Cmd, top.Line, .funcNameCmd name count⟩] }
        | .funcNameCmd _ _, [] => throw (script.EvalErr.panic "index out of range")
        | _, _ => throw (script.EvalErr.panic "interface conversion")
      else pure s
    match s.buffer with
    | [] => throw (.panic "index out of range")
    | prev :: rest =>
      if prev.Cmd = .cmdCall ∨ prev.Cmd = .cmdCallVari then do
        let objInfo ← prev.Value.asObjInfo
        let writes : Bool ←
          if objInfo.Type_ = .ObjFunc then do
            let info ← objInfo.funcInfo
            pure info.CanWrite
          else if objInfo.Type_ = .ObjExtFunc then do
            let info ← objInfo.extFuncInfo
            pure info.CanWrite
          else pure false
        let block ← if writes then script.setWritable s.block else pure s.block
        let s := { s with block := block }
        let names : Option (List String) ←
          if objInfo.Type_ = .ObjFunc then do
            let info ← objInfo.funcInfo
            pure info.Names
          else pure none
        match names with
        | none => script.compileEval.finishCall lexem objInfo prev rest none s
        | some names =>
          let s :=
            if (s.bytecode.getLast?.map (·.Cmd)) ≠ some .cmdFuncName then
              { s with bytecode := s.bytecode ++ [⟨.cmdPush, lexem.Line, .plain .nil⟩] }
            else s
          if s.i + 4 < lexems.length ∧ (lexems.getD (s.i + 1) lexem).Type_ = .isDot then do
            if (lexems.getD (s.i + 2) lexem).Type_ ≠ .lexIdent then
              throw (.Errorf "must be the name of the tail")
            let tailName ← (lexems.getD (s.i + 2) lexem).Value.asString
            let tail : Option script.ByteCode ←
              if tailName ∉ names then do
                let tail : Option script.ByteCode ←
                  if s.i + 5 < lexems.length ∧
                      (lexems.getD (s.i + 3) lexem).Type_ = .isLPar then do
                    let (found, _) ← vm.findObj tailName s.block
                    match found with
                    | none => throw (script.EvalErr.panic "nil pointer dereference")
                    | some obj =>
                      if obj.Type_ = .ObjFunc ∨ obj.Type_ = .ObjExtFunc then
                        pure (some ⟨.cmdCall, lexem.Line, .objInfo obj⟩)
                      else pure none
                  else pure none
                if tail.isNone then
                  throw (.Errorf ("unknown function tail " ++ tailName))
                pure tail
              else pure none
            match tail with
            | none =>
              let count : Int :=
                if (lexems.getD (s.i + 3) lexem).Type_ ≠ .isRPar then 1 else 0
              pure (.endSwitch { s with
                buffer := ⟨.cmdFuncName, lexem.Line, .funcNameCmd tailName 0⟩ :: s.buffer,
                parcount := count :: s.parcount, i := s.i + 2 } none)
            | some tail => script.compileEval.finishCall lexem objInfo prev rest (some tail) s
          else script.compileEval.finishCall lexem objInfo prev rest none s
      else pure (.endSwitch s none)

/-- The case `isRBrack` of `compileEval`. -/
def script.VM.compileEval.isRBrack (lexems : List script.Lexem) (lexem : script.Lexem)
    (s : script.EvalState) : Except script.EvalErr script.Flow := do
  let s := { s with noMap := true }
  let (buffer, bytecode) ← script.compileEval.pairLoop lexem s.buffer s.bytecode
  let s := { s with buffer := buffer, bytecode := bytecode }
  let multi (s : script.EvalState) : Except script.EvalErr script.Flow :=
    match lexems[s.i + 1]? with
    | none => .error (.panic "index out of range")
    | some next =>
      if next.Type_ = .isLBrack then .error .errMultiIndex else .ok (.endSwitch s none)
  match s.buffer with
  | [] => multi s
  | prev :: rest =>
    if prev.Cmd = .cmdIndex then
      let s := { s with buffer := rest }
      if s.i + 1 < lexems.length ∧ (lexems.getD (s.i + 1) lexem).Type_ = .isEq then
        match prev.Value with
        | .indexInfo info =>
          pure (.continueMain { s with
            i := s.i + 1, setIndex := true, indexInfo := info, noMap := false })
        | _ => throw (.panic "interface conversion")
      else multi { s with bytecode := s.bytecode ++ [prev] }
    else multi s

/-- One iteration of the loop `main` up to the end of its `switch`; `lexem` is the lexeme
at index `s.i` and `ind` the index at which the expression starts. -/
def script.VM.compileEval.step (vm : script.VM) (lexems : List script.Lexem) (ind : Nat)
    (s : script.EvalState) (lexem : script.Lexem) : Except script.EvalErr script.Flow :=
  if ¬ s.noMap ∧ lexem.Type_ = .isLCurly then
    match vm.getInitMap lexems s.block false (6 * lexems.length + 6) s.i with
    | .error err => .error err
    | .ok (pMap, i) =>
      .ok (.continueMain { s with
        i := i, bytecode := s.bytecode ++ [⟨.cmdMapInit, lexem.Line, .mapInit pMap⟩] })
  else if ¬ s.noMap ∧ lexem.Type_ = .isLBrack then
    match vm.getInitArray lexems s.block (6 * lexems.length + 6) s.i with
    | .error err => .error err
    | .ok (pArray, i) =>
      .ok (.continueMain { s with
        i := i, bytecode := s.bytecode ++ [⟨.cmdArrayInit, lexem.Line, .arrayInit pArray⟩] })
  else
    let s := { s with noMap := false }
    match lexem.Type_ with
    | .isRCurly | .isLCurly =>
      if s.prevLex = .isComma ∨ s.prevLex = .lexOper then .error .errEndExp
      else .ok (.breakMain s ((s.i : Int) - 1))
    | .lexNewLine =>
      if s.i > 0 ∧ ((lexems.getD (s.i - 1) lexem).Type_ = .isComma ∨
          (lexems.getD (s.i - 1) lexem).Type_ = .lexOper) then .ok (.continueMain s)
      else if s.buffer.any (fun b => b.Cmd = .cmdSys) then .ok (.continueMain s)
      else .ok (.breakMain s s.i)
    | .isLPar | .isLBrack =>
      .ok (.endSwitch { s with buffer := ⟨.cmdSys, lexem.Line, .uint16 0xff⟩ :: s.buffer } none)
    | .isComma =>
      let parcount :=
        match s.parcount with
        | [] => []
        | count :: parcount => (count + 1) :: parcount
      match script.compileEval.commaLoop s.buffer s.bytecode with
      | .error err => .error err
      | .ok (buffer, bytecode) =>
        .ok (.endSwitch { s with parcount := parcount, buffer := buffer, bytecode := bytecode }
          none)
    | .isRPar => script.VM.compileEval.isRPar vm lexems lexem s
    | .isRBrack => script.VM.compileEval.isRBrack lexems lexem s
    | .lexOper => script.VM.compileEval.lexOper vm lexems lexem s
    | .lexNumber | .lexString =>
      .ok (.endSwitch { s with noMap := true } (some ⟨.cmdPush, lexem.Line, .plain lexem.Value⟩))
    | .lexExtend => script.VM.compileEval.lexExtend lexems lexem s
    | .lexIdent => script.VM.compileEval.lexIdent vm lexems ind lexem s
    | _ => .ok (.endSwitch s none)

/-- The statements of an iteration after the `switch`: `prevLex` is set, the key word
`tail` gives `cmdUnwrapArr`, the command of the iteration is appended. -/
def script.compileEval.afterSwitch (lexem : script.Lexem) (s : script.EvalState)
    (cmd : Option script.ByteCode) : Except script.EvalErr script.EvalState :=
  let s := if lexem.Type_ ≠ .lexNewLine then { s with prevLex := lexem.Type_ } else s
  let append (s : script.EvalState) (cmd : Option script.ByteCode) : script.EvalState :=
    match cmd with
    | some cmd => { s with bytecode := s.bytecode ++ [cmd] }
    | none => s
  match lexem.Type_ with
  | .lexKeyword _ =>
    match lexem.Value with
    | .uint32 key =>
      if key = .keyTail then
        .ok (append s (some ⟨.cmdUnwrapArr, lexem.Line, .plain (.int 0)⟩))
      else .ok (append s cmd)
    | _ => .error (.panic "interface conversion")
  | _ => .ok (append s cmd)

/-- The loop `main` of `compileEval`; the result is the state and the final value of `i`.
The first argument bounds the number of iterations: every iteration moves `i` forward, so
the number of lexemes from the start is enough. -/
def script.VM.compileEval.loop (vm : script.VM) (lexems : List script.Lexem) (ind : Nat) :
    Nat → script.EvalState → Except script.EvalErr (script.EvalState × Int)
  | 0, s => if s.i < lexems.length then .error .outOfFuel else .ok (s, s.i)
  | fuel + 1, s =>
    match lexems[s.i]? with
    | none => .ok (s, s.i)
    | some lexem =>
      match script.VM.compileEval.step vm lexems ind s lexem with
      | .error err => .error err
      | .ok (.breakMain s i) => .ok (s, i)
      | .ok (.continueMain s) =>
        script.VM.compileEval.loop vm lexems ind fuel { s with i := s.i + 1 }
      | .ok (.endSwitch s cmd) =>
        match script.compileEval.afterSwitch lexem s cmd with
        | .error err => .error err
        | .ok s => script.VM.compileEval.loop vm lexems ind fuel { s with i := s.i + 1 }

/-- The loop after `main`: what is left in the buffer goes to the byte-code, top first; an
opening bracket left there has no pair. -/
def script.compileEval.flush :
    List script.ByteCode → List script.ByteCode → Except script.EvalErr (List script.ByteCode)
  | [], bytecode => .ok bytecode
  | b :: buffer, bytecode =>
    if b.Cmd = .cmdSys then .error (.Errorf "there is not pair")
    else script.compileEval.flush buffer (bytecode ++ [b])

/-- Appends byte-code to the code of the last block of the stack (`curBlock`). -/
def script.appendCode (bytecode : List script.ByteCode) :
    List script.Block → List script.Block
  | [] => []
  | [curBlock] => [{ curBlock with Code := curBlock.Code ++ bytecode }]
  | b :: rest => b :: script.appendCode bytecode rest

/-- This function is responsible for the compilation of expressions: it compiles the
lexemes from index `ind` on, and returns the new value of `*ind` and the block stack, in
which the byte-code of the expression is appended to the code of the current block.  An
error ends the compilation; the state it leaves is not part of the result. -/
def script.VM.compileEval (vm : script.VM) (lexems : List script.Lexem) (ind : Nat)
    (block : List script.Block) : Except script.EvalErr (Int × List script.Block) :=
  if block.isEmpty then .error (.panic "index out of range")
  else
    match script.VM.compileEval.loop vm lexems ind (lexems.length - ind)
        ⟨ind, [], [], [], false, none, false, .zero, block⟩ with
    | .error err => .error err
    | .ok (s, i) =>
      if s.prevLex = .lexOper then .error .errEndExp
      else
        match script.compileEval.flush s.buffer s.bytecode with
        | .error err => .error err
        | .ok bytecode =>
          let bytecode :=
            if s.setIndex then bytecode ++ [⟨.cmdSetIndex, 0, .indexInfo s.indexInfo⟩]
            else bytecode
          .ok (i, script.appendCode bytecode s.block)

/-- The loop of `ContractsList` over the lexemes that are left, with the current brace
level and the names found so far. -/
def script.ContractsList.loop :
    List script.Lexem → Int → List String → Except script.EvalErr (List String)
  | [], _, names => .ok names
  | lexem :: rest, level, names =>
    if lexem.Type_ = .isLCurly then script.ContractsList.loop rest (level + 1) names
    else if lexem.Type_ = .isRCurly then script.ContractsList.loop rest (level - 1) names
    else if lexem.Type_ = .lexKeyword .keyContract ∨ lexem.Type_ = .lexKeyword .keyFunc then
      match rest with
      | next :: _ =>
        if level = 0 ∧ next.Type_ = .lexIdent then
          match next.Value.asString with
          | .error err => .error err
          | .ok name => script.ContractsList.loop rest level (names ++ [name])
        else script.ContractsList.loop rest level names
      | [] => script.ContractsList.loop rest level names
    else script.ContractsList.loop rest level names

/-- ContractsList returns list of contracts names from source of code.  The lexer
`lexParser` is a parameter; the result is the pair of the names and the error, and a
panic of the Go code (an identifier whose value is not a string) is the outer error. -/
def script.ContractsList (lexParser : String → Except Err (List script.Lexem))
    (value : String) : Except script.EvalErr (List String × Option Err) :=
  match lexParser value with
  | .error err => .ok ([], some err)
  | .ok lexems =>
    match script.ContractsList.loop lexems 0 [] with
    | .error err => .error err
    | .ok names => .ok (names, none)

/-- Brace-nesting level in front of the lexeme at index `i`: opening braces minus closing
braces among the first `i` lexemes. -/
def script.braceLevel (lexems : List script.Lexem) (i : Nat) : Int :=
  ((lexems.take i).countP (fun l => l.Type_ = .isLCurly) : Int)
    - ((lexems.take i).countP (fun l => l.Type_ = .isRCurly) : Int)

/-- The name declared at index `i`, if any: the lexeme at `i` is the key word `contract`
or `func`, the brace level in front of it is 0, and the next lexeme is an identifier. -/
def script.declaredAt (lexems : List script.Lexem) (i : Nat) : Option String :=
  match lexems[i]?, lexems[i + 1]? with
  | some lexem, some next =>
    if (lexem.Type_ = .lexKeyword .keyContract ∨ lexem.Type_ = .lexKeyword .keyFunc) ∧
        script.braceLevel lexems i = 0 ∧ next.Type_ = .lexIdent then
      match next.Value with
      | .string name => some name
      | _ => none
    else none
  | _, _ => none

/-- The names declared at level 0, in the order of the source. -/
def script.declaredNames (lexems : List script.Lexem) : List String :=
  (List.range lexems.length).filterMap (script.declaredAt lexems)

/-- Whether a plain value is a Go string. -/
def script.Plain.isString : script.Plain → Bool
  | .string _ => true
  | _ => false

/-- A lexer for the examples: it knows one source text. -/
def script.toyLexer (src : String) (lexems : List script.Lexem) :
    String → Except Err (List script.Lexem) :=
  fun value => if value = src then .ok lexems else .error "unknown lexeme"

/-- Lexemes of `contract A { func f { } } func g { contract B { } } contract` followed by
the identifier `C`: three declarations at level 0, two nested ones. -/
def script.nestedSource : List script.Lexem :=
  [⟨.lexKeyword .keyContract, .uint32 .keyContract, 1⟩, ⟨.lexIdent, .string "A", 1⟩,
   ⟨.isLCurly, .nil, 1⟩,
   ⟨.lexKeyword .keyFunc, .uint32 .keyFunc, 2⟩, ⟨.lexIdent, .string "f", 2⟩,
   ⟨.isLCurly, .nil, 2⟩, ⟨.isRCurly, .nil, 2⟩,
   ⟨.isRCurly, .nil, 3⟩,
   ⟨.lexKeyword .keyFunc, .uint32 .keyFunc, 4⟩, ⟨.lexIdent, .string "g", 4⟩,
   ⟨.isLCurly, .nil, 4⟩,
   ⟨.lexKeyword .keyContract, .uint32 .keyContract, 5⟩, ⟨.lexIdent, .string "B", 5⟩,
   ⟨.isLCurly, .nil, 5⟩, ⟨.isRCurly, .nil, 5⟩,
   ⟨.isRCurly, .nil, 6⟩,
   ⟨.lexKeyword .keyContract, .uint32 .keyContract, 7⟩, ⟨.lexIdent, .string "C", 7⟩]

/-- A VM for the examples: no external objects, `cmdUnary` = 50, no key words, and a call
branch that keeps the object it is given. -/
def script.plainVM : script.VM :=
  ⟨false, fun _ => none, 50, [], fun _ objInfo => .ok objInfo⟩

/-- Root block of state 1 with the variables `a`, `b` and `c`. -/
def script.rootBlock : script.Block :=
  ⟨[("a", ⟨.ObjVar, .int 0⟩), ("b", ⟨.ObjVar, .int 1⟩), ("c", ⟨.ObjVar, .int 2⟩)],
    .ObjUnknown, .uint32 1, []⟩

/-- Number lexeme on line 1. -/
def script.num (n : Int) : script.Lexem := ⟨.lexNumber, .int64 n, 1⟩

/-- Operator lexeme on line 1. -/
def script.oper (c : script.LexConst) : script.Lexem := ⟨.lexOper, .uint32 c, 1⟩

/-- Identifier lexeme on line 1. -/
def script.ident (name : String) : script.Lexem := ⟨.lexIdent, .string name, 1⟩

/-- System lexeme (bracket, brace, comma, ...) on line 1. -/
def script.sys (type : script.LexType) : script.Lexem := ⟨type, .nil, 1⟩

/-- Lexemes of `1 + [2] - 3`. -/
def script.minusAfterLiteral : List script.Lexem :=
  [script.num 1, script.oper .isPlus, script.sys .isLBrack, script.num 2,
    script.sys .isRBrack, script.oper .isMinus, script.num 3]

/-- Whether a result is the error `e`. -/
def script.failsWith {α : Type} (r : Except script.EvalErr α) (e : script.EvalErr) : Bool :=
  match r with
  | .error e' => decide (e' = e)
  | .ok _ => false

/-- Whether the `Info` of a block has the type that its `Type` promises (a contract block
holds a `*ContractInfo`, a function block a `*FuncInfo`). -/
def script.Block.typed (b : script.Block) : Bool :=
  match b.Type_, b.Info with
  | .ObjContract, .contractInfo _ => true
  | .ObjContract, _ => false
  | .ObjFunc, .funcInfo _ => true
  | .ObjFunc, _ => false
  | _, _ => true

/-- Name and `Used` set of a contract block; `none` for any other block. -/
def script.Block.used (b : script.Block) : Option (String × List String) :=
  match b.Type_, b.Info with
  | .ObjContract, .contractInfo info => some (info.Name, info.Used)
  | _, _ => none

/-- Name of a contract block; `none` for any other block. -/
def script.Block.contractName (b : script.Block) : Option String :=
  b.used.map Prod.fst

/-- Whether an object is a contract whose value is nil or a contract block. -/
def script.ObjInfo.isContract (obj : script.ObjInfo) : Bool :=
  match obj.Type_, obj.Value with
  | .ObjContract, .nil => true
  | .ObjContract, .block (.contractInfo _) => true
  | _, _ => false

/-- Whether the value of an object has the type that `compileEval` asserts before a call
(`ExtFuncInfo` for an external function, a function block for a function). -/
def script.ObjInfo.callable (obj : script.ObjInfo) : Bool :=
  match obj.Type_, obj.Value with
  | .ObjExtFunc, .extFunc _ => true
  | .ObjExtFunc, _ => false
  | .ObjFunc, .block (.funcInfo _) => true
  | .ObjFunc, _ => false
  | _, _ => true

/-- A VM for the examples that knows the external function `ExecContract` and the
contracts `@1Pay` and `@1Fee`. -/
def script.contractVM : script.VM :=
  ⟨false,
    fun name =>
      if name = "ExecContract" then some ⟨.ObjExtFunc, .extFunc ⟨"ExecContract", [], [], true, false⟩⟩
      else if name = "@1Pay" ∨ name = "@1Fee" then some ⟨.ObjContract, .nil⟩
      else none,
    50, [], fun _ objInfo => .ok objInfo⟩

/-- Block of the contract `@1Pay`, inside the root block. -/
def script.payBlock : script.Block :=
  ⟨[], .ObjContract, .contractInfo ⟨7, "@1Pay", false, []⟩, []⟩

/-- Lexemes of the call `Pay()`, followed by a new line. -/
def script.callPay : List script.Lexem :=
  [script.ident "Pay", script.sys .isLPar, script.sys .isRPar, script.sys .lexNewLine]

/-- Lexemes of the call `Fee()`, followed by a new line. -/
def script.callFee : List script.Lexem :=
  [script.ident "Fee", script.sys .isLPar, script.sys .isRPar, script.sys .lexNewLine]

/-- The local state of `compileEval` at its start. -/
def script.startState (ind : Nat) (block : List script.Block) : script.EvalState :=
  ⟨ind, [], [], [], false, none, false, .zero, block⟩

/-- A block after the call of the contract `name` was recorded in it: a contract block has
the name in its `Used` set, any other block is unchanged. -/
def script.Block.use (name : String) (b : script.Block) : script.Block :=
  match b.Type_, b.Info with
  | .ObjContract, .contractInfo info =>
    { b with Info := .contractInfo { info with
        Used := if name ∈ info.Used then info.Used else info.Used ++ [name] } }
  | _, _ => b

/-- A block after `setWritable`. -/
def script.Block.writable (b : script.Block) : script.Block :=
  match b.Type_, b.Info with
  | .ObjFunc, .funcInfo info => { b with Info := .funcInfo { info with CanWrite := true } }
  | .ObjContract, .contractInfo info =>
    { b with Info := .contractInfo { info with CanWrite := true } }
  | _, _ => b

/-- Expression tree over lexemes: an operand, or a binary operator with its two operand
expressions.  It is the reference against which the byte-code of `compileEval` is read. -/
inductive script.Tree
  | leaf (x : script.Lexem)
  | node (l : script.Tree) (op : script.Lexem) (r : script.Tree)

/-- The lexemes of an expression in source order. -/
def script.Tree.inorder : script.Tree → List script.Lexem
  | .leaf x => [x]
  | .node l op r => l.inorder ++ op :: r.inorder

/-- The lexemes of an expression in postfix order: left operand, right operand, operator. -/
def script.Tree.postorder : script.Tree → List script.Lexem
  | .leaf x => [x]
  | .node l op r => l.postorder ++ r.postorder ++ [op]

/-- The operator lexemes of an expression. -/
def script.Tree.operators : script.Tree → List script.Lexem
  | .leaf _ => []
  | .node l op r => l.operators ++ op :: r.operators

/-- The last lexeme of an expression. -/
def script.Tree.last : script.Tree → script.Lexem
  | .leaf x => x
  | .node _ _ r => r.last

/-- The identifiers of the binary operators of the table `opers`. -/
def script.binaryOpers : List script.LexConst :=
  [.isOr, .isAnd, .isEqEq, .isNotEq, .isLess, .isGrEq, .isGreat, .isLessEq,
    .isPlus, .isMinus, .isAsterisk, .isSolidus]

/-- The entry of `opers` for a lexeme that is a binary operator. -/
def script.binaryOper (lexem : script.Lexem) : Option script.operPrior :=
  match lexem.Type_, lexem.Value with
  | .lexOper, .uint32 c => if c ∈ script.binaryOpers then script.opers 0 c else none
  | _, _ => none

/-- Priority of a binary operator lexeme in the table `opers` (0 for any other lexeme). -/
def script.priority (lexem : script.Lexem) : Nat :=
  match script.binaryOper lexem with
  | some oper => oper.Priority
  | none => 0

/-- The byte-code of an operand lexeme: a number or a string is pushed, an extend variable
is read by name, an identifier must be a variable found by `findObj`. -/
def script.VM.operand (vm : script.VM) (block : List script.Block) (x : script.Lexem) :
    Option script.ByteCode :=
  match x.Type_ with
  | .lexNumber | .lexString => some ⟨.cmdPush, x.Line, .plain x.Value⟩
  | .lexExtend =>
    match x.Value with
    | .string name => some ⟨.cmdExtend, x.Line, .plain (.string name)⟩
    | _ => none
  | .lexIdent =>
    match x.Value with
    | .string name =>
      match vm.findObj name block with
      | .ok (some obj, owner) =>
        if obj.Type_ = .ObjVar then some ⟨.cmdVar, x.Line, .varInfo obj owner⟩ else none
      | _ => none
    | _ => none
  | _ => none

/-- The byte-code of a lexeme of an expression: that of a binary operator is its command
with its priority as value, that of any other lexeme is the byte-code of the operand. -/
def script.VM.emit (vm : script.VM) (block : List script.Block) (lexem : script.Lexem) :
    Option script.ByteCode :=
  match script.binaryOper lexem with
  | some oper => some ⟨oper.Cmd, lexem.Line, .uint16 oper.Priority⟩
  | none => vm.operand block lexem

/-- An expression is well formed when its leaves are operands, its nodes are binary
operators, every operator of a left operand has at least the priority of the operator of
the node (operators of equal priority associate to the left), and every operator of a
right operand has a higher priority. -/
def script.Tree.WF (vm : script.VM) (block : List script.Block) : script.Tree → Prop
  | .leaf x => (vm.operand block x).isSome = true
  | .node l op r =>
    script.Tree.WF vm block l ∧ script.Tree.WF vm block r ∧
    (script.binaryOper op).isSome = true ∧
    (∀ o ∈ l.operators, script.priority op ≤ script.priority o) ∧
    (∀ o ∈ r.operators, script.priority op < script.priority o)

/-- The byte-code of an expression: the byte-codes of its lexemes in postfix order. -/
def script.VM.code (vm : script.VM) (block : List script.Block) (t : script.Tree) :
    List script.ByteCode :=
  t.postorder.filterMap (vm.emit block)

/-- The operators that are in the buffer when the last lexeme of an expression has been
read, top first: those on the path from the root to the last operand. -/
def script.VM.spine (vm : script.VM) (block : List script.Block) :
    script.Tree → List script.ByteCode
  | .leaf _ => []
  | .node _ op r => script.VM.spine vm block r ++ (vm.emit block op).toList

/-- The byte-code that has been emitted when the last lexeme of an expression has been
read: all of its byte-code but the operators that are still in the buffer. -/
def script.VM.done (vm : script.VM) (block : List script.Block) :
    script.Tree → List script.ByteCode
  | .leaf x => (vm.emit block x).toList
  | .node l _ r => vm.code block l ++ script.VM.done vm block r
/-- The expression that continues `t` with the operator `op` and the operand `x`: the new
operator takes as its left operand the largest right end of `t` whose operators have at
least its priority. -/
def script.Tree.insert (t : script.Tree) (op x : script.Lexem) : script.Tree :=
  match t with
  | .leaf y => .node (.leaf y) op (.leaf x)
  | .node l o r =>
    if script.priority o < script.priority op then .node l o (script.Tree.insert r op x)
    else .node (.node l o r) op (.leaf x)

/-- The tree of the expression that starts with the operand `x` and goes on with the pairs
of an operator and an operand of `rest`. -/
def script.parse (x : script.Lexem) (rest : List (script.Lexem × script.Lexem)) : script.Tree :=
  rest.foldl (fun t p => t.insert p.1 p.2) (.leaf x)

/-- The lexemes of the expression that starts with the operand `x` and goes on with the
pairs of an operator and an operand of `rest`. -/
def script.expression (x : script.Lexem) (rest : List (script.Lexem × script.Lexem)) :
    List script.Lexem :=
  x :: rest.flatMap fun p => [p.1, p.2]















/-! ## model/blockchain.go: `GetBlockchain` -/

/-- The two constants of type `ordering` (the type is declared outside `blockchain.go`). -/
inductive model.ordering where
  | OrderASC
  | OrderDESC
deriving DecidableEq

/-- Function `GetBlockchain(startBlockID, endblockID, order)` on the rows of table
`block_chain`; `queryErr` is the error with which the database answers the query (`none`
when the query succeeds).  The query is `id > ? AND id <= ?` when `endblockID > 0` and
`id > ?` otherwise, ordered by `id` in the given direction.  The local variable `err` is
declared and never assigned; it is what the function returns beside `nil` when
`query.Error != nil`. -/
def model.GetBlockchain (block_chain : List model.Block) (queryErr : Option Err)
    (startBlockID endblockID : Int) (order : model.ordering) :
    List model.Block × Option Err :=
  let err : Option Err := none
  let rows :=
    if endblockID > 0 then
      block_chain.filter (fun r => decide (r.ID > startBlockID ∧ r.ID ≤ endblockID))
    else block_chain.filter (fun r => decide (r.ID > startBlockID))
  let blockchain :=
    match order with
    | .OrderASC => rows.insertionSort (fun a b => a.ID ≤ b.ID)
    | .OrderDESC => rows.insertionSort (fun a b => a.ID ≥ b.ID)
  match queryErr with
  | some _ => ([], err)
  | none => (blockchain, none)

/-! ## daemons/blocks_collection.go: `UpdateChain` -/

/-- A block as `block.ProcessBlockWherePrevFromBlockchainTable` hands it back, with the
fields that `playRawBlock` reads; `PrevHeader` is a pointer and may be nil. -/
structure block.PlayableBlock where
  Header : utils.BlockData
  PrevHeader : Option utils.BlockData
deriving DecidableEq

/-- What `playRawBlock` needs from outside, on a node state `σ`: the decoder
`block.ProcessBlockWherePrevFromBlockchainTable`; the info block that `curBlock.Get()`
loads, or its error; the methods `Check` and `PlaySafe` of a block; the error value
`block.ErrIncorrectRollbackHash`; `ReplaceBlocksFromHost`; and `banNodePause`. -/
structure UpdateChainEnv (σ : Type) where
  ProcessBlockWherePrevFromBlockchainTable : Bytes → σ → Except Err block.PlayableBlock
  Get : σ → Except Err model.InfoBlock
  Check : block.PlayableBlock → σ → Option Err
  ErrIncorrectRollbackHash : Err
  ReplaceBlocksFromHost : Int → Int → Step σ
  PlaySafe : block.PlayableBlock → Step σ
  banNodePause : Int → Int → Option Err → σ → σ

/-- The closure `playRawBlock` of `UpdateChain`.  The deferred function gets `&err`, which
is never nil, so `banNodePause` runs at every return, with the values that `lastBlockID`,
`lastBlockTime` and `err` hold then.  At the two returns for a wrong or missing
`PrevHeader` the variable `err` holds the result of `curBlock.Get()`, which is nil. -/
def UpdateChain.playRawBlock {σ : Type} (env : UpdateChainEnv σ) (rb : Bytes) : Step σ :=
  fun s =>
    match env.ProcessBlockWherePrevFromBlockchainTable rb s with
    | .error err => (env.banNodePause 0 0 (some err) s, some err)
    | .ok bl =>
      match env.Get s with
      | .error err => (env.banNodePause 0 0 (some err) s, some err)
      | .ok curBlock =>
        let err : Option Err := none
        match bl.PrevHeader with
        | none => (env.banNodePause 0 0 err s, err)
        | some PrevHeader =>
          if curBlock.BlockID ≠ PrevHeader.BlockID then (env.banNodePause 0 0 err s, err)
          else
            let lastBlockID := bl.Header.BlockID
            let lastBlockTime := bl.Header.Time
            match env.Check bl s with
            | some err =>
              let replaceCount : Int := if err = env.ErrIncorrectRollbackHash then 2 else 1
              -- it should be fork, replace our previous blocks to ones from the host
              match env.ReplaceBlocksFromHost PrevHeader.BlockID replaceCount s with
              | (s', some errReplace) =>
                (env.banNodePause lastBlockID lastBlockTime (some err) s', some errReplace)
              | (s', none) =>
                (env.banNodePause lastBlockID lastBlockTime (some err) s', some err)
            | none =>
              match env.PlaySafe bl s with
              | (s', r) => (env.banNodePause lastBlockID lastBlockTime none s', r)

/-- The loop `for rawBlock := range rawBlocksChan` of `UpdateChain` over the bodies still
to come, with the value of `count`: the state and the count it leaves, and the error it
returns. -/
def UpdateChain.rawBlocks {σ : Type} (env : UpdateChainEnv σ) :
    List Bytes → Nat → σ → σ × Nat × Option Err
  | [], count, s => (s, count, none)
  | rawBlock :: rawBlocksChan, count, s =>
    match UpdateChain.playRawBlock env rawBlock s with
    | (s', some err) => (s', count, some err)
    | (s', none) => UpdateChain.rawBlocks env rawBlocksChan (count + 1) s'

/-- A node whose info block is block 5; a body of one byte `n` decodes to block `n`, with
no previous header when `n` is a multiple of 4 and with the header of block `n - 1`
otherwise.  The state is the list of the ids of the blocks played. -/
def headerlessEnv : UpdateChainEnv (List Int) :=
  { ProcessBlockWherePrevFromBlockchainTable := fun rb _ =>
      match rb with
      | [n] =>
        .ok ⟨(plainBlock n).Header,
          if n % 4 = 0 then none else some (plainBlock n).PrevHeader⟩
      | _ => .error "bad block data"
    Get := fun _ => .ok ⟨[], [], 5, "", 0, 0, ""⟩
    Check := fun _ _ => none
    ErrIncorrectRollbackHash := "incorrect rollback hash"
    ReplaceBlocksFromHost := fun _ _ s => (s, none)
    PlaySafe := fun bl s => (s ++ [bl.Header.BlockID], none)
    banNodePause := fun _ _ _ s => s }

/-! ## service/node_ban.go -/

/-- The fields of `syspar.HonorNode` read by the ban service.  An instant is its Unix time
in nanoseconds, so `time.Unix(0, 0)` is `0`. -/
structure syspar.HonorNode where
  PublicKey : Bytes
  UnbanTime : Int
deriving DecidableEq

/-- The type `localBannedNode`: the node and the instant at which its local ban ends. -/
structure localBannedNode where
  HonorNode : syspar.HonorNode
  LocalUnBanTime : Int
deriving DecidableEq

/-- The type `NodesBanService`: the map `localBannedNodes` and the list `honorNodes`. -/
structure NodesBanService where
  localBannedNodes : Int → Option localBannedNode
  honorNodes : List syspar.HonorNode

/-- What the ban service takes from other packages: the list `syspar.GetNodes()`, the
address `crypto.Address` of a public key and the duration `syspar.GetLocalNodeBanTime()`,
in nanoseconds. -/
structure NodesBanEnv where
  GetNodes : List syspar.HonorNode
  Address : Bytes → Int
  GetLocalNodeBanTime : Int

/-- Method `refreshNodes`. -/
def NodesBanService.refreshNodes (env : NodesBanEnv) (nbs : NodesBanService) :
    NodesBanService :=
  { nbs with honorNodes := env.GetNodes }

/-- The loop `for _, fn := range nbs.honorNodes` of `IsBanned`: the first node with the
public key decides. -/
def NodesBanService.IsBanned.scan (node : syspar.HonorNode) : List syspar.HonorNode → Bool
  | [] => false
  | fn :: honorNodes =>
    if fn.PublicKey = node.PublicKey then
      if ¬ (fn.UnbanTime = 0) then true
      else false -- break
    else NodesBanService.IsBanned.scan node honorNodes

/-- Method `IsBanned(node)` with the clock reading `now`: the returned value and the
service afterwards. -/
def NodesBanService.IsBanned (env : NodesBanEnv) (now : Int) (nbs : NodesBanService)
    (node : syspar.HonorNode) : Bool × NodesBanService :=
  let nbs := nbs.refreshNodes env
  let nodeKeyID := env.Address node.PublicKey
  -- Searching for local ban
  match nbs.localBannedNodes nodeKeyID with
  | some fn =>
    if now = fn.LocalUnBanTime ∨ now > fn.LocalUnBanTime then
      (false, { nbs with localBannedNodes := Function.update nbs.localBannedNodes nodeKeyID none })
    else (true, nbs)
  | none =>
    -- Searching for global ban
    (NodesBanService.IsBanned.scan node nbs.honorNodes, nbs)

/-- Method `localBan(node)`; `now1` and `now2` are the two readings of the clock. -/
def NodesBanService.localBan (env : NodesBanEnv) (now1 now2 : Int) (nbs : NodesBanService)
    (node : syspar.HonorNode) : NodesBanService :=
  let ts := Unix now1
  let te := Unix (now2 + env.GetLocalNodeBanTime)
  let te := if te = ts then ts + 120 else te
  { nbs with
    localBannedNodes := Function.update nbs.localBannedNodes (env.Address node.PublicKey)
      (some ⟨node, te * 1000000000⟩) }

/-- The global ban in the words of the specification: the entry of the node in the list of
honor nodes has an `UnbanTime` other than Unix time 0. -/
def globallyBanned (node : syspar.HonorNode) (honorNodes : List syspar.HonorNode) : Bool :=
  match honorNodes.find? (fun fn => fn.PublicKey = node.PublicKey) with
  | some fn => decide (fn.UnbanTime ≠ 0)
  | none => false

/-- An environment with one honor node, of public key `[7]`, globally banned until the
instant 99; the address of a key is its first byte; local bans last 60 seconds. -/
def bannedNodeEnv : NodesBanEnv :=
  { GetNodes := [⟨[7], 99⟩]
    Address := fun key => key.headD 0
    GetLocalNodeBanTime := 60 * 1000000000 }

/-- A ban service in which the node of key `[7]` has a local ban that ends at the
instant 50. -/
def expiredLocalBan : NodesBanService :=
  { localBannedNodes := Function.update (fun _ => none) 7 (some ⟨⟨[7], 99⟩, 50⟩)
    honorNodes := [] }

/-! ## transaction/db.go: `CheckLogTx` -/

/-- Variable `ErrDuplicatedTx`. -/
def ErrDuplicatedTx : Err := "Duplicated transaction"

/-- Modelled from the spec: `(*model.LogTransaction).GetByHash` is not in the sources.  By
the spec the submission checks "`LogTransaction` table for duplicate hash", that is
whether table `log_transactions` has a row with the hash. -/
def model.LogTransaction.GetByHash (log_transactions : List model.LogTransaction)
    (hash : Bytes) : Bool :=
  log_transactions.any (fun r => r.Hash == hash)

/-- Method `(t *Transaction) GetVerified`: whether the query
`hash = ? AND verified = 1` finds a row of table `transactions`. -/
def Transaction.GetVerified (transactions : List Transaction) (transactionHash : Bytes) :
    Bool :=
  transactions.any (fun t => t.Hash == transactionHash && t.Verified == 1)

/-- Function `CheckLogTx(txHash, transactions, txQueue)` on the store; `getByHashErr` and
`getVerifiedErr` are the errors with which the database answers the two lookups (`none`
when a lookup succeeds), `ErrInfo` is `utils.ErrInfo`. -/
def CheckLogTx {τ : Type} (db : DB (Tables τ)) (getByHashErr getVerifiedErr : Option Err)
    (ErrInfo : Err → Err) (txHash : Bytes) (transactions _txQueue : Bool) : Option Err :=
  match getByHashErr with
  | some err => some err
  | none =>
    if model.LogTransaction.GetByHash db.rest.log_transactions txHash then
      some ErrDuplicatedTx
    else if transactions then
      -- check for duplicate transaction
      match getVerifiedErr with
      | some err => some (ErrInfo err)
      | none =>
        if Transaction.GetVerified db.transactions txHash then some ErrDuplicatedTx
        else none
    else none

/-! ### packages/script/compile.go: `FlushBlock`

`FlushBlock` works on pointers: an object of the root and an item of `root.Children` may be
the same block, and so may an object of the VM and an item of `vm.Children`.  The blocks
are therefore kept in a memory, a list in which a block stands at its address, and a
`*Block` is an address. -/

/-- Constant `flushMark`. -/
def script.flushMark : Nat := 0x100000

/-- An `ObjInfo` as `FlushBlock` reads it: its `Type`, and as `Value` the address of a
block when the value is a `*Block` (`none` for any other value). -/
structure script.ObjPointer where
  Type_ : script.ObjType
  Value : Option Nat
  deriving DecidableEq, Repr

/-- The map `Objects` and the slice `Children` of a block whose children and objects are
addresses: the root that `CompileBlock` returns, or the block embedded in the VM. -/
structure script.BlockPointers where
  Objects : List (String × script.ObjPointer)
  Children : List Nat
  deriving DecidableEq, Repr

/-- The assignment `m[key] = item` on a map kept as the list of its entries. -/
def script.mapSet {α : Type} (m : List (String × α)) (key : String) (item : α) :
    List (String × α) :=
  if (m.lookup key).isSome then m.map (fun e => if e.1 = key then (key, item) else e)
  else m ++ [(key, item)]

/-- The chain `.Value.(*Block).Info.(*ContractInfo)` from an object, with the address and
the block it goes through. -/
def script.ObjPointer.contractInfo (memory : List script.Block) (obj : script.ObjPointer) :
    Except script.EvalErr (Nat × script.Block × script.ContractInfo) :=
  match obj.Value with
  | none => .error (.panic "interface conversion")
  | some addr =>
    match memory[addr]? with
    | none => .error (.panic "invalid memory address")
    | some b =>
      match b.Info with
      | .contractInfo info => .ok (addr, b, info)
      | _ => .error (.panic "interface conversion")

/-- The chain `.Value.(*Block).Info.(*FuncInfo)` from an object, with the address and the
block it goes through. -/
def script.ObjPointer.funcInfo (memory : List script.Block) (obj : script.ObjPointer) :
    Except script.EvalErr (Nat × script.Block × script.FuncInfo) :=
  match obj.Value with
  | none => .error (.panic "interface conversion")
  | some addr =>
    match memory[addr]? with
    | none => .error (.panic "invalid memory address")
    | some b =>
      match b.Info with
      | .funcInfo info => .ok (addr, b, info)
      | _ => .error (.panic "interface conversion")

/-- The loop `for key, item := range root.Objects` of `FlushBlock` over the entries still
to come: the memory and `vm.Objects` it leaves.  An identifier is a `uint32`. -/
def script.FlushBlock.objects :
    List (String × script.ObjPointer) → List script.Block × List (String × script.ObjPointer) →
      Except script.EvalErr (List script.Block × List (String × script.ObjPointer))
  | [], r => .ok r
  | (key, item) :: rest, (memory, vmObjects) =>
    let marked : Except script.EvalErr (List script.Block) :=
      match vmObjects.lookup key with
      | some cur =>
        match item.Type_ with
        | .ObjContract =>
          match item.contractInfo memory, cur.contractInfo memory with
          | .ok (addr, b, info), .ok (_, _, curInfo) =>
            .ok (memory.set addr
              { b with
                Info := .contractInfo
                  { info with ID := (curInfo.ID + script.flushMark) % 2 ^ 32 } })
          | .error e, _ => .error e
          | _, .error e => .error e
        | .ObjFunc =>
          match item.funcInfo memory, cur.funcInfo memory with
          | .ok (addr, b, info), .ok (_, _, curInfo) =>
            .ok (memory.set addr
              { b with
                Info := .funcInfo { info with ID := (curInfo.ID + script.flushMark) % 2 ^ 32 } })
          | .error e, _ => .error e
          | _, .error e => .error e
        | _ => .ok memory
      | none => .ok memory
    match marked with
    | .error e => .error e
    | .ok memory => script.FlushBlock.objects rest (memory, script.mapSet vmObjects key item)

/-- The loop `for _, item := range root.Children` of `FlushBlock` over the items still to
come, with the value of `shift`: the memory and `vm.Children` it leaves.  The field
`Parent` of a block is not kept. -/
def script.FlushBlock.children :
    List Nat → Int → List script.Block × List Nat →
      Except script.EvalErr (List script.Block × List Nat)
  | [], _, r => .ok r
  | item :: rest, shift, (memory, vmChildren) =>
    match memory[item]? with
    | none => .error (.panic "invalid memory address")
    | some b =>
      match b.Type_ with
      | .ObjContract =>
        match b.Info with
        | .contractInfo info =>
          if info.ID > script.flushMark then
            let ID := info.ID - script.flushMark
            let memory := memory.set item { b with Info := .contractInfo { info with ID := ID } }
            if ID < vmChildren.length then
              script.FlushBlock.children rest (shift - 1) (memory, vmChildren.set ID item)
            else .error (.panic "index out of range")
          else
            let ID := (info.ID + (shift % 2 ^ 32).toNat) % 2 ^ 32
            let memory := memory.set item { b with Info := .contractInfo { info with ID := ID } }
            script.FlushBlock.children rest shift (memory, vmChildren ++ [item])
        | _ => .error (.panic "interface conversion")
      | .ObjFunc =>
        match b.Info with
        | .funcInfo info =>
          if info.ID > script.flushMark then
            let ID := info.ID - script.flushMark
            let memory := memory.set item { b with Info := .funcInfo { info with ID := ID } }
            if ID < vmChildren.length then
              script.FlushBlock.children rest (shift - 1) (memory, vmChildren.set ID item)
            else .error (.panic "index out of range")
          else
            let ID := (info.ID + (shift % 2 ^ 32).toNat) % 2 ^ 32
            let memory := memory.set item { b with Info := .funcInfo { info with ID := ID } }
            script.FlushBlock.children rest shift (memory, vmChildren ++ [item])
        | _ => .error (.panic "interface conversion")
      | _ => script.FlushBlock.children rest shift (memory, vmChildren ++ [item])

/-- Method `(vm *VM) FlushBlock(root)`: the memory and the block of the VM afterwards.
The entries of `root.Objects` are visited in the order of the list. -/
def script.VM.FlushBlock (memory : List script.Block) (vm root : script.BlockPointers) :
    Except script.EvalErr (List script.Block × script.BlockPointers) :=
  let shift : Int := vm.Children.length
  match script.FlushBlock.objects root.Objects (memory, vm.Objects) with
  | .error e => .error e
  | .ok (memory, vmObjects) =>
    match script.FlushBlock.children root.Children shift (memory, vm.Children) with
    | .error e => .error e
    | .ok (memory, vmChildren) => .ok (memory, ⟨vmObjects, vmChildren⟩)

/-- The identifiers of the contract blocks among the children, in the order of the
children (`none` for a child that is not a contract block). -/
def script.contractIDs (memory : List script.Block) (children : List Nat) :
    List (Option Nat) :=
  children.map fun addr =>
    match memory[addr]? with
    | some b =>
      match b.Type_, b.Info with
      | .ObjContract, .contractInfo info => some info.ID
      | _, _ => none
    | none => none

/-- Whether every contract block among the children has the identifier equal to its
index. -/
def script.idsArePositions (memory : List script.Block) (children : List Nat) : Bool :=
  (script.contractIDs memory children).enum.all fun (i, id) =>
    match id with
    | some id => id == i
    | none => true

/-- The block of `contract A {}` compiled in state 1: the first child of its root, so its
identifier is 0. -/
def script.contractA : script.Block :=
  ⟨[], .ObjContract, .contractInfo ⟨0, "@1A", false, []⟩, []⟩

/-- The root of one compilation of `contract A {}` whose block is at the address `addr`. -/
def script.rootOfA (addr : Nat) : script.BlockPointers :=
  ⟨[("@1A", ⟨.ObjContract, some addr⟩)], [addr]⟩

/-! ### packages/script/compile.go: the tree of blocks and the handlers of the state machine

`CompileBlock` keeps the blocks it is working on in the block stack `blockstack`, the root
first; a handler gets it as `buf *[]*Block`, with the next state and the lexeme.  A handler
changes blocks of the stack through their pointers and leaves the slice as it is; here it
returns the stack with the changed blocks.  The message of an error made by `fmt.Errorf`
is kept without its formatted numbers. -/

/-- A block with its `Children`.  In the Go code a block that is pushed on the block stack
is appended at once to the `Children` of the block under it; here it is appended when it
leaves the stack.  So for a block of the stack that is not on top, `Children` holds the
children that are complete, and the block above it on the stack is the child of index
`Children.length`. -/
inductive script.BlockTree
  | node (block : script.Block) (Children : List script.BlockTree)

/-- The block of a node. -/
def script.BlockTree.block : script.BlockTree → script.Block
  | .node block _ => block

/-- The children of a node. -/
def script.BlockTree.Children : script.BlockTree → List script.BlockTree
  | .node _ Children => Children

/-- The block `(*buf)[len(*buf)-2]`, `none` when the index is out of range. -/
def script.parentOf (buf : List script.BlockTree) : Option script.BlockTree :=
  if 2 ≤ buf.length then buf[buf.length - 2]? else none

/-- Appends byte-code to the code of the block `(*buf)[len(*buf)-1]`. -/
def script.appendTop (buf : List script.BlockTree) (code : List script.ByteCode) :
    Except script.EvalErr (List script.BlockTree) :=
  match buf.getLast? with
  | none => .error (.panic "index out of range")
  | some top =>
    .ok (buf.set (buf.length - 1)
      (.node { top.block with Code := top.block.Code ++ code } top.Children))

/-- Handler `fError`: the error for the error code `state`.  It always returns an
error. -/
def script.fError (state : Nat) (lexem : script.Lexem) : script.EvalErr :=
  let errors := ["no error",
    "unknown command", -- errUnknownCmd
    "must be the name", -- errMustName
    "must be '\x7b'", -- errMustLCurly
    "must be '\x7d'", -- errMustRCurly
    "wrong parameters", -- errParams
    "wrong variables", -- errVars
    "must be type", -- errVarType
    "must be '='", -- errAssign
    "must be number or string"] -- errStrNum
  match errors[state]? with
  | none => .panic "index out of range"
  | some msg =>
    if lexem.Type_ = .lexNewLine then .Errorf (msg ++ " (unexpected new line)")
    else .Errorf msg

/-- Handler `fReturn`. -/
def script.fReturn (buf : List script.BlockTree) (_state : Nat) (lexem : script.Lexem) :
    Except script.EvalErr (List script.BlockTree) :=
  script.appendTop buf [⟨.cmdReturn, lexem.Line, .plain (.int 0)⟩]

/-- Handler `fCmdError`. -/
def script.fCmdError (buf : List script.BlockTree) (_state : Nat) (lexem : script.Lexem) :
    Except script.EvalErr (List script.BlockTree) :=
  script.appendTop buf [⟨.cmdError, lexem.Line, .plain lexem.Value⟩]

/-- Handler `fContinue`. -/
def script.fContinue (buf : List script.BlockTree) (_state : Nat) (lexem : script.Lexem) :
    Except script.EvalErr (List script.BlockTree) :=
  script.appendTop buf [⟨.cmdContinue, lexem.Line, .plain (.int 0)⟩]

/-- Handler `fBreak`. -/
def script.fBreak (buf : List script.BlockTree) (_state : Nat) (lexem : script.Lexem) :
    Except script.EvalErr (List script.BlockTree) :=
  script.appendTop buf [⟨.cmdBreak, lexem.Line, .plain (.int 0)⟩]

/-- Handler `fAssign`. -/
def script.fAssign (buf : List script.BlockTree) (_state : Nat) (lexem : script.Lexem) :
    Except script.EvalErr (List script.BlockTree) :=
  script.appendTop buf [⟨.cmdAssign, lexem.Line, .plain (.int 0)⟩]

/-- Handler `fIf`: a `cmdIf` that refers to the block on top of the stack is appended to
the block under it. -/
def script.fIf (buf : List script.BlockTree) (_state : Nat) (lexem : script.Lexem) :
    Except script.EvalErr (List script.BlockTree) :=
  match script.parentOf buf with
  | none => .error (.panic "index out of range")
  | some parent =>
    .ok (buf.set (buf.length - 2)
      (.node
        { parent.block with
          Code := parent.block.Code ++
            [⟨.cmdIf, lexem.Line, .block parent.Children.length⟩] }
        parent.Children))

/-- Handler `fWhile`. -/
def script.fWhile (buf : List script.BlockTree) (_state : Nat) (lexem : script.Lexem) :
    Except script.EvalErr (List script.BlockTree) :=
  match script.parentOf buf with
  | none => .error (.panic "index out of range")
  | some parent =>
    .ok (buf.set (buf.length - 2)
      (.node
        { parent.block with
          Code := parent.block.Code ++
            [⟨.cmdWhile, lexem.Line, .block parent.Children.length⟩,
              ⟨.cmdContinue, lexem.Line, .plain (.int 0)⟩] }
        parent.Children))

/-- Handler `fElse`: the block under the top of the stack must end with `cmdIf`; a
`cmdElse` that refers to the block on top is appended to it.  Reading `code[len(code)-1]`
of an empty `code` is a run-time panic. -/
def script.fElse (buf : List script.BlockTree) (_state : Nat) (lexem : script.Lexem) :
    Except script.EvalErr (List script.BlockTree) :=
  match script.parentOf buf with
  | none => .error (.panic "index out of range")
  | some parent =>
    let code := parent.block.Code
    match code.getLast? with
    | none => .error (.panic "index out of range")
    | some last =>
      if last.Cmd ≠ .cmdIf then .error (.Errorf "there is not if before")
      else
        .ok (buf.set (buf.length - 2)
          (.node
            { parent.block with
              Code := code ++ [⟨.cmdElse, lexem.Line, .block parent.Children.length⟩] }
            parent.Children))

/-- State `stateBlock` of the state machine. -/
abbrev script.stateBlock : Nat := 2

/-- Handler `fNameBlock`: the block on top of the stack becomes a contract (when the next
state is `stateBlock`) or a function, and the block under it gets an object with the name,
whose value is the block on top.  The identifier `len(prev.Children) - 1` of a contract is
the index of the block on top among the children. -/
def script.fNameBlock (buf : List script.BlockTree) (state : Nat) (lexem : script.Lexem) :
    Except script.EvalErr (List script.BlockTree) :=
  match script.parentOf buf, buf.getLast?, buf.head? with
  | some prev, some fblock, some root =>
    match lexem.Value with
    | .string name =>
      let named : Except script.EvalErr (script.ObjType × String × script.BlockInfo) :=
        if state = script.stateBlock then
          match root.block.Info with
          | .uint32 stateID =>
            let name := script.StateName stateID name
            .ok (.ObjContract, name,
              .contractInfo ⟨prev.Children.length % 2 ^ 32, name, false, []⟩)
          | _ => .error (.panic "interface conversion")
        else .ok (.ObjFunc, name, .funcInfo ⟨false, false, none, 0⟩)
      match named with
      | .error e => .error e
      | .ok (itype, name, info) =>
        let buf := buf.set (buf.length - 1)
          (.node { fblock.block with Info := info, Type_ := itype } fblock.Children)
        .ok (buf.set (buf.length - 2)
          (.node
            { prev.block with
              Objects := script.mapSet prev.block.Objects name
                ⟨itype, .child prev.Children.length⟩ }
            prev.Children))
    | _ => .error (.panic "interface conversion")
  | _, _, _ => .error (.panic "index out of range")

/-! ### packages/script/compile.go: the state machine of `CompileBlock` -/

/-- State `stateRoot`. -/
abbrev script.stateRoot : Nat := 0
/-- State `stateBody`. -/
abbrev script.stateBody : Nat := 1
/-- State `stateContract`. -/
abbrev script.stateContract : Nat := 3
/-- State `stateFunc`. -/
abbrev script.stateFunc : Nat := 4
/-- State `stateFParams`. -/
abbrev script.stateFParams : Nat := 5
/-- State `stateFParam`. -/
abbrev script.stateFParam : Nat := 6
/-- State `stateFParamTYPE`. -/
abbrev script.stateFParamTYPE : Nat := 7
/-- State `stateFTail`. -/
abbrev script.stateFTail : Nat := 8
/-- State `stateFResult`. -/
abbrev script.stateFResult : Nat := 9
/-- State `stateFDot`. -/
abbrev script.stateFDot : Nat := 10
/-- State `stateVar`. -/
abbrev script.stateVar : Nat := 11
/-- State `stateVarType`. -/
abbrev script.stateVarType : Nat := 12
/-- State `stateAssignEval`. -/
abbrev script.stateAssignEval : Nat := 13
/-- State `stateAssign`. -/
abbrev script.stateAssign : Nat := 14
/-- State `stateTX`. -/
abbrev script.stateTX : Nat := 15
/-- State `stateSettings`. -/
abbrev script.stateSettings : Nat := 16
/-- State `stateConsts`. -/
abbrev script.stateConsts : Nat := 17
/-- State `stateConstsAssign`. -/
abbrev script.stateConstsAssign : Nat := 18
/-- State `stateConstsValue`. -/
abbrev script.stateConstsValue : Nat := 19
/-- State `stateFields`. -/
abbrev script.stateFields : Nat := 20
/-- State `stateEval`. -/
abbrev script.stateEval : Nat := 21

/-- Flag `statePush`. -/
abbrev script.statePush : Nat := 0x0100
/-- Flag `statePop`. -/
abbrev script.statePop : Nat := 0x0200
/-- Flag `stateStay`. -/
abbrev script.stateStay : Nat := 0x0400
/-- Flag `stateToBlock`. -/
abbrev script.stateToBlock : Nat := 0x0800
/-- Flag `stateToBody`. -/
abbrev script.stateToBody : Nat := 0x1000
/-- Flag `stateFork`. -/
abbrev script.stateFork : Nat := 0x2000
/-- Flag `stateToFork`. -/
abbrev script.stateToFork : Nat := 0x4000
/-- Flag `stateLabel`. -/
abbrev script.stateLabel : Nat := 0x8000
/-- Flag `stateMustEval`. -/
abbrev script.stateMustEval : Nat := 0x010000

/-- Error code `errUnknownCmd`. -/
abbrev script.errUnknownCmd : Nat := 1
/-- Error code `errMustName`. -/
abbrev script.errMustName : Nat := 2
/-- Error code `errMustLCurly`. -/
abbrev script.errMustLCurly : Nat := 3
/-- Error code `errMustRCurly`. -/
abbrev script.errMustRCurly : Nat := 4
/-- Error code `errParams`. -/
abbrev script.errParams : Nat := 5
/-- Error code `errVars`. -/
abbrev script.errVars : Nat := 6
/-- Error code `errVarType`. -/
abbrev script.errVarType : Nat := 7
/-- Error code `errAssign`. -/
abbrev script.errAssign : Nat := 8
/-- Error code `errStrNum`. -/
abbrev script.errStrNum : Nat := 9

/-- Index `cfError` of a handler in `funcs`. -/
abbrev script.cfError : Nat := 1
/-- Index `cfNameBlock`. -/
abbrev script.cfNameBlock : Nat := 2
/-- Index `cfFResult`. -/
abbrev script.cfFResult : Nat := 3
/-- Index `cfReturn`. -/
abbrev script.cfReturn : Nat := 4
/-- Index `cfIf`. -/
abbrev script.cfIf : Nat := 5
/-- Index `cfElse`. -/
abbrev script.cfElse : Nat := 6
/-- Index `cfFParam`. -/
abbrev script.cfFParam : Nat := 7
/-- Index `cfFType`. -/
abbrev script.cfFType : Nat := 8
/-- Index `cfFTail`. -/
abbrev script.cfFTail : Nat := 9
/-- Index `cfFNameParam`. -/
abbrev script.cfFNameParam : Nat := 10
/-- Index `cfAssignVar`. -/
abbrev script.cfAssignVar : Nat := 11
/-- Index `cfAssign`. -/
abbrev script.cfAssign : Nat := 12
/-- Index `cfTX`. -/
abbrev script.cfTX : Nat := 13
/-- Index `cfSettings`. -/
abbrev script.cfSettings : Nat := 14
/-- Index `cfConstName`. -/
abbrev script.cfConstName : Nat := 15
/-- Index `cfConstValue`. -/
abbrev script.cfConstValue : Nat := 16
/-- Index `cfField`. -/
abbrev script.cfField : Nat := 17
/-- Index `cfFieldType`. -/
abbrev script.cfFieldType : Nat := 18
/-- Index `cfFieldTag`. -/
abbrev script.cfFieldTag : Nat := 19
/-- Index `cfFields`. -/
abbrev script.cfFields : Nat := 20
/-- Index `cfFieldComma`. -/
abbrev script.cfFieldComma : Nat := 21
/-- Index `cfFieldLine`. -/
abbrev script.cfFieldLine : Nat := 22
/-- Index `cfWhile`. -/
abbrev script.cfWhile : Nat := 23
/-- Index `cfContinue`. -/
abbrev script.cfContinue : Nat := 24
/-- Index `cfBreak`. -/
abbrev script.cfBreak : Nat := 25
/-- Index `cfCmdError`. -/
abbrev script.cfCmdError : Nat := 26

/-- Type `compileState`: a new state (with its flags, or an error code) and the index of a
handler. -/
structure script.compileState where
  NewState : Nat
  Func : Nat
  deriving DecidableEq, Repr

/-- The table `states`: one line for each of the states `stateRoot` .. `stateFields`.  A
line maps the type of the lexeme to an entry; the last case of a line is its entry for the
key 0, which is taken for every type that has no entry of its own. -/
def script.states : List (script.LexType → script.compileState) :=
  [ fun -- stateRoot
      | .lexNewLine => ⟨script.stateRoot, 0⟩
      | .lexKeyword .keyContract => ⟨script.stateContract ||| script.statePush, 0⟩
      | .lexKeyword .keyFunc => ⟨script.stateFunc ||| script.statePush, 0⟩
      | _ => ⟨script.errUnknownCmd, script.cfError⟩,
    fun -- stateBody
      | .lexNewLine => ⟨script.stateBody, 0⟩
      | .lexKeyword .keyFunc => ⟨script.stateFunc ||| script.statePush, 0⟩
      | .lexKeyword .keyReturn => ⟨script.stateEval, script.cfReturn⟩
      | .lexKeyword .keyContinue => ⟨script.stateBody, script.cfContinue⟩
      | .lexKeyword .keyBreak => ⟨script.stateBody, script.cfBreak⟩
      | .lexKeyword .keyIf =>
        ⟨script.stateEval ||| script.statePush ||| script.stateToBlock |||
          script.stateMustEval, script.cfIf⟩
      | .lexKeyword .keyWhile =>
        ⟨script.stateEval ||| script.statePush ||| script.stateToBlock |||
          script.stateLabel ||| script.stateMustEval, script.cfWhile⟩
      | .lexKeyword .keyElse => ⟨script.stateBlock ||| script.statePush, script.cfElse⟩
      | .lexKeyword .keyVar => ⟨script.stateVar, 0⟩
      | .lexKeyword .keyTX => ⟨script.stateTX, script.cfTX⟩
      | .lexKeyword .keySettings => ⟨script.stateSettings, script.cfSettings⟩
      | .lexKeyword .keyError => ⟨script.stateEval, script.cfCmdError⟩
      | .lexKeyword .keyWarning => ⟨script.stateEval, script.cfCmdError⟩
      | .lexKeyword .keyInfo => ⟨script.stateEval, script.cfCmdError⟩
      | .lexIdent => ⟨script.stateAssignEval ||| script.stateFork, 0⟩
      | .lexExtend => ⟨script.stateAssignEval ||| script.stateFork, 0⟩
      | .isRCurly => ⟨script.statePop, 0⟩
      | _ => ⟨script.errMustRCurly, script.cfError⟩,
    fun -- stateBlock
      | .lexNewLine => ⟨script.stateBlock, 0⟩
      | .isLCurly => ⟨script.stateBody, 0⟩
      | _ => ⟨script.errMustLCurly, script.cfError⟩,
    fun -- stateContract
      | .lexNewLine => ⟨script.stateContract, 0⟩
      | .lexIdent => ⟨script.stateBlock, script.cfNameBlock⟩
      | _ => ⟨script.errMustName, script.cfError⟩,
    fun -- stateFunc
      | .lexNewLine => ⟨script.stateFunc, 0⟩
      | .lexIdent => ⟨script.stateFParams, script.cfNameBlock⟩
      | _ => ⟨script.errMustName, script.cfError⟩,
    fun -- stateFParams
      | .lexNewLine => ⟨script.stateFParams, 0⟩
      | .isLPar => ⟨script.stateFParam, 0⟩
      | _ => ⟨script.stateFResult ||| script.stateStay, 0⟩,
    fun -- stateFParam
      | .lexNewLine => ⟨script.stateFParam, 0⟩
      | .lexIdent => ⟨script.stateFParamTYPE, script.cfFParam⟩
      | .isComma => ⟨script.stateFParam, 0⟩
      | .isRPar => ⟨script.stateFResult, 0⟩
      | _ => ⟨script.errParams, script.cfError⟩,
    fun -- stateFParamTYPE
      | .lexIdent => ⟨script.stateFParamTYPE, script.cfFParam⟩
      | .lexType => ⟨script.stateFParam, script.cfFType⟩
      | .lexKeyword .keyTail => ⟨script.stateFTail, script.cfFTail⟩
      | .isComma => ⟨script.stateFParamTYPE, 0⟩
      | _ => ⟨script.errVarType, script.cfError⟩,
    fun -- stateFTail
      | .lexNewLine => ⟨script.stateFTail, 0⟩
      | .isRPar => ⟨script.stateFResult, 0⟩
      | _ => ⟨script.errParams, script.cfError⟩,
    fun -- stateFResult
      | .lexNewLine => ⟨script.stateFResult, 0⟩
      | .isDot => ⟨script.stateFDot, 0⟩
      | .lexType => ⟨script.stateFResult, script.cfFResult⟩
      | .isComma => ⟨script.stateFResult, 0⟩
      | _ => ⟨script.stateBlock ||| script.stateStay, 0⟩,
    fun -- stateFDot
      | .lexNewLine => ⟨script.stateFDot, 0⟩
      | .lexIdent => ⟨script.stateFParams, script.cfFNameParam⟩
      | _ => ⟨script.errMustName, script.cfError⟩,
    fun -- stateVar
      | .lexNewLine => ⟨script.stateBody, 0⟩
      | .lexIdent => ⟨script.stateVarType, script.cfFParam⟩
      | .isRCurly => ⟨script.stateBody ||| script.stateStay, 0⟩
      | .isComma => ⟨script.stateVar, 0⟩
      | _ => ⟨script.errVars, script.cfError⟩,
    fun -- stateVarType
      | .lexIdent => ⟨script.stateVarType, script.cfFParam⟩
      | .lexType => ⟨script.stateVar, script.cfFType⟩
      | .isComma => ⟨script.stateVarType, 0⟩
      | _ => ⟨script.errVarType, script.cfError⟩,
    fun -- stateAssignEval
      | .isLPar => ⟨script.stateEval ||| script.stateToFork ||| script.stateToBody, 0⟩
      | .isLBrack => ⟨script.stateEval ||| script.stateToFork ||| script.stateToBody, 0⟩
      | _ => ⟨script.stateAssign ||| script.stateToFork ||| script.stateStay, 0⟩,
    fun -- stateAssign
      | .isComma => ⟨script.stateAssign, 0⟩
      | .lexIdent => ⟨script.stateAssign, script.cfAssignVar⟩
      | .lexExtend => ⟨script.stateAssign, script.cfAssignVar⟩
      | .isEq => ⟨script.stateEval ||| script.stateToBody, script.cfAssign⟩
      | _ => ⟨script.errAssign, script.cfError⟩,
    fun -- stateTX
      | .lexNewLine => ⟨script.stateTX, 0⟩
      | .isLCurly => ⟨script.stateFields, 0⟩
      | _ => ⟨script.errMustLCurly, script.cfError⟩,
    fun -- stateSettings
      | .lexNewLine => ⟨script.stateSettings, 0⟩
      | .isLCurly => ⟨script.stateConsts, 0⟩
      | _ => ⟨script.errMustLCurly, script.cfError⟩,
    fun -- stateConsts
      | .lexNewLine => ⟨script.stateConsts, 0⟩
      | .isComma => ⟨script.stateConsts, 0⟩
      | .lexIdent => ⟨script.stateConstsAssign, script.cfConstName⟩
      | .isRCurly => ⟨script.stateToBody, 0⟩
      | _ => ⟨script.errMustRCurly, script.cfError⟩,
    fun -- stateConstsAssign
      | .isEq => ⟨script.stateConstsValue, 0⟩
      | _ => ⟨script.errAssign, script.cfError⟩,
    fun -- stateConstsValue
      | .lexString => ⟨script.stateConsts, script.cfConstValue⟩
      | .lexNumber => ⟨script.stateConsts, script.cfConstValue⟩
      | _ => ⟨script.errStrNum, script.cfError⟩,
    fun -- stateFields
      | .lexNewLine => ⟨script.stateFields, script.cfFieldLine⟩
      | .isComma => ⟨script.stateFields, script.cfFieldComma⟩
      | .lexIdent => ⟨script.stateFields, script.cfField⟩
      | .lexType => ⟨script.stateFields, script.cfFieldType⟩
      | .lexString => ⟨script.stateFields, script.cfFieldTag⟩
      | .isRCurly => ⟨script.stateToBody, script.cfFields⟩
      | _ => ⟨script.errMustRCurly, script.cfError⟩ ]

/-- The handlers of `funcs` that work on the block on top of the stack only, on fields of
blocks that are not kept here (`Vars`, the parameters, results and tails of a function,
the `Tx` and `Settings` of a contract): `fFuncResult`, `fFparam`, `fFtype`, `fFtail`,
`fFNameParam`, `fAssignVar`, `fTx`, `fSettings`, `fConstName`, `fConstValue`, `fField`,
`fFieldType`, `fFieldTag`, `fFields`, `fFieldComma`, `fFieldLine`.  A handler reads the
stack, and returns an error or the new content of the block on top. -/
structure script.CompileEnv where
  handler : Nat → List script.BlockTree → Nat → script.Lexem →
    Except script.EvalErr script.Block

/-- The call `funcs[index](&blockstack, state, lexem)`. -/
def script.funcs (env : script.CompileEnv) (index : Nat) (buf : List script.BlockTree)
    (state : Nat) (lexem : script.Lexem) : Except script.EvalErr (List script.BlockTree) :=
  if index = script.cfError then .error (script.fError state lexem)
  else if index = script.cfNameBlock then script.fNameBlock buf state lexem
  else if index = script.cfReturn then script.fReturn buf state lexem
  else if index = script.cfIf then script.fIf buf state lexem
  else if index = script.cfElse then script.fElse buf state lexem
  else if index = script.cfAssign then script.fAssign buf state lexem
  else if index = script.cfWhile then script.fWhile buf state lexem
  else if index = script.cfContinue then script.fContinue buf state lexem
  else if index = script.cfBreak then script.fBreak buf state lexem
  else if index = script.cfCmdError then script.fCmdError buf state lexem
  else if 0 < index ∧ index ≤ 26 then
    match buf.getLast? with
    | none => .error (.panic "index out of range")
    | some top =>
      match env.handler index buf state lexem with
      | .error e => .error e
      | .ok block => .ok (buf.set (buf.length - 1) (.node block top.Children))
  else .error (.panic "index out of range")

/-- The local variables of the main loop of `CompileBlock`, at the start of an iteration.
`stack` and `blockstack` are in the order of the slices, the top last. -/
structure script.CompileLoop where
  i : Int
  curState : Nat
  stack : List Nat
  blockstack : List script.BlockTree
  fork : Int

/-- The lexeme `lexems[i]`, `none` when the index is out of range. -/
def script.lexemAt (lexems : List script.Lexem) (i : Int) : Option script.Lexem :=
  if i < 0 then none else lexems[i.toNat]?

/-- The block stack as the expression compiler sees it: an object that points to a child
is given the `Info` that this child has now. -/
def script.resolve (buf : List script.BlockTree) : List script.Block :=
  buf.enum.map fun (j, f) =>
    { f.block with
      Objects := f.block.Objects.map fun (name, obj) =>
        match obj.Value with
        | .child k =>
          match (if k = f.Children.length then buf[j + 1]? else f.Children[k]?) with
          | some c => (name, ⟨obj.Type_, .block c.block.Info⟩)
          | none => (name, ⟨obj.Type_, .nil⟩)
        | _ => (name, obj) }

/-- The block stack after the expression compiler has worked on its blocks: it changes
`Info` and `Code` of blocks of the stack through their pointers. -/
def script.writeBack (buf : List script.BlockTree) (blocks : List script.Block) :
    List script.BlockTree :=
  buf.enum.map fun (j, f) =>
    match blocks[j]? with
    | some b => .node { f.block with Info := b.Info, Code := b.Code } f.Children
    | none => f

/-- The branch `if nextState == stateEval` of the main loop up to the call of
`compileEval` and the test for an empty expression: the new value of `i` and the block
stack. -/
def script.VM.CompileBlock.eval (vm : script.VM) (lexems : List script.Lexem)
    (newState : script.compileState) (i : Int) (lexem : script.Lexem)
    (blockstack : List script.BlockTree) :
    Except script.EvalErr (Int × List script.BlockTree) :=
  let labelled :=
    if newState.NewState &&& script.stateLabel > 0 then
      script.appendTop blockstack [⟨.cmdLabel, lexem.Line, .plain (.int 0)⟩]
    else .ok blockstack
  match labelled with
  | .error e => .error e
  | .ok blockstack =>
    match blockstack.getLast? with
    | none => .error (.panic "index out of range")
    | some top =>
      let curlen := top.block.Code.length
      match vm.compileEval lexems i.toNat (script.resolve blockstack) with
      | .error e => .error e
      | .ok (i, blocks) =>
        let blockstack := script.writeBack blockstack blocks
        match blockstack.getLast? with
        | none => .error (.panic "index out of range")
        | some top =>
          if newState.NewState &&& script.stateMustEval > 0 ∧
              curlen = top.block.Code.length then
            .error (.Errorf "there is not eval expression")
          else .ok (i, blockstack)

/-- The branch `statePush` of the main loop. -/
def script.CompileBlock.push (curState : Nat) (stack : List Nat)
    (blockstack : List script.BlockTree) :
    Except script.EvalErr (List Nat × List script.BlockTree) :=
  if blockstack.isEmpty then .error (.panic "index out of range")
  else .ok (stack ++ [curState], blockstack ++ [.node ⟨[], .ObjUnknown, .nil, []⟩ []])

/-- The branch `statePop` of the main loop: the next state, the state stack and the block
stack.  The block that leaves the stack is now complete and is added to the children of
the block under it. -/
def script.CompileBlock.pop (lexem : script.Lexem) (stack : List Nat)
    (blockstack : List script.BlockTree) :
    Except script.EvalErr (Nat × List Nat × List script.BlockTree) :=
  match stack.getLast? with
  | none => .error (script.fError script.errMustLCurly lexem)
  | some nextState =>
    match blockstack.getLast? with
    | none => .error (.panic "slice bounds out of range")
    | some top =>
      match script.parentOf blockstack with
      | none => .ok (nextState, stack.dropLast, blockstack.dropLast)
      | some prev =>
        let moved := decide (prev.block.Code.getLast?.map (·.Cmd) = some .cmdContinue)
        let prevCode := if moved then prev.block.Code.dropLast else prev.block.Code
        let topCode :=
          if moved then top.block.Code ++ [⟨.cmdContinue, lexem.Line, .plain (.int 0)⟩]
          else top.block.Code
        .ok (nextState, stack.dropLast,
          blockstack.dropLast.set (blockstack.length - 2)
            (.node { prev.block with Code := prevCode }
              (prev.Children ++ [.node { top.block with Code := topCode } top.Children])))

/-- What an iteration of the main loop holds when it comes to the call of the handler. -/
structure script.Prepared where
  newState : script.compileState
  nextState : Nat
  lexem : script.Lexem
  i : Int
  fork : Int
  stack : List Nat
  blockstack : List script.BlockTree

/-- An iteration of the main loop of `CompileBlock` up to the call of the handler: it
ends with `continue` (the left case: the variables of the next iteration), with an error,
or it comes to the call of the handler (the right case). -/
def script.VM.CompileBlock.prepare (vm : script.VM) (lexems : List script.Lexem)
    (s : script.CompileLoop) : Except script.EvalErr (script.CompileLoop ⊕ script.Prepared) :=
  match script.lexemAt lexems s.i, script.states[s.curState]? with
  | some lexem, some line =>
    let newState := line lexem.Type_
    let nextState := newState.NewState &&& 0xff
    let fork := if newState.NewState &&& script.stateFork > 0 then s.i else s.fork
    let moved : Option (Int × Int × script.Lexem) :=
      if newState.NewState &&& script.stateToFork > 0 then
        (script.lexemAt lexems fork).map fun lexem => (fork, 0, lexem)
      else some (s.i, fork, lexem)
    match moved with
    | none => .error (.panic "index out of range")
    | some (i, fork, lexem) =>
      if newState.NewState &&& script.stateStay > 0 then
        -- curState = nextState; i--; continue
        .ok (.inl { s with i := i, curState := nextState, fork := fork })
      else
        let evaluated : Except script.EvalErr (Int × List script.BlockTree × Nat) :=
          if nextState = script.stateEval then
            match script.VM.CompileBlock.eval vm lexems newState i lexem s.blockstack with
            | .error e => .error e
            | .ok (i, blockstack) => .ok (i, blockstack, s.curState)
          else .ok (i, s.blockstack, nextState)
        match evaluated with
        | .error e => .error e
        | .ok (i, blockstack, nextState) =>
          let pushed :=
            if newState.NewState &&& script.statePush > 0 then
              script.CompileBlock.push s.curState s.stack blockstack
            else .ok (s.stack, blockstack)
          match pushed with
          | .error e => .error e
          | .ok (stack, blockstack) =>
            let popped :=
              if newState.NewState &&& script.statePop > 0 then
                script.CompileBlock.pop lexem stack blockstack
              else .ok (nextState, stack, blockstack)
            match popped with
            | .error e => .error e
            | .ok (nextState, stack, blockstack) =>
              let nextState :=
                if newState.NewState &&& script.stateToBlock > 0 then script.stateBlock
                else nextState
              let nextState :=
                if newState.NewState &&& script.stateToBody > 0 then script.stateBody
                else nextState
              .ok (.inr ⟨newState, nextState, lexem, i, fork, stack, blockstack⟩)
  | _, _ => .error (.panic "index out of range")

/-- An iteration of the main loop of `CompileBlock`, with the `i++` that follows it: the
variables at the start of the next iteration. -/
def script.VM.CompileBlock.step (vm : script.VM) (env : script.CompileEnv)
    (lexems : List script.Lexem) (s : script.CompileLoop) :
    Except script.EvalErr script.CompileLoop :=
  match script.VM.CompileBlock.prepare vm lexems s with
  | .error e => .error e
  | .ok (.inl s) => .ok s
  | .ok (.inr p) =>
    if p.newState.Func > 0 then
      match script.funcs env p.newState.Func p.blockstack p.nextState p.lexem with
      | .error e => .error e
      | .ok blockstack => .ok ⟨p.i + 1, p.nextState, p.stack, blockstack, p.fork⟩
    else .ok ⟨p.i + 1, p.nextState, p.stack, p.blockstack, p.fork⟩

/-- The variables at the start of the iteration number `n` (from 0) of the main loop that
starts with the variables `s`; `none` when the loop has ended before.  An error of an
iteration ends `CompileBlock`. -/
def script.VM.CompileBlock.iteration (vm : script.VM) (env : script.CompileEnv)
    (lexems : List script.Lexem) :
    Nat → script.CompileLoop → Except script.EvalErr (Option script.CompileLoop)
  | 0, s => .ok (if s.i < lexems.length then some s else none)
  | n + 1, s =>
    if s.i < lexems.length then
      match script.VM.CompileBlock.step vm env lexems s with
      | .error e => .error e
      | .ok s => script.VM.CompileBlock.iteration vm env lexems n s
    else .ok none

/-- The main loop of `CompileBlock` from the variables `s`: the variables when the loop
ends.  The loop is cut after `fuel` iterations. -/
def script.VM.CompileBlock.loop (vm : script.VM) (env : script.CompileEnv)
    (lexems : List script.Lexem) :
    Nat → script.CompileLoop → Except script.EvalErr script.CompileLoop
  | 0, s => if s.i < lexems.length then .error .outOfFuel else .ok s
  | fuel + 1, s =>
    if s.i < lexems.length then
      match script.VM.CompileBlock.step vm env lexems s with
      | .error e => .error e
      | .ok s => script.VM.CompileBlock.loop vm env lexems fuel s
    else .ok s

/-- The loop `for _, item := range root.Objects` at the end of `CompileBlock` over the
objects still to come: whether a contract has a function `conditions` that writes. -/
def script.CompileBlock.condWrite (root : script.BlockTree) :
    List (String × script.ObjInfo) → Except script.EvalErr Bool
  | [] => .ok false
  | (_, item) :: rest =>
    if item.Type_ = .ObjContract then
      match item.Value with
      | .child k =>
        match root.Children[k]? with
        | none => .error (.panic "invalid memory address")
        | some contract =>
          match contract.block.Objects.lookup "conditions" with
          | none => script.CompileBlock.condWrite root rest
          | some cond =>
            if cond.Type_ = .ObjFunc then
              match cond.Value with
              | .child m =>
                match contract.Children[m]? with
                | none => .error (.panic "invalid memory address")
                | some f =>
                  match f.block.Info with
                  | .funcInfo info =>
                    if info.CanWrite then .ok true
                    else script.CompileBlock.condWrite root rest
                  | _ => .error (.panic "interface conversion")
              | _ => .error (.panic "interface conversion")
            else script.CompileBlock.condWrite root rest
      | _ => .error (.panic "interface conversion")
    else script.CompileBlock.condWrite root rest

/-- The end of `CompileBlock`, after the main loop has left the variables `s`.  The root
is the first block of the block stack. -/
def script.CompileBlock.finish (lexems : List script.Lexem) (s : script.CompileLoop) :
    Except script.EvalErr script.BlockTree :=
  if s.stack.length > 0 then
    match lexems.getLast? with
    | none => .error (.panic "index out of range")
    | some lexem => .error (script.fError script.errMustRCurly lexem)
  else
    match s.blockstack.head? with
    | none => .error (.panic "invalid memory address")
    | some root =>
      match script.CompileBlock.condWrite root root.block.Objects with
      | .error e => .error e
      | .ok true => .error .errCondWrite
      | .ok false => .ok root

/-- The variables of the main loop of `CompileBlock` before its first iteration, for the
state identifier `owner.StateID`. -/
def script.CompileBlock.start (StateID : Nat) : script.CompileLoop :=
  ⟨0, 0, [], [.node ⟨[], .ObjUnknown, .uint32 StateID, []⟩ []], 0⟩

/-- CompileBlock compile the source code into the Block structure with a byte-code.
`lexems` is what `lexParser` returns for the input (an error of `lexParser` ends
`CompileBlock` before anything else), `StateID` is `owner.StateID`, and the main loop is
cut after `fuel` iterations. -/
def script.VM.CompileBlock (vm : script.VM) (env : script.CompileEnv)
    (lexems : List script.Lexem) (StateID : Nat) (fuel : Nat) :
    Except script.EvalErr script.BlockTree :=
  if lexems.length = 0 then .ok (.node ⟨[], .ObjUnknown, .uint32 StateID, []⟩ [])
  else
    match script.VM.CompileBlock.loop vm env lexems fuel (script.CompileBlock.start StateID) with
    | .error e => .error e
    | .ok s => script.CompileBlock.finish lexems s

/-- Handlers for the fields that are not kept: each leaves the block on top as it is. -/
def script.idleHandlers : script.CompileEnv :=
  ⟨fun _ buf _ _ =>
    match buf.getLast? with
    | some top => .ok top.block
    | none => .error (.panic "index out of range")⟩

/-- Key word lexeme on line 1. -/
def script.keyword (key : script.LexConst) : script.Lexem :=
  ⟨.lexKeyword key, .uint32 key, 1⟩

/-- The invariant of the main loop of `CompileBlock`: the block stack has one block more
than the state stack has states; with an empty state stack the machine is in `stateRoot`;
the first state of the state stack is `stateRoot`. -/
def script.CompileLoop.Inv (s : script.CompileLoop) : Prop :=
  s.blockstack.length = s.stack.length + 1 ∧
  (s.stack = [] → s.curState = script.stateRoot) ∧
  (∀ x, s.stack.head? = some x → x = script.stateRoot)

/-- Lexemes of `contract A { } }`: a contract and one closing brace too many. -/
def script.extraBrace : List script.Lexem :=
  [script.keyword .keyContract, script.ident "A", script.sys .isLCurly, script.sys .isRCurly,
    script.sys .isRCurly]

/-- Lexemes of `func f { else { } }`: an `else` as the first statement of a body. -/
def script.elseFirst : List script.Lexem :=
  [script.keyword .keyFunc, script.ident "f", script.sys .isLCurly,
    script.keyword .keyElse, script.sys .isLCurly, script.sys .isRCurly, script.sys .isRCurly]

/-- What `FlushBlock` reads of a compiled root: its objects, and for each child that is a
contract block the name and the identifier of the contract. -/
def script.rootSummary (r : Except script.EvalErr script.BlockTree) :
    Option (List (String × script.ObjInfo) × List (Option (String × Nat))) :=
  match r with
  | .error _ => none
  | .ok root =>
    some (root.block.Objects,
      root.Children.map fun c =>
        match c.block.Type_, c.block.Info with
        | .ObjContract, .contractInfo info => some (info.Name, info.ID)
        | _, _ => none)

/-! ## Theorems -/

/-! ### C1: StopNetwork transactions in `processTransactions` -/

/-- C1 (the code at the failing inputs).  With two StopNetwork transactions in the pool the
sequence processed is `[s1, s2]` and the list returned is `[s2]`, the last StopNetwork
transaction and not the first; and with a delayed StopNetwork transaction followed by a
pool transaction, both are returned.  The `break` after `txList = append(txList[:0],
txs[i])` leaves the `select`, not the loop. -/
theorem processTransactions_stopNetwork_goes_on :
    GetAllUnusedTransactions [poolRow 1 6 10, poolRow 2 6 20] 0
        = [poolRow 1 6 10, poolRow 2 6 20] ∧
      (poolRow 1 6 10).GetTransactionRateStopNetwork = true ∧
      (processTransactions noLimits [poolRow 1 6 10, poolRow 2 6 20] 0 []
          (fun _ => false)).1 = [poolRow 2 6 20] ∧
      (processTransactions noLimits [poolRow 3 2 5] 0 [poolRow 1 6 10]
          (fun _ => false)).1 = [poolRow 1 6 10, poolRow 3 2 5] := by
  decide

/-! ### C2: the order of `GetAllUnusedTransactions` -/

theorem expediteOrder_total (a b : Transaction) : expediteOrder a b ∨ expediteOrder b a := by
  unfold expediteOrder
  rcases lt_trichotomy a.HighRate b.HighRate with h | h | h
  · exact Or.inl (Or.inl h)
  · rcases lt_trichotomy a.Expedite b.Expedite with e | e | e
    · exact Or.inr (Or.inr ⟨h.symm, Or.inl e⟩)
    · rcases le_total a.Time b.Time with t | t
      · exact Or.inl (Or.inr ⟨h, Or.inr ⟨e, t⟩⟩)
      · exact Or.inr (Or.inr ⟨h.symm, Or.inr ⟨e.symm, t⟩⟩)
    · exact Or.inl (Or.inr ⟨h, Or.inl e⟩)
  · exact Or.inr (Or.inl h)

theorem expediteOrder_trans (a b c : Transaction) (hab : expediteOrder a b)
    (hbc : expediteOrder b c) : expediteOrder a c := by
  unfold expediteOrder at *
  rcases hab with h | ⟨h, hab⟩
  · rcases hbc with k | ⟨k, _⟩
    · exact Or.inl (lt_trans h k)
    · exact Or.inl (k ▸ h)
  · rcases hbc with k | ⟨k, hbc⟩
    · exact Or.inl (h ▸ k)
    · refine Or.inr ⟨h.trans k, ?_⟩
      rcases hab with e | ⟨e, t⟩
      · rcases hbc with f | ⟨f, _⟩
        · exact Or.inl (lt_trans f e)
        · exact Or.inl (f ▸ e)
      · rcases hbc with f | ⟨f, u⟩
        · exact Or.inl (e ▸ f)
        · exact Or.inr ⟨e.trans f, le_trans t u⟩

/-- C2 (as stated, refuted).  Of two unused rows with rates ApiContract (2) and StopNetwork
(6) the one with the lower rate comes first: the result is not ordered by `high_rate`
descending. -/
theorem GetAllUnusedTransactions_not_rate_descending :
    GetAllUnusedTransactions [poolRow 1 6 10, poolRow 3 2 5] 0
        = [poolRow 3 2 5, poolRow 1 6 10] ∧
      ¬ List.Sorted specOrder (GetAllUnusedTransactions [poolRow 1 6 10, poolRow 3 2 5] 0) := by
  decide

/-- C2 (amended).  `GetAllUnusedTransactions(limit)` returns the rows with `used = 0`
ordered by `high_rate` ascending, then `expedite` descending, then `time` ascending (the
order denoted by the `expediteOrder` clause), truncated to the first `limit` rows when
`limit > 0`. -/
theorem GetAllUnusedTransactions_sorted (transactions : List Transaction) (limit : Int) :
    ∃ rows : List Transaction,
      rows.Perm (transactions.filter (fun t => t.Used == 0)) ∧
      List.Sorted expediteOrder rows ∧
      GetAllUnusedTransactions transactions limit
        = if limit > 0 then rows.take limit.toNat else rows := by
  haveI : IsTotal Transaction expediteOrder := ⟨expediteOrder_total⟩
  haveI : IsTrans Transaction expediteOrder := ⟨expediteOrder_trans⟩
  refine ⟨(transactions.filter (fun t => t.Used == 0)).insertionSort expediteOrder,
    List.perm_insertionSort _ _, List.sorted_insertionSort _ _, ?_⟩
  rfl

/-! ### C3: `ErrLimitStop` in `processTransactions` -/

/-- C3 (the code at the failing inputs).  The limits answer `ErrLimitStop` for the
transaction at index 1, and a transaction at index 2 is returned all the same: a
StopNetwork transaction (which becomes the whole list), or a transaction without `TxSmart`
(which is appended).  The `break` leaves the `select`, not the loop. -/
theorem processTransactions_limitStop_goes_on :
    GetAllUnusedTransactions [poolRow 1 2 5, poolRow 2 2 6, poolRow 3 6 7] 0
        = [poolRow 1 2 5, poolRow 2 2 6, poolRow 3 6 7] ∧
      (stopAfterOne.CheckLimit (stopAfterOne.CheckLimit stopAfterOne.NewLimits
          ⟨[1], 0, 1, true, true⟩).2 ⟨[2], 0, 1, true, true⟩).1
        = some LimitError.ErrLimitStop ∧
      (processTransactions stopAfterOne [poolRow 1 2 5, poolRow 2 2 6, poolRow 3 6 7] 0 []
          (fun _ => false)).1 = [poolRow 3 6 7] ∧
      (processTransactions stopAfterOne [poolRow 1 2 5, poolRow 2 2 6, poolRow 0 2 7] 0 []
          (fun _ => false)).1 = [poolRow 1 2 5, poolRow 0 2 7] := by
  decide


/-! ### C4: a failed `processBlocks` inside `ReplaceBlocksFromHost` -/

/-- An error return of the first loop of `processBlocks` hands back the committed state and
an error; after a failed `Check`, `Play` or `UpdBlockInfo` the transaction is rolled back,
after a failed `SysUpdate` it is left open. -/
theorem processBlocks.play_error {ρ : Type} (env : BlocksEnv ρ) (db : DB ρ)
    (blocks : List block.Block) :
    ∀ (n : Nat) (h : n ≤ blocks.length) (prevBlocks : Int → Option block.Block)
      (played : List block.Block) (w : DB ρ) (o : BlocksOutcome ρ),
      processBlocks.play env db blocks n h prevBlocks played w = .error o →
      o.db = db ∧ o.err ≠ none ∧
        (((o.failed = some .Check ∨ o.failed = some .Play ∨ o.failed = some .UpdBlockInfo) ∧
            o.dbTransaction = none ∧ o.events = [.StartTransaction, .Rollback]) ∨
          (o.failed = some .SysUpdate ∧ o.dbTransaction ≠ none ∧
            o.events = [.StartTransaction])) := by
  intro n
  induction n with
  | zero =>
    intro h prevBlocks played w o ho
    simp [processBlocks.play] at ho
  | succ i ih =>
    intro h prevBlocks played w o ho
    simp only [processBlocks.play] at ho
    split at ho
    · cases ho
      simp
    · split at ho
      · cases ho
        simp
      · split at ho
        · cases ho
          simp
        · split at ho
          · cases ho
            simp
          · exact ih _ _ _ _ _ ho

/-- A call of `processBlocks` that fails in `Check`, `Play`, `UpdBlockInfo` or
`InsertIntoBlockchain` returns an error, rolls the transaction back and leaves the
committed state as it was. -/
theorem processBlocks_rolled_back {ρ : Type} (env : BlocksEnv ρ) (blocks : List block.Block)
    (db : DB ρ) (c : processBlocks.Call)
    (hc : c = .Check ∨ c = .Play ∨ c = .UpdBlockInfo ∨ c = .InsertIntoBlockchain)
    (h : (processBlocks env blocks db).failed = some c) :
    (processBlocks env blocks db).err ≠ none ∧
      (processBlocks env blocks db).db = db ∧
      (processBlocks env blocks db).dbTransaction = none ∧
      (processBlocks env blocks db).events = [.StartTransaction, .Rollback] := by
  unfold processBlocks at h ⊢
  cases h1 : env.StartTransactionErr db with
  | some err =>
    rw [h1] at h
    simp only [Option.some.injEq] at h
    subst h
    simp at hc
  | none =>
    rw [h1] at h
    simp only [] at h ⊢
    cases h2 : processBlocks.play env db blocks blocks.length (le_refl _) (fun _ => none) []
      db with
    | error o =>
      rw [h2] at h
      simp only [] at h ⊢
      have hp := processBlocks.play_error env db blocks _ _ _ _ _ o h2
      rcases hp with ⟨hdb, herr, ⟨_, htx, hev⟩ | ⟨hsys, _, _⟩⟩
      · exact ⟨herr, hdb, htx, hev⟩
      · rw [hsys] at h
        simp only [Option.some.injEq] at h
        subst h
        simp at hc
    | ok r =>
      obtain ⟨played, w⟩ := r
      rw [h2] at h
      simp only [] at h ⊢
      generalize processBlocks.insert env played played.length (le_refl _) w = r at h ⊢
      rcases r with ⟨w', _ | err⟩
      · simp only [] at h ⊢
        cases h3 : env.CommitErr w' with
        | some err =>
          rw [h3] at h
          simp only [Option.some.injEq] at h
          subst h
          simp at hc
        | none =>
          rw [h3] at h
          simp at h
      · simp

/-- A call of `processBlocks` that fails in `syspar.SysUpdate` returns with the transaction
started and neither rolled back nor committed. -/
theorem processBlocks_sysUpdate_open {ρ : Type} (env : BlocksEnv ρ)
    (blocks : List block.Block) (db : DB ρ)
    (h : (processBlocks env blocks db).failed = some .SysUpdate) :
    (processBlocks env blocks db).dbTransaction ≠ none ∧
      (processBlocks env blocks db).events = [.StartTransaction] := by
  unfold processBlocks at h ⊢
  cases h1 : env.StartTransactionErr db with
  | some err =>
    rw [h1] at h
    simp at h
  | none =>
    rw [h1] at h
    simp only [] at h ⊢
    cases h2 : processBlocks.play env db blocks blocks.length (le_refl _) (fun _ => none) []
      db with
    | error o =>
      rw [h2] at h
      simp only [] at h ⊢
      have hp := processBlocks.play_error env db blocks _ _ _ _ _ o h2
      rcases hp with ⟨_, _, ⟨hc, _, _⟩ | ⟨_, htx, hev⟩⟩
      · rw [h] at hc
        simp at hc
      · exact ⟨htx, hev⟩
    | ok r =>
      obtain ⟨played, w⟩ := r
      rw [h2] at h
      simp only [] at h ⊢
      generalize processBlocks.insert env played played.length (le_refl _) w = r at h ⊢
      rcases r with ⟨w', _ | err⟩
      · simp only [] at h ⊢
        cases h3 : env.CommitErr w' with
        | some err =>
          rw [h3] at h
          simp at h
        | none =>
          rw [h3] at h
          simp at h
      · simp at h

/-- A block with `SysUpdate` set is played and `syspar.SysUpdate` fails: `processBlocks`
returns the error with the transaction still open, holding what `Play` wrote, and the only
transaction call made is `StartTransaction`. -/
theorem processBlocks_sysUpdate_unrolled :
    (processBlocks failingSysUpdateEnv [{ plainBlock 3 with SysUpdate := true }]
        smallStore).err = some "sysupdate failed" ∧
      (processBlocks failingSysUpdateEnv [{ plainBlock 3 with SysUpdate := true }]
        smallStore).failed = some .SysUpdate ∧
      (processBlocks failingSysUpdateEnv [{ plainBlock 3 with SysUpdate := true }]
        smallStore).events = [.StartTransaction] ∧
      (processBlocks failingSysUpdateEnv [{ plainBlock 3 with SysUpdate := true }]
        smallStore).db.transactions = [poolRow 1 2 5] ∧
      ((processBlocks failingSysUpdateEnv [{ plainBlock 3 with SysUpdate := true }]
        smallStore).dbTransaction.map fun w => w.transactions)
          = some [{ poolRow 1 2 5 with Used := 1 }] := by
  decide

/-- C4 (as stated, refuted).  A block fetched from the peer fails its `Check`, so
`processBlocks` and `ReplaceBlocksFromHost` return the error; the pool transaction that was
verified before the call is unverified after it: the state is not the one before the
call. -/
theorem ReplaceBlocksFromHost_not_atomic :
    (ReplaceBlocksFromHost failingCheckEnv (.ok [plainBlock 3]) 3 smallStore).err
        = some "check failed" ∧
      smallStore.transactions = [poolRow 1 2 5] ∧
      (ReplaceBlocksFromHost failingCheckEnv (.ok [plainBlock 3]) 3 smallStore).db.transactions
        = [{ poolRow 1 2 5 with Verified := 0 }] ∧
      (ReplaceBlocksFromHost failingCheckEnv (.ok [plainBlock 3]) 3 smallStore).db.transactions
        ≠ smallStore.transactions := by
  decide

/-- C4 (amended).  When the steps of `ReplaceBlocksFromHost` before `processBlocks`
succeed and `processBlocks` fails in `Check`, `Play`, `UpdBlockInfo` or
`InsertIntoBlockchain`, then `ReplaceBlocksFromHost` returns the error of `processBlocks`,
the transaction of `processBlocks` is rolled back and none is left open, and the persistent
state is the one in which `processBlocks` was called: what `processBlocks` wrote is
discarded, what the earlier steps committed stays. -/
theorem ReplaceBlocksFromHost_failed_apply {ρ : Type} (env : BlocksEnv ρ)
    (blocks : List block.Block) (blockID : Int) (db : DB ρ) (c : processBlocks.Call)
    (hc : c = .Check ∨ c = .Play ∨ c = .UpdBlockInfo ∨ c = .InsertIntoBlockchain)
    (hprep : (ReplaceBlocksFromHost.prepare env blocks blockID db).err = none)
    (hfail : (processBlocks env blocks
      (ReplaceBlocksFromHost.prepare env blocks blockID db).db).failed = some c) :
    (ReplaceBlocksFromHost env (.ok blocks) blockID db).err
        = (processBlocks env blocks
            (ReplaceBlocksFromHost.prepare env blocks blockID db).db).err ∧
      (ReplaceBlocksFromHost env (.ok blocks) blockID db).err ≠ none ∧
      (ReplaceBlocksFromHost env (.ok blocks) blockID db).failed = some c ∧
      (ReplaceBlocksFromHost env (.ok blocks) blockID db).db
        = (ReplaceBlocksFromHost.prepare env blocks blockID db).db ∧
      (ReplaceBlocksFromHost env (.ok blocks) blockID db).dbTransaction = none ∧
      (ReplaceBlocksFromHost env (.ok blocks) blockID db).events
        = (ReplaceBlocksFromHost.prepare env blocks blockID db).events
            ++ [.StartTransaction, .Rollback] := by
  have hp := processBlocks_rolled_back env blocks _ c hc hfail
  unfold ReplaceBlocksFromHost
  simp only []
  rw [hprep]
  simp only []
  exact ⟨trivial, hp.1, hfail, hp.2.1, hp.2.2.1, by rw [hp.2.2.2]⟩

/-- The small store with a fetched block that fails its check. -/
theorem ReplaceBlocksFromHost_failed_apply_witness :
    (ReplaceBlocksFromHost failingCheckEnv (.ok [plainBlock 3]) 3 smallStore).err
        = (processBlocks failingCheckEnv [plainBlock 3]
            (ReplaceBlocksFromHost.prepare failingCheckEnv [plainBlock 3] 3 smallStore).db).err ∧
      (ReplaceBlocksFromHost failingCheckEnv (.ok [plainBlock 3]) 3 smallStore).err ≠ none ∧
      (ReplaceBlocksFromHost failingCheckEnv (.ok [plainBlock 3]) 3 smallStore).failed
        = some .Check ∧
      (ReplaceBlocksFromHost failingCheckEnv (.ok [plainBlock 3]) 3 smallStore).db
        = (ReplaceBlocksFromHost.prepare failingCheckEnv [plainBlock 3] 3 smallStore).db ∧
      (ReplaceBlocksFromHost failingCheckEnv (.ok [plainBlock 3]) 3 smallStore).dbTransaction
        = none ∧
      (ReplaceBlocksFromHost failingCheckEnv (.ok [plainBlock 3]) 3 smallStore).events
        = (ReplaceBlocksFromHost.prepare failingCheckEnv [plainBlock 3] 3 smallStore).events
            ++ [.StartTransaction, .Rollback] :=
  ReplaceBlocksFromHost_failed_apply failingCheckEnv [plainBlock 3] 3 smallStore .Check
    (Or.inl rfl) (by decide) (by decide)

/-! ### C5 to C8: the ban list of keys -/

theorem getElem?_eq_getD_of_lt (Bad : List Int) (i : Nat) (h : i < Bad.length) :
    Bad[i]? = some (Bad.getD i 0) := by
  simp [List.getD, List.getElem?_eq_getElem h]

theorem count_step (c : Int) (p : Prop) [Decidable p] (m : Nat) :
    (if p then c + 1 else c) + (m : Int)
      = c + ((m + if decide p = true then 1 else 0 : Nat) : Int) := by
  by_cases h : p
  · simp [h]; ring
  · simp [h]

/-- The loop of `BadTxForBan` does not panic on a buffer that has the slots it visits; it
leaves in `bMin` the first index of a least element among the visited slots, and adds to
`count` the number of visited slots whose time is within the window. -/
theorem BadTxForBan.scan_spec (cfg : BanKeyConfig) (now : Int) (Bad : List Int) :
    ∀ (n i bMin : Nat) (count : Int), i + n ≤ Bad.length → bMin ≤ i →
      bMin < Bad.length →
      (∀ j, j < i → Bad.getD bMin 0 ≤ Bad.getD j 0) →
      (∀ j, j < bMin → Bad.getD bMin 0 < Bad.getD j 0) →
      ∃ bMin' : Nat, bMin' < Bad.length ∧
        BadTxForBan.scan cfg now Bad n i bMin count
          = some (bMin', count +
              (((Bad.drop i).take n).countP (fun t => now < t + cfg.BadTime * Minute) : Nat)) ∧
        (∀ j, j < i + n → Bad.getD bMin' 0 ≤ Bad.getD j 0) ∧
        (∀ j, j < bMin' → Bad.getD bMin' 0 < Bad.getD j 0) := by
  intro n
  induction n with
  | zero =>
    intro i bMin count _ _ hb h1 h2
    exact ⟨bMin, hb, by simp [BadTxForBan.scan], by simpa using h1, h2⟩
  | succ n ih =>
    intro i bMin count hlen hle hb h1 h2
    have hi : i < Bad.length := by omega
    have hdrop : (Bad.drop i).take (n + 1) = Bad.getD i 0 :: (Bad.drop (i + 1)).take n := by
      rw [List.drop_eq_getElem_cons hi, List.take_succ_cons, List.getD_eq_getElem _ _ hi]
    rw [BadTxForBan.scan, getElem?_eq_getD_of_lt Bad i hi, hdrop]
    simp only []
    by_cases hgt : i > bMin
    · rw [if_pos hgt, getElem?_eq_getD_of_lt Bad bMin hb]
      simp only []
      by_cases hlt : Bad.getD i 0 < Bad.getD bMin 0
      · rw [if_pos hlt]
        obtain ⟨b', hb', hs, hmin, hfirst⟩ := ih (i + 1) i
          (if now < Bad.getD i 0 + cfg.BadTime * Minute then count + 1 else count)
          (by omega) (by omega) hi
          (fun j hj => by
            rcases Nat.lt_succ_iff_lt_or_eq.mp hj with h | h
            · exact le_of_lt (lt_of_lt_of_le hlt (h1 j h))
            · rw [h])
          (fun j hj => lt_of_lt_of_le hlt (h1 j hj))
        refine ⟨b', hb', ?_, fun j hj => hmin j (by omega), hfirst⟩
        rw [hs, List.countP_cons]
        exact congrArg (fun c => some (b', c)) (count_step _ _ _)
      · rw [if_neg hlt]
        obtain ⟨b', hb', hs, hmin, hfirst⟩ := ih (i + 1) bMin
          (if now < Bad.getD i 0 + cfg.BadTime * Minute then count + 1 else count)
          (by omega) (by omega) hb
          (fun j hj => by
            rcases Nat.lt_succ_iff_lt_or_eq.mp hj with h | h
            · exact h1 j h
            · rw [h]; exact not_lt.mp hlt)
          h2
        refine ⟨b', hb', ?_, fun j hj => hmin j (by omega), hfirst⟩
        rw [hs, List.countP_cons]
        exact congrArg (fun c => some (b', c)) (count_step _ _ _)
    · rw [if_neg hgt]
      have heq : bMin = i := by omega
      obtain ⟨b', hb', hs, hmin, hfirst⟩ := ih (i + 1) bMin
        (if now < Bad.getD i 0 + cfg.BadTime * Minute then count + 1 else count)
        (by omega) (by omega) hb
        (fun j hj => by
          rcases Nat.lt_succ_iff_lt_or_eq.mp hj with h | h
          · exact h1 j h
          · rw [h, heq])
        h2
      refine ⟨b', hb', ?_, fun j hj => hmin j (by omega), hfirst⟩
      rw [hs, List.countP_cons]
      exact congrArg (fun c => some (b', c)) (count_step _ _ _)

theorem Bad_getD_pre (pre : List Int) (z : Nat) (hpos : ∀ t ∈ pre, 0 < t) (j : Nat)
    (hj : j < pre.length) : 0 < (pre ++ List.replicate (z + 1) 0).getD j 0 := by
  rw [List.getD_append _ _ _ _ hj, List.getD_eq_getElem _ _ hj]
  exact hpos _ (List.getElem_mem _)

theorem Bad_getD_zero (pre : List Int) (z : Nat) (j : Nat) (hj : pre.length ≤ j) :
    (pre ++ List.replicate (z + 1) 0).getD j 0 = 0 := by
  rw [List.getD_append_right _ _ _ _ hj]
  by_cases h : j - pre.length < (List.replicate (z + 1) (0 : Int)).length
  · rw [List.getD_eq_getElem _ _ h]; simp
  · rw [List.getD_eq_default _ _ (not_lt.mp h)]

/-- A call of `BadTxForBan` on a buffer whose first slots hold times within the window and
whose other slots are still zero: the first zero slot takes `now`, and the key is banned
exactly when this was the last zero slot. -/
theorem BadTxForBan_fill (cfg : BanKeyConfig) (now : Int) (bl : BanList) (key : Int)
    (pre : List Int) (z : Nat) (T : Int)
    (hK : ((pre.length + (z + 1) : Nat) : Int) = cfg.BadTx)
    (hpos : ∀ t ∈ pre, 0 < t) (hrecent : ∀ t ∈ pre, now < t + cfg.BadTime * Minute)
    (hold : cfg.BadTime * Minute ≤ now)
    (hentry : bl key = some ⟨T, pre ++ List.replicate (z + 1) 0⟩) :
    BadTxForBan cfg now bl key
      = some (Function.update bl key
          (some ⟨if z = 0 then now + cfg.BanTime * Minute else T,
            pre ++ now :: List.replicate z 0⟩)) := by
  have hlen : (pre ++ List.replicate (z + 1) (0 : Int)).length = pre.length + (z + 1) := by
    simp
  have hKn : cfg.BadTx.toNat = pre.length + (z + 1) := by omega
  obtain ⟨bMin, hb, hs, hmin, hfirst⟩ :=
    BadTxForBan.scan_spec cfg now (pre ++ List.replicate (z + 1) 0) cfg.BadTx.toNat 0 0 0
      (by omega) (le_refl _) (by omega) (fun j hj => absurd hj (Nat.not_lt_zero _))
      (fun j hj => absurd hj (Nat.not_lt_zero _))
  have hbeq : bMin = pre.length := by
    have h0 := Bad_getD_zero pre z pre.length (le_refl _)
    rcases Nat.lt_trichotomy bMin pre.length with h | h | h
    · have h1 := Bad_getD_pre pre z hpos bMin h
      have h2 := hmin pre.length (by omega)
      omega
    · exact h
    · have h1 := hfirst pre.length h
      have h2 := Bad_getD_zero pre z bMin (le_of_lt h)
      omega
  have hcount : (((pre ++ List.replicate (z + 1) (0 : Int)).drop 0).take cfg.BadTx.toNat).countP
      (fun t => now < t + cfg.BadTime * Minute) = pre.length := by
    rw [List.drop_zero, hKn, ← hlen, List.take_length, List.countP_append,
      List.countP_eq_length.mpr (fun t ht => by simpa using hrecent t ht),
      List.countP_eq_zero.mpr (fun t ht => by
        have := List.eq_of_mem_replicate ht
        subst this
        simpa using hold)]
    rfl
  unfold BadTxForBan
  rw [hentry]
  simp only []
  rw [hs, hcount]
  subst hbeq
  simp only [hb, if_true]
  have hset : (pre ++ List.replicate (z + 1) (0 : Int)).set pre.length now
      = pre ++ now :: List.replicate z 0 := by
    rw [List.set_append_right _ _ (le_refl _)]
    simp [List.replicate_succ]
  rw [hset]
  have hcond : ((0 : Int) + (pre.length : Nat) ≥ cfg.BadTx - 1) ↔ z = 0 := by
    constructor <;> intro h <;> omega
  by_cases hz : z = 0
  · rw [if_pos (hcond.mpr hz), if_pos hz]
  · rw [if_neg (fun h => hz (hcond.mp h)), if_neg hz]

/-- Calls of `BadTxForBan` at the times `rest`, on a buffer that holds the times `pre` and
`z` zero slots: the times go to the zero slots in turn; the ban time is set by the call
that takes the last zero slot and not before. -/
theorem BadTxForBan_run (cfg : BanKeyConfig) (key : Int) (hi : Int) :
    ∀ (rest pre : List Int) (z : Nat) (T : Int) (bl : BanList),
      rest.length ≤ z →
      ((pre.length + z : Nat) : Int) = cfg.BadTx →
      (∀ t ∈ pre ++ rest, t ≤ hi) →
      (∀ t ∈ pre ++ rest, hi < t + cfg.BadTime * Minute) →
      (∀ t ∈ pre ++ rest, cfg.BadTime * Minute ≤ t) →
      bl key = some ⟨T, pre ++ List.replicate z 0⟩ →
      ∃ (bl' : BanList) (Tf : Int),
        rest.foldlM (fun b t => BadTxForBan cfg t b key) bl = some bl' ∧
        bl' key = some ⟨Tf, pre ++ rest ++ List.replicate (z - rest.length) 0⟩ ∧
        (rest.length < z → Tf = T) ∧
        (rest.length = z →
          ∀ tl, rest.getLast? = some tl → Tf = tl + cfg.BanTime * Minute) := by
  intro rest
  induction rest with
  | nil =>
    intro pre z T bl _ _ _ _ _ hentry
    exact ⟨bl, T, rfl, by simpa using hentry, fun _ => rfl, fun _ tl h => by simp at h⟩
  | cons r rest ih =>
    intro pre z T bl hlen hK hle hwin hclock hentry
    obtain ⟨z', rfl⟩ : ∃ z', z = z' + 1 := ⟨z - 1, by simp at hlen; omega⟩
    have hr : r ∈ pre ++ r :: rest := by simp
    have hWpos : 0 < cfg.BadTime * Minute := by
      have h1 := hle r hr
      have h2 := hwin r hr
      omega
    have hstep := BadTxForBan_fill cfg r bl key pre z' T (by rw [← hK])
      (fun t ht => lt_of_lt_of_le hWpos (hclock t (by simp [ht])))
      (fun t ht => lt_of_le_of_lt (hle r hr) (hwin t (by simp [ht])))
      (hclock r hr) hentry
    have hlen' : rest.length ≤ z' := by simp at hlen; omega
    obtain ⟨bl', Tf, hrun, hkey, hlt, heq⟩ := ih (pre ++ [r]) z'
      (if z' = 0 then r + cfg.BanTime * Minute else T)
      (Function.update bl key
        (some ⟨if z' = 0 then r + cfg.BanTime * Minute else T,
          pre ++ r :: List.replicate z' 0⟩))
      hlen' (by rw [← hK]; simp; omega)
      (fun t ht => hle t (by simpa using ht))
      (fun t ht => hwin t (by simpa using ht))
      (fun t ht => hclock t (by simpa using ht))
      (by simp)
    refine ⟨bl', Tf, ?_, ?_, ?_, ?_⟩
    · rw [List.foldlM_cons, hstep]
      exact hrun
    · rw [hkey]
      simp
    · intro h
      have h' : rest.length < z' := by simp at h; omega
      rw [hlt h', if_neg (by omega)]
    · intro h tl htl
      have h' : rest.length = z' := by simp at h; omega
      cases rest with
      | nil =>
        simp at h'
        subst h'
        simp at htl
        subst htl
        simp at hrun
        subst hrun
        simp at hkey
        exact hkey.symm
      | cons r' rest' =>
        exact heq h' tl (by simpa [List.getLast?_cons_cons] using htl)

theorem le_last_of_sorted (ts : List Int) (tK : Int) (hsorted : ts.Sorted (· ≤ ·))
    (hlast : ts.getLast? = some tK) : ∀ t ∈ ts, t ≤ tK := by
  obtain ⟨ys, rfl⟩ := List.getLast?_eq_some_iff.mp hlast
  intro t ht
  rcases List.mem_append.mp ht with h | h
  · exact (List.pairwise_append.mp hsorted).2.2 t h tK (by simp)
  · simp at h
    omega

theorem BadTxForBan_first (cfg : BanKeyConfig) (now : Int) (bl : BanList) (key : Int)
    (z : Nat) (hnone : bl key = none) (hK : ((z + 1 : Nat) : Int) = cfg.BadTx) :
    BadTxForBan cfg now bl key
      = some (Function.update bl key (some ⟨0, [now] ++ List.replicate z 0⟩)) := by
  have hKn : cfg.BadTx.toNat = z + 1 := by omega
  unfold BadTxForBan
  rw [hnone]
  simp only []
  rw [if_neg (by omega), hKn]
  simp [List.replicate_succ]

/-- C5.  Bad-tx ban threshold.  Start from a key without an entry, with a buffer of
`K = BadTx ≥ 2` slots, and call `BadTxForBan(key)` at the non-decreasing times
`ts = t1, ..., tK`, all within `BadTime` minutes of `tK` (and the clock reads at least one
window past the zero instant).  Then the calls return, the ban time of the entry is
`tK + BanTime` minutes, and `IsKeyBanned(key)` is true at every `now` with
`tK ≤ now < tK + BanTime` minutes; after fewer than `K` of the calls the ban time of the
entry, if there is one, is still the zero time. -/
theorem BadTxForBan_bans_at_Kth (cfg : BanKeyConfig) (key : Int) (bl : BanList)
    (ts : List Int) (tK : Int)
    (hnone : bl key = none) (hK : 2 ≤ cfg.BadTx) (hlen : (ts.length : Int) = cfg.BadTx)
    (hsorted : ts.Sorted (· ≤ ·)) (hlast : ts.getLast? = some tK)
    (hwin : ∀ t ∈ ts, tK < t + cfg.BadTime * Minute)
    (hclock : ∀ t ∈ ts, cfg.BadTime * Minute ≤ t) :
    (∃ (bl' : BanList) (ban : banKey),
      ts.foldlM (fun b t => BadTxForBan cfg t b key) bl = some bl' ∧
      bl' key = some ban ∧ ban.Time = tK + cfg.BanTime * Minute ∧
      ∀ now, tK ≤ now → now < tK + cfg.BanTime * Minute →
        (IsKeyBanned cfg now bl' key).map Prod.fst = some true) ∧
    (∀ n, n < ts.length →
      ∃ bl'' : BanList,
        (ts.take n).foldlM (fun b t => BadTxForBan cfg t b key) bl = some bl'' ∧
        ∀ ban, bl'' key = some ban → ban.Time = 0) := by
  have hle := le_last_of_sorted ts tK hsorted hlast
  cases ts with
  | nil => simp at hlast
  | cons t1 rest =>
    have hrl : ((rest.length + 1 : Nat) : Int) = cfg.BadTx := by simpa using hlen
    have hfirst := BadTxForBan_first cfg t1 bl key rest.length hnone hrl
    constructor
    · obtain ⟨bl', Tf, hrun, hkey, _, heq⟩ :=
        BadTxForBan_run cfg key tK rest [t1] rest.length 0
        (Function.update bl key (some ⟨0, [t1] ++ List.replicate rest.length 0⟩))
        (le_refl _) (by rw [← hrl]; simp; omega) (by simpa using hle) (by simpa using hwin)
        (by simpa using hclock) (by simp)
      have hrest : rest ≠ [] := by
        intro h
        subst h
        simp at hrl
        omega
      have hlast' : rest.getLast? = some tK := by
        cases rest with
        | nil => exact absurd rfl hrest
        | cons r rs => simpa [List.getLast?_cons_cons] using hlast
      have hTf := heq rfl tK hlast'
      refine ⟨bl', _, ?_, hkey, hTf, ?_⟩
      · rw [List.foldlM_cons, hfirst]
        exact hrun
      · intro now _ hnow
        unfold IsKeyBanned
        rw [hkey]
        simp only []
        rw [if_pos (by rw [hTf]; exact hnow)]
        rfl
    · intro n hn
      cases n with
      | zero =>
        exact ⟨bl, rfl, fun ban h => by rw [hnone] at h; cases h⟩
      | succ m =>
        have hm : m < rest.length := by simpa using hn
        obtain ⟨bl', Tf, hrun, hkey, hlt, _⟩ := BadTxForBan_run cfg key tK (rest.take m) [t1]
          rest.length 0
          (Function.update bl key (some ⟨0, [t1] ++ List.replicate rest.length 0⟩))
          (by simp) (by rw [← hrl]; simp; omega)
          (fun t ht => hle t (by
            rcases List.mem_append.mp ht with h | h
            · simp at h; simp [h]
            · exact List.mem_cons_of_mem _ (List.mem_of_mem_take h)))
          (fun t ht => hwin t (by
            rcases List.mem_append.mp ht with h | h
            · simp at h; simp [h]
            · exact List.mem_cons_of_mem _ (List.mem_of_mem_take h)))
          (fun t ht => hclock t (by
            rcases List.mem_append.mp ht with h | h
            · simp at h; simp [h]
            · exact List.mem_cons_of_mem _ (List.mem_of_mem_take h)))
          (by simp)
        refine ⟨bl', ?_, ?_⟩
        · rw [List.take_succ_cons, List.foldlM_cons, hfirst]
          exact hrun
        · intro ban hban
          rw [hkey] at hban
          cases hban
          exact hlt (by simp; omega)

/-- Scenario S6: five bad transactions of key 7, one minute apart, ban the key. -/
theorem BadTxForBan_bans_at_Kth_witness :
    (∃ (bl' : BanList) (ban : banKey),
      S6.times.foldlM (fun b t => BadTxForBan S6.cfg t b 7) BanList.empty = some bl' ∧
      bl' 7 = some ban ∧ ban.Time = 1004 * Minute + S6.cfg.BanTime * Minute ∧
      ∀ now, 1004 * Minute ≤ now → now < 1004 * Minute + S6.cfg.BanTime * Minute →
        (IsKeyBanned S6.cfg now bl' 7).map Prod.fst = some true) ∧
    (∀ n, n < S6.times.length →
      ∃ bl'' : BanList,
        (S6.times.take n).foldlM (fun b t => BadTxForBan S6.cfg t b 7) BanList.empty
          = some bl'' ∧
        ∀ ban, bl'' 7 = some ban → ban.Time = 0) :=
  BadTxForBan_bans_at_Kth S6.cfg 7 BanList.empty S6.times (1004 * Minute) rfl (by decide)
    (by decide) (by decide) (by decide) (by decide) (by decide)

/-- C6 (as stated, refuted).  Key 7 has an entry with a bad transaction five minutes ago,
inside the window of ten minutes, and its ban time has passed: `IsKeyBanned` returns
false. -/
theorem IsKeyBanned_false_within_window :
    (∃ ban, S6.oneBad 7 = some ban ∧
      (1005 * Minute < ban.Time ∨
        ∃ t ∈ ban.Bad, 1005 * Minute < t + S6.cfg.BadTime * Minute)) ∧
    (IsKeyBanned S6.cfg (1005 * Minute) S6.oneBad 7).map Prod.fst = some false := by
  refine ⟨⟨⟨0, [1000 * Minute, 0, 0, 0, 0]⟩, by decide,
    Or.inr ⟨1000 * Minute, by decide, by decide⟩⟩, by decide⟩

theorem IsKeyBanned.scan_isSome (cfg : BanKeyConfig) (now : Int) (Bad : List Int) :
    ∀ n i, i + n ≤ Bad.length → ∃ b, IsKeyBanned.scan cfg now Bad n i = some b := by
  intro n
  induction n with
  | zero => intro i _; exact ⟨false, rfl⟩
  | succ n ih =>
    intro i h
    have hi : i < Bad.length := by omega
    rw [IsKeyBanned.scan, List.getElem?_eq_getElem hi]
    simp only []
    by_cases hw : now < Bad[i] + cfg.BadTime * Minute
    · exact ⟨true, by rw [if_pos hw]⟩
    · rw [if_neg hw]
      exact ih (i + 1) (by omega)

/-- C6 (amended).  On a ban list whose entry for the key, if any, has its `BadTx` slots,
`IsKeyBanned(key)` returns, and it returns true if and only if the key has an entry and
`now` is before its ban time. -/
theorem IsKeyBanned_true_iff (cfg : BanKeyConfig) (now : Int) (bl : BanList) (key : Int)
    (hslots : ∀ ban, bl key = some ban → cfg.BadTx.toNat ≤ ban.Bad.length) :
    ∃ (b : Bool) (bl' : BanList), IsKeyBanned cfg now bl key = some (b, bl') ∧
      (b = true ↔ ∃ ban, bl key = some ban ∧ now < ban.Time) := by
  unfold IsKeyBanned
  cases hentry : bl key with
  | none => exact ⟨false, bl, rfl, by simp⟩
  | some ban =>
    simp only []
    by_cases hnow : now < ban.Time
    · rw [if_pos hnow]
      exact ⟨true, bl, rfl, by simp [hnow]⟩
    · rw [if_neg hnow]
      obtain ⟨b, hb⟩ := IsKeyBanned.scan_isSome cfg now ban.Bad cfg.BadTx.toNat 0
        (by have := hslots ban hentry; omega)
      rw [hb]
      cases b with
      | true => exact ⟨false, bl, rfl, by simp [hnow]⟩
      | false => exact ⟨false, _, rfl, by simp [hnow]⟩

/-- The entry of key 7 with one recent bad transaction and no ban time: not banned. -/
theorem IsKeyBanned_true_iff_witness :
    ∃ (b : Bool) (bl' : BanList),
      IsKeyBanned S6.cfg (1005 * Minute) S6.oneBad 7 = some (b, bl') ∧
      (b = true ↔ ∃ ban, S6.oneBad 7 = some ban ∧ 1005 * Minute < ban.Time) :=
  IsKeyBanned_true_iff S6.cfg (1005 * Minute) S6.oneBad 7 (fun ban h => by
    have hb : ban = ⟨0, [1000 * Minute, 0, 0, 0, 0]⟩ := by
      have h' : S6.oneBad 7 = some ⟨0, [1000 * Minute, 0, 0, 0, 0]⟩ := by decide
      rw [h'] at h
      exact (Option.some.inj h).symm
    subst hb
    decide)

/-- The ban list a call of `IsKeyBanned` leaves is the one it found, or that one with the
entry of the key deleted, and it deletes only when it returns false. -/
theorem IsKeyBanned_banList (cfg : BanKeyConfig) (now : Int) (bl bl' : BanList)
    (key : Int) (b : Bool) (h : IsKeyBanned cfg now bl key = some (b, bl')) :
    bl' = bl ∨ (b = false ∧ bl' = Function.update bl key none ∧
      ∀ ban, bl key = some ban → ¬ now < ban.Time) := by
  unfold IsKeyBanned at h
  cases hentry : bl key with
  | none =>
    rw [hentry] at h
    simp only [Option.some.injEq, Prod.mk.injEq] at h
    exact Or.inl h.2.symm
  | some ban =>
    rw [hentry] at h
    simp only [] at h
    by_cases hnow : now < ban.Time
    · rw [if_pos hnow] at h
      simp only [Option.some.injEq, Prod.mk.injEq] at h
      exact Or.inl h.2.symm
    · rw [if_neg hnow] at h
      cases hs : IsKeyBanned.scan cfg now ban.Bad cfg.BadTx.toNat 0 with
      | none => rw [hs] at h; cases h
      | some r =>
        rw [hs] at h
        cases r with
        | true =>
          simp only [Option.some.injEq, Prod.mk.injEq] at h
          exact Or.inl h.2.symm
        | false =>
          simp only [Option.some.injEq, Prod.mk.injEq] at h
          refine Or.inr ⟨h.1.symm, h.2.symm, fun ban' hb => ?_⟩
          cases hb
          exact hnow

/-- C7.  Ban idempotence.  With the clock and the configuration fixed, a call
`IsKeyBanned(k')` that returns leaves a ban list on which `IsKeyBanned(k)` gives what it
gave before, for all keys `k` and `k'`, also when the call deleted the entry of `k'`. -/
theorem IsKeyBanned_idempotent (cfg : BanKeyConfig) (now : Int) (bl bl' : BanList)
    (k k' : Int) (b : Bool) (h : IsKeyBanned cfg now bl k' = some (b, bl')) :
    (IsKeyBanned cfg now bl' k).map Prod.fst = (IsKeyBanned cfg now bl k).map Prod.fst := by
  rcases IsKeyBanned_banList cfg now bl bl' k' b h with rfl | ⟨hb, rfl, hexp⟩
  · rfl
  · by_cases hk : k = k'
    · subst hk
      subst hb
      have h1 : IsKeyBanned cfg now (Function.update bl k none) k
          = some (false, Function.update bl k none) := by
        unfold IsKeyBanned
        simp
      rw [h1, h]
    · have hsame : Function.update bl k' none k = bl k := Function.update_noteq hk _ _
      unfold IsKeyBanned
      rw [hsame]
      cases bl k with
      | none => rfl
      | some ban =>
        simp only []
        by_cases hnow : now < ban.Time
        · rw [if_pos hnow, if_pos hnow]; rfl
        · rw [if_neg hnow, if_neg hnow]
          cases IsKeyBanned.scan cfg now ban.Bad cfg.BadTx.toNat 0 with
          | none => rfl
          | some r => cases r <;> rfl

/-- A call that deletes the entry of key 7, and the same call again. -/
theorem IsKeyBanned_idempotent_witness :
    (IsKeyBanned S6.cfg (1005 * Minute) (Function.update S6.allOld 7 none) 7).map Prod.fst
      = (IsKeyBanned S6.cfg (1005 * Minute) S6.allOld 7).map Prod.fst :=
  IsKeyBanned_idempotent S6.cfg (1005 * Minute) S6.allOld (Function.update S6.allOld 7 none)
    7 7 false (by
      unfold IsKeyBanned
      have h' : S6.allOld 7 = some ⟨0, [0, 0, 0, 0, 0]⟩ := by decide
      rw [h']
      rfl)

/-- C8.  For a key that has an entry with a buffer of `K = BadTx ≥ 1` slots, `BadTxForBan`
returns and overwrites exactly one slot `bMin` with `now`; the slot held a least (earliest)
time of the buffer; every other slot, and the entry of every other key, is unchanged. -/
theorem BadTxForBan_overwrites_oldest (cfg : BanKeyConfig) (now : Int) (bl : BanList)
    (keyID : Int) (ban : banKey) (hentry : bl keyID = some ban)
    (hslots : (ban.Bad.length : Int) = cfg.BadTx) (hK : 0 < cfg.BadTx) :
    ∃ (bMin : Nat) (bl' : BanList) (ban' : banKey),
      bMin < ban.Bad.length ∧
      (∀ t ∈ ban.Bad, ban.Bad.getD bMin 0 ≤ t) ∧
      BadTxForBan cfg now bl keyID = some bl' ∧
      bl' keyID = some ban' ∧
      ban'.Bad = ban.Bad.set bMin now ∧
      ∀ k, k ≠ keyID → bl' k = bl k := by
  have hKn : cfg.BadTx.toNat = ban.Bad.length := by omega
  obtain ⟨bMin, hb, hs, hmin, _⟩ :=
    BadTxForBan.scan_spec cfg now ban.Bad cfg.BadTx.toNat 0 0 0
      (by omega) (le_refl _) (by omega) (fun j hj => absurd hj (Nat.not_lt_zero _))
      (fun j hj => absurd hj (Nat.not_lt_zero _))
  have hrun : ∃ T, BadTxForBan cfg now bl keyID
      = some (Function.update bl keyID (some ⟨T, ban.Bad.set bMin now⟩)) := by
    unfold BadTxForBan
    rw [hentry]
    simp only []
    rw [hs]
    simp only [hb, if_true]
    exact ⟨_, rfl⟩
  obtain ⟨T, hT⟩ := hrun
  refine ⟨bMin, _, ⟨T, ban.Bad.set bMin now⟩, hb, ?_, hT, Function.update_same _ _ _, rfl,
    fun k hk => Function.update_noteq hk _ _⟩
  intro t ht
  obtain ⟨j, hj, rfl⟩ := List.getElem_of_mem ht
  have := hmin j (by omega)
  rwa [List.getD_eq_getElem _ _ hj] at this

/-- The entry of key 7 with one bad transaction and four zero slots takes one more. -/
theorem BadTxForBan_overwrites_oldest_witness :
    ∃ (bMin : Nat) (bl' : BanList) (ban' : banKey),
      bMin < [1000 * Minute, 0, 0, 0, 0].length ∧
      (∀ t ∈ [1000 * Minute, 0, 0, 0, 0], [1000 * Minute, 0, 0, 0, 0].getD bMin 0 ≤ t) ∧
      BadTxForBan S6.cfg (1005 * Minute) S6.oneBad 7 = some bl' ∧
      bl' 7 = some ban' ∧
      ban'.Bad = [1000 * Minute, 0, 0, 0, 0].set bMin (1005 * Minute) ∧
      ∀ k, k ≠ 7 → bl' k = S6.oneBad k :=
  BadTxForBan_overwrites_oldest S6.cfg (1005 * Minute) S6.oneBad 7
    ⟨0, [1000 * Minute, 0, 0, 0, 0]⟩ (by decide) (by decide) (by decide)

/-! ### C9: `RollbackBlock` refuses a block that is not the tip -/

theorem GetMaxBlock_foldl (rows : List model.Block) :
    ∀ b : model.Block,
      (rows.foldl (fun b x => if b.ID < x.ID then x else b) b = b ∨
        rows.foldl (fun b x => if b.ID < x.ID then x else b) b ∈ rows) ∧
      b.ID ≤ (rows.foldl (fun b x => if b.ID < x.ID then x else b) b).ID ∧
      ∀ r ∈ rows, r.ID ≤ (rows.foldl (fun b x => if b.ID < x.ID then x else b) b).ID := by
  induction rows with
  | nil => intro b; simp
  | cons x rows ih =>
    intro b
    rw [List.foldl_cons]
    by_cases hlt : b.ID < x.ID
    · rw [if_pos hlt]
      obtain ⟨hmem, hle, hall⟩ := ih x
      refine ⟨Or.inr ?_, by omega, ?_⟩
      · rcases hmem with h | h
        · rw [h]; exact List.mem_cons_self _ _
        · exact List.mem_cons_of_mem _ h
      · intro r hr
        rcases List.mem_cons.mp hr with h | h
        · subst h; exact hle
        · exact hall r h
    · rw [if_neg hlt]
      obtain ⟨hmem, hle, hall⟩ := ih b
      refine ⟨?_, hle, ?_⟩
      · rcases hmem with h | h
        · exact Or.inl h
        · exact Or.inr (List.mem_cons_of_mem _ h)
      · intro r hr
        rcases List.mem_cons.mp hr with h | h
        · subst h; omega
        · exact hall r h

/-- The query `GetMaxBlock` returns a row of a non-empty table, one with the greatest id. -/
theorem GetMaxBlock_spec (rows : List model.Block) (hne : rows ≠ []) :
    model.Block.GetMaxBlock rows ∈ rows ∧
    ∀ r ∈ rows, r.ID ≤ (model.Block.GetMaxBlock rows).ID := by
  cases rows with
  | nil => exact absurd rfl hne
  | cons x rows =>
    obtain ⟨hmem, hle, hall⟩ := GetMaxBlock_foldl rows x
    refine ⟨?_, ?_⟩
    · rcases hmem with h | h
      · show rows.foldl _ x ∈ x :: rows
        rw [h]; exact List.mem_cons_self _ _
      · exact List.mem_cons_of_mem _ h
    · intro r hr
      rcases List.mem_cons.mp hr with h | h
      · subst h; exact hle
      · exact hall r h

/-- C9.  When `data` decodes to a block whose header `BlockID` differs from the id of the
tip (the row of `block_chain` with the greatest id), `RollbackBlock(data)` returns
`ErrLastBlock`, makes no transaction call and leaves the persistent state as it was. -/
theorem RollbackBlock_not_tip {ρ : Type} (env : RollbackEnv ρ) (data : Bytes) (db : DB ρ)
    (bl : block.Block) (tip : model.Block)
    (hdecode : env.UnmarshallBlock data true = .ok bl)
    (hread : env.GetMaxBlockErr db = none)
    (htip : tip ∈ db.block_chain) (hmax : ∀ r ∈ db.block_chain, r.ID ≤ tip.ID)
    (hne : bl.Header.BlockID ≠ tip.ID) :
    RollbackBlock env data db = ⟨db, some ErrLastBlock, []⟩ := by
  have hrows : db.block_chain ≠ [] := List.ne_nil_of_mem htip
  obtain ⟨hmem, hall⟩ := GetMaxBlock_spec db.block_chain hrows
  have hid : (model.Block.GetMaxBlock db.block_chain).ID = tip.ID :=
    le_antisymm (hmax _ hmem) (hall _ htip)
  unfold RollbackBlock
  rw [hdecode]
  simp only []
  rw [hread]
  simp only []
  rw [if_pos (by rw [hid]; exact fun h => hne h.symm)]

/-- A store whose tip is block 2 refuses the data of a block 3. -/
theorem RollbackBlock_not_tip_witness :
    RollbackBlock idleRollbackEnv [3] smallStore = ⟨smallStore, some ErrLastBlock, []⟩ :=
  RollbackBlock_not_tip idleRollbackEnv [3] smallStore (plainBlock 3) (chainRow 2) rfl rfl
    (by decide) (by decide) (by decide)

/-! ### C10: `rollbackBlock` undoes the transactions in reverse order -/

theorem rollbackBlock.body_traced {σ : Type} (ops : RollbackOps σ)
    (t : transaction.Transaction) (s : σ) (log : List Call) :
    ∃ cs : List Call,
      rollbackBlock.body ops.traced t (s, log)
        = (((rollbackBlock.body ops t s).1, log ++ cs), (rollbackBlock.body ops t s).2) ∧
      BodyLog ops t cs (rollbackBlock.body ops t s).2 := by
  unfold rollbackBlock.body
  have htr9 : ops.traced.TxTypes = ops.TxTypes := rfl
  have htr10 : ops.traced.ErrInfo = ops.ErrInfo := rfl
  have htr1 : ops.traced.MarkTransactionUnusedAndUnverified = fun h =>
      Step.record .MarkTransactionUnusedAndUnverified h
        (ops.MarkTransactionUnusedAndUnverified h) := rfl
  have htr2 : ops.traced.DeleteLogTransactionsByHash = fun h =>
      Step.record .DeleteLogTransactionsByHash h (ops.DeleteLogTransactionsByHash h) := rfl
  have htr3 : ops.traced.UpdateBlockID = fun id h =>
      Step.record .UpdateBlockID h (ops.UpdateBlockID id h) := rfl
  have htr4 : ops.traced.DeleteQueueTxByHash = fun h =>
      Step.record .DeleteQueueTxByHash h (ops.DeleteQueueTxByHash h) := rfl
  have htr5 : ops.traced.rollbackTransaction = fun h =>
      Step.record .rollbackTransaction h (ops.rollbackTransaction h) := rfl
  have htr6 : ops.traced.GetTransaction = fun t m =>
      Step.record .GetTransaction t.TxHash (ops.GetTransaction t m) := rfl
  have htr7 : ops.traced.Init = fun t => Step.record .Init t.TxHash (ops.Init t) := rfl
  have htr8 : ops.traced.Rollback = fun t =>
      Step.record .Rollback t.TxHash (ops.Rollback t) := rfl
  simp only [htr1, htr2, htr3, htr4, htr5, htr6, htr7, htr8, htr9]
  cases hc : t.TxContract with
  | true =>
    simp only [if_true]
    try simp only [List.append_assoc, List.cons_append, List.nil_append, Step.next,
      Step.record, RollbackOps.wrap, htr10, Option.map]
    rcases h1 : ops.MarkTransactionUnusedAndUnverified t.TxHash s with ⟨s1, _ | e1⟩
    · try simp only [List.append_assoc, List.cons_append, List.nil_append, Step.next,
      Step.record, RollbackOps.wrap, htr10, Option.map]
      rcases h2 : ops.DeleteLogTransactionsByHash t.TxHash s1 with ⟨s2, _ | e2⟩
      · try simp only [List.append_assoc, List.cons_append, List.nil_append, Step.next,
      Step.record, RollbackOps.wrap, htr10, Option.map]
        rcases h3 : ops.UpdateBlockID 0 t.TxHash s2 with ⟨s3, _ | e3⟩
        · try simp only [List.append_assoc, List.cons_append, List.nil_append, Step.next,
      Step.record, RollbackOps.wrap, htr10, Option.map]
          rcases h4 : ops.DeleteQueueTxByHash t.TxHash s3 with ⟨s4, _ | e4⟩
          · try simp only [List.append_assoc, List.cons_append, List.nil_append, Step.next,
      Step.record, RollbackOps.wrap, htr10, Option.map]
            rcases h5 : ops.rollbackTransaction t.TxHash s4 with ⟨s5, _ | e5⟩
            · try simp only [List.append_assoc, List.cons_append, List.nil_append, Step.next,
      Step.record, RollbackOps.wrap, htr10, Option.map]
              refine ⟨[_, _, _, _, _], rfl, ?_⟩
              simp [BodyLog, rollbackBlock.calls, Call.key, hc]
            · try simp only [List.append_assoc, List.cons_append, List.nil_append, Step.next,
      Step.record, RollbackOps.wrap, htr10, Option.map]
              refine ⟨[_, _, _, _, _], rfl, ?_⟩
              simp [BodyLog, rollbackBlock.calls, Call.key, hc]
          · try simp only [List.append_assoc, List.cons_append, List.nil_append, Step.next,
      Step.record, RollbackOps.wrap, htr10, Option.map]
            refine ⟨[_, _, _, _], rfl, ?_⟩
            simp [BodyLog, rollbackBlock.calls, Call.key, hc]
        · try simp only [List.append_assoc, List.cons_append, List.nil_append, Step.next,
      Step.record, RollbackOps.wrap, htr10, Option.map]
          refine ⟨[_, _, _], rfl, ?_⟩
          simp [BodyLog, rollbackBlock.calls, Call.key, hc]
      · try simp only [List.append_assoc, List.cons_append, List.nil_append, Step.next,
      Step.record, RollbackOps.wrap, htr10, Option.map]
        refine ⟨[_, _], rfl, ?_⟩
        simp [BodyLog, rollbackBlock.calls, Call.key, hc]
    · try simp only [List.append_assoc, List.cons_append, List.nil_append, Step.next,
      Step.record, RollbackOps.wrap, htr10, Option.map]
      refine ⟨[_], rfl, ?_⟩
      simp [BodyLog, rollbackBlock.calls, Call.key, hc]
  | false =>
    simp only [Bool.false_eq_true, if_false]
    try simp only [List.append_assoc, List.cons_append, List.nil_append, Step.next,
      Step.record, RollbackOps.wrap, htr10, Option.map]
    rcases h1 : ops.MarkTransactionUnusedAndUnverified t.TxHash s with ⟨s1, _ | e1⟩
    · try simp only [List.append_assoc, List.cons_append, List.nil_append, Step.next,
      Step.record, RollbackOps.wrap, htr10, Option.map]
      rcases h2 : ops.DeleteLogTransactionsByHash t.TxHash s1 with ⟨s2, _ | e2⟩
      · try simp only [List.append_assoc, List.cons_append, List.nil_append, Step.next,
      Step.record, RollbackOps.wrap, htr10, Option.map]
        rcases h3 : ops.UpdateBlockID 0 t.TxHash s2 with ⟨s3, _ | e3⟩
        · try simp only [List.append_assoc, List.cons_append, List.nil_append, Step.next,
      Step.record, RollbackOps.wrap, htr10, Option.map]
          rcases h4 : ops.DeleteQueueTxByHash t.TxHash s3 with ⟨s4, _ | e4⟩
          · try simp only [List.append_assoc, List.cons_append, List.nil_append, Step.next,
      Step.record, RollbackOps.wrap, htr10, Option.map]
            rcases h5 : ops.GetTransaction t (ops.TxTypes t.TxType) s4 with ⟨s5, _ | e5⟩
            · try simp only [List.append_assoc, List.cons_append, List.nil_append, Step.next,
      Step.record, RollbackOps.wrap, htr10, Option.map]
              rcases h6 : ops.Init t s5 with ⟨s6, _ | e6⟩
              · try simp only [List.append_assoc, List.cons_append, List.nil_append, Step.next,
      Step.record, RollbackOps.wrap, htr10, Option.map]
                rcases h7 : ops.Rollback t s6 with ⟨s7, _ | e7⟩
                · try simp only [List.append_assoc, List.cons_append, List.nil_append, Step.next,
      Step.record, RollbackOps.wrap, htr10, Option.map]
                  refine ⟨[_, _, _, _, _, _, _], rfl, ?_⟩
                  simp [BodyLog, rollbackBlock.calls, Call.key, hc]
                · try simp only [List.append_assoc, List.cons_append, List.nil_append, Step.next,
      Step.record, RollbackOps.wrap, htr10, Option.map]
                  refine ⟨[_, _, _, _, _, _, _], rfl, ?_⟩
                  simp [BodyLog, rollbackBlock.calls, Call.key, hc]
              · try simp only [List.append_assoc, List.cons_append, List.nil_append, Step.next,
      Step.record, RollbackOps.wrap, htr10, Option.map]
                refine ⟨[_, _, _, _, _, _], rfl, ?_⟩
                simp [BodyLog, rollbackBlock.calls, Call.key, hc]
            · try simp only [List.append_assoc, List.cons_append, List.nil_append, Step.next,
      Step.record, RollbackOps.wrap, htr10, Option.map]
              refine ⟨[_, _, _, _, _], rfl, ?_⟩
              simp [BodyLog, rollbackBlock.calls, Call.key, hc]
          · try simp only [List.append_assoc, List.cons_append, List.nil_append, Step.next,
      Step.record, RollbackOps.wrap, htr10, Option.map]
            refine ⟨[_, _, _, _], rfl, ?_⟩
            simp [BodyLog, rollbackBlock.calls, Call.key, hc]
        · try simp only [List.append_assoc, List.cons_append, List.nil_append, Step.next,
      Step.record, RollbackOps.wrap, htr10, Option.map]
          refine ⟨[_, _, _], rfl, ?_⟩
          simp [BodyLog, rollbackBlock.calls, Call.key, hc]
      · try simp only [List.append_assoc, List.cons_append, List.nil_append, Step.next,
      Step.record, RollbackOps.wrap, htr10, Option.map]
        refine ⟨[_, _], rfl, ?_⟩
        simp [BodyLog, rollbackBlock.calls, Call.key, hc]
    · try simp only [List.append_assoc, List.cons_append, List.nil_append, Step.next,
      Step.record, RollbackOps.wrap, htr10, Option.map]
      refine ⟨[_], rfl, ?_⟩
      simp [BodyLog, rollbackBlock.calls, Call.key, hc]

theorem Call.eq_of_err_none (cs : List Call) (h : ∀ c ∈ cs, c.err = none) :
    cs = (cs.map Call.key).map (fun k => (⟨k.1, k.2, none⟩ : Call)) := by
  induction cs with
  | nil => rfl
  | cons c cs ih =>
    have hc : c.err = none := h c (List.mem_cons_self _ _)
    have := ih (fun c' hc' => h c' (List.mem_cons_of_mem _ hc'))
    rw [List.map_cons, List.map_cons, ← this]
    obtain ⟨st, hs, e⟩ := c
    simp only at hc
    subst hc
    rfl

theorem rollbackBlock.loop_traced {σ : Type} (ops : RollbackOps σ)
    (txs : List transaction.Transaction) :
    ∀ (n : Nat) (h : n ≤ txs.length) (s : σ) (log : List Call),
      ∃ (done rest : List transaction.Transaction) (last : List Call),
        (txs.take n).reverse = done ++ rest ∧
        rollbackBlock.loop ops.traced txs n h (s, log)
          = (((rollbackBlock.loop ops txs n h s).1,
              log ++ ((done.flatMap rollbackBlock.calls).map
                (fun k => (⟨k.1, k.2, none⟩ : Call)) ++ last)),
             (rollbackBlock.loop ops txs n h s).2) ∧
        ((rollbackBlock.loop ops txs n h s).2 = none → rest = [] ∧ last = []) ∧
        (∀ e, (rollbackBlock.loop ops txs n h s).2 = some e →
          ∃ t later, rest = t :: later ∧ BodyLog ops t last (some e)) := by
  intro n
  induction n with
  | zero =>
    intro h s log
    exact ⟨[], [], [], by simp, by simp [rollbackBlock.loop], fun _ => ⟨rfl, rfl⟩,
      fun e he => by simp [rollbackBlock.loop] at he⟩
  | succ i ih =>
    intro h s log
    have hi : i < txs.length := h
    have htake : (txs.take (i + 1)).reverse = txs.get ⟨i, hi⟩ :: (txs.take i).reverse := by
      rw [List.take_succ, List.getElem?_eq_getElem hi]
      simp
    obtain ⟨cs, hbody, hlog⟩ := rollbackBlock.body_traced ops (txs.get ⟨i, hi⟩) s log
    rw [rollbackBlock.loop, rollbackBlock.loop, hbody]
    generalize txs.get ⟨i, hi⟩ = t at *
    generalize rollbackBlock.body ops t s = r at *
    obtain ⟨s1, o⟩ := r
    cases o with
    | some e =>
      refine ⟨[], _, cs, by rw [htake]; rfl, ?_, fun h' => ?_, ?_⟩
      · simp [Step.next]
      · simp [Step.next] at h'
      · intro e' he'
        simp only [Step.next] at he'
        cases he'
        exact ⟨_, _, rfl, hlog⟩
    | none =>
      simp only [Step.next]
      obtain ⟨done, rest, last, hsplit, hrun, hok, herr⟩ :=
        ih (by omega) s1 (log ++ cs)
      simp only at hlog
      have hcs := (hlog.2.2.2.1 rfl)
      have hcs' : cs = (rollbackBlock.calls t).map
          (fun k => (⟨k.1, k.2, none⟩ : Call)) := by
        rw [← hcs.1]
        exact Call.eq_of_err_none cs hcs.2
      refine ⟨t :: done, rest, last, by rw [htake, hsplit]; rfl, ?_, hok, herr⟩
      rw [hrun, List.flatMap_cons, List.map_append, ← hcs']
      simp [List.append_assoc]

/-- C10.  Record the calls `rollbackBlock` makes.  The record consists of the complete,
successful calls for the transactions `done`, an initial part of the block's transactions
in reverse order (tx[n-1], tx[n-2], ...), each call with the hash of its transaction,
followed by `last`.  When `rollbackBlock` returns nil, `done` is the whole reversed list.
When it returns an error, `last` holds the calls for the next transaction `t`: an initial
part of its calls, all successful but the final one, whose error (wrapped by
`utils.ErrInfo` for the calls of the non-contract branch) is the one returned; the
transactions `later`, those of lower index, have no call.  Recording does not change the
state reached or the error returned. -/
theorem rollbackBlock_reverse_order {σ : Type} (ops : RollbackOps σ) (block : block.Block)
    (s : σ) :
    ∃ (done rest : List transaction.Transaction) (last : List Call),
      block.Transactions.reverse = done ++ rest ∧
      rollbackBlock ops.traced block (s, [])
        = (((rollbackBlock ops block s).1,
            (done.flatMap rollbackBlock.calls).map (fun k => (⟨k.1, k.2, none⟩ : Call))
              ++ last),
           (rollbackBlock ops block s).2) ∧
      ((rollbackBlock ops block s).2 = none → rest = [] ∧ last = []) ∧
      (∀ e, (rollbackBlock ops block s).2 = some e →
        ∃ (t : transaction.Transaction) (later : List transaction.Transaction)
          (c : Call) (e0 : Err),
          rest = t :: later ∧
          (last.map Call.key) <+: rollbackBlock.calls t ∧
          (∀ c' ∈ last.dropLast, c'.err = none) ∧
          last.getLast? = some c ∧ c.err = some e0 ∧
          (e = e0 ∨ e = ops.ErrInfo e0)) := by
  obtain ⟨done, rest, last, hsplit, hrun, hok, herr⟩ :=
    rollbackBlock.loop_traced ops block.Transactions block.Transactions.length (le_refl _) s []
  rw [List.take_length] at hsplit
  refine ⟨done, rest, last, hsplit, ?_, hok, ?_⟩
  · unfold rollbackBlock
    rw [hrun]
    simp
  · intro e he
    obtain ⟨t, later, hrest, _, hpre, hdrop, _, hlast⟩ := herr e he
    obtain ⟨c, e0, hc, hce, hee⟩ := hlast e rfl
    exact ⟨t, later, c, e0, hrest, hpre, hdrop, hc, hce, hee⟩

/-! ### C11: the pool and the log after `rollbackBlock` -/

theorem markAll_cons (h : Bytes) (hashes : List Bytes) (transactions : List Transaction) :
    markAll hashes (MarkTransactionUnusedAndUnverified transactions h)
      = markAll (h :: hashes) transactions := by
  unfold markAll MarkTransactionUnusedAndUnverified
  rw [List.map_map]
  apply List.map_congr_left
  intro r _
  simp only [Function.comp]
  by_cases h1 : r.Hash = h
  · simp [h1]
  · by_cases h2 : r.Hash ∈ hashes
    · simp [h1, h2]
    · simp [h1, h2]

theorem deleteLog_cons (h : Bytes) (hashes : List Bytes)
    (log : List model.LogTransaction) :
    (DeleteLogTransactionsByHash log h).filter (fun r => decide (r.Hash ∉ hashes))
      = log.filter (fun r => decide (r.Hash ∉ h :: hashes)) := by
  unfold DeleteLogTransactionsByHash
  rw [List.filter_filter]
  apply List.filter_congr
  intro r _
  by_cases h1 : r.Hash = h <;> by_cases h2 : r.Hash ∈ hashes <;> simp [h1, h2]

theorem Step.next_ok {σ : Type} (r : σ × Option Err) (f : Step σ) (s' : σ)
    (h : Step.next r f = (s', none)) : ∃ s1, r = (s1, none) ∧ f s1 = (s', none) := by
  obtain ⟨s1, o⟩ := r
  cases o with
  | none => exact ⟨s1, rfl, h⟩
  | some e => simp [Step.next] at h

theorem RollbackOps.wrap_ok {σ : Type} (ops : RollbackOps σ) (r : σ × Option Err) (s' : σ)
    (h : ops.wrap r = (s', none)) : r = (s', none) := by
  obtain ⟨s1, o⟩ := r
  cases o with
  | none => simpa [RollbackOps.wrap] using h
  | some e => simp [RollbackOps.wrap] at h

theorem Step.KeepsPoolAndLog.of_eq {τ : Type} {f : Step (DB (Tables τ))}
    (hf : Step.KeepsPoolAndLog f) {db db' : DB (Tables τ)} {o : Option Err}
    (h : f db = (db', o)) :
    db'.transactions = db.transactions ∧
    db'.rest.log_transactions = db.rest.log_transactions := by
  have := hf db
  rw [h] at this
  exact this

/-- The body of the loop of `rollbackBlock` on the store, when it returns no error: the
pool rows with the hash of the transaction are unused and unverified, the log rows with
that hash are gone, and nothing else changed in the two tables. -/
theorem rollbackBlock.body_store {τ : Type} (ext : RollbackOps (DB (Tables τ)))
    (markErr deleteErr : Bytes → DB (Tables τ) → Option Err) (hext : ext.KeepPoolAndLog)
    (t : transaction.Transaction) (db db' : DB (Tables τ))
    (h : rollbackBlock.body (storeOps ext markErr deleteErr) t db = (db', none)) :
    db'.transactions = MarkTransactionUnusedAndUnverified db.transactions t.TxHash ∧
    db'.rest.log_transactions
      = DeleteLogTransactionsByHash db.rest.log_transactions t.TxHash := by
  obtain ⟨hU, hQ, hR, hG, hI, hB⟩ := hext
  unfold rollbackBlock.body at h
  obtain ⟨s1, h1, h⟩ := Step.next_ok _ _ _ h
  obtain ⟨s2, h2, h⟩ := Step.next_ok _ _ _ h
  obtain ⟨s3, h3, h⟩ := Step.next_ok _ _ _ h
  obtain ⟨s4, h4, h⟩ := Step.next_ok _ _ _ h
  have e1 : s1.transactions = MarkTransactionUnusedAndUnverified db.transactions t.TxHash ∧
      s1.rest.log_transactions = db.rest.log_transactions := by
    simp only [storeOps] at h1
    cases hm : markErr t.TxHash db with
    | some e => rw [hm] at h1; simp at h1
    | none =>
      rw [hm] at h1
      simp only [Prod.mk.injEq, and_true] at h1
      subst h1
      exact ⟨rfl, rfl⟩
  have e2 : s2.transactions = s1.transactions ∧
      s2.rest.log_transactions
        = DeleteLogTransactionsByHash s1.rest.log_transactions t.TxHash := by
    simp only [storeOps] at h2
    cases hm : deleteErr t.TxHash s1 with
    | some e => rw [hm] at h2; simp at h2
    | none =>
      rw [hm] at h2
      simp only [Prod.mk.injEq, and_true] at h2
      subst h2
      exact ⟨rfl, rfl⟩
  have e3 := (hU 0 t.TxHash).of_eq h3
  have e4 := (hQ t.TxHash).of_eq h4
  have e5 : db'.transactions = s4.transactions ∧
      db'.rest.log_transactions = s4.rest.log_transactions := by
    by_cases hc : t.TxContract = true
    · rw [if_pos hc] at h
      exact (hR t.TxHash).of_eq h
    · rw [if_neg hc] at h
      obtain ⟨s5, h5, h⟩ := Step.next_ok _ _ _ h
      obtain ⟨s6, h6, h⟩ := Step.next_ok _ _ _ h
      have h5' := RollbackOps.wrap_ok _ _ _ h5
      have h6' := RollbackOps.wrap_ok _ _ _ h6
      have h7' := RollbackOps.wrap_ok _ _ _ h
      have e5 := (hG t _).of_eq h5'
      have e6 := (hI t).of_eq h6'
      have e7 := (hB t).of_eq h7'
      exact ⟨by rw [e7.1, e6.1, e5.1], by rw [e7.2, e6.2, e5.2]⟩
  exact ⟨by rw [e5.1, e4.1, e3.1, e2.1, e1.1], by rw [e5.2, e4.2, e3.2, e2.2, e1.2]⟩

theorem markAll_congr (A B : List Bytes) (h : ∀ x, x ∈ A ↔ x ∈ B)
    (transactions : List Transaction) : markAll A transactions = markAll B transactions := by
  unfold markAll
  apply List.map_congr_left
  intro r _
  by_cases hr : r.Hash ∈ A
  · rw [if_pos hr, if_pos ((h _).mp hr)]
  · rw [if_neg hr, if_neg (fun hb => hr ((h _).mpr hb))]

theorem hashes_take_succ (txs : List transaction.Transaction) (i : Nat)
    (hi : i < txs.length) (x : Bytes) :
    x ∈ (txs.get ⟨i, hi⟩).TxHash :: (txs.take i).map (·.TxHash) ↔
      x ∈ (txs.take (i + 1)).map (·.TxHash) := by
  rw [List.take_succ, List.getElem?_eq_getElem hi]
  simp only [List.get_eq_getElem, Option.toList_some, List.map_append, List.map_cons,
    List.map_nil, List.mem_cons, List.mem_append, List.mem_singleton, List.not_mem_nil,
    or_false]
  exact Or.comm

theorem rollbackBlock.loop_store {τ : Type} (ext : RollbackOps (DB (Tables τ)))
    (markErr deleteErr : Bytes → DB (Tables τ) → Option Err) (hext : ext.KeepPoolAndLog)
    (txs : List transaction.Transaction) :
    ∀ (n : Nat) (hn : n ≤ txs.length) (db db' : DB (Tables τ)),
      rollbackBlock.loop (storeOps ext markErr deleteErr) txs n hn db = (db', none) →
      db'.transactions = markAll ((txs.take n).map (·.TxHash)) db.transactions ∧
      db'.rest.log_transactions = db.rest.log_transactions.filter
        (fun r => decide (r.Hash ∉ (txs.take n).map (·.TxHash))) := by
  intro n
  induction n with
  | zero =>
    intro hn db db' h
    simp only [rollbackBlock.loop, Prod.mk.injEq, and_true] at h
    subst h
    simp [markAll]
  | succ i ih =>
    intro hn db db' h
    have hi : i < txs.length := hn
    rw [rollbackBlock.loop] at h
    obtain ⟨s1, h1, h⟩ := Step.next_ok _ _ _ h
    obtain ⟨e1, e2⟩ := rollbackBlock.body_store ext markErr deleteErr hext _ _ _ h1
    obtain ⟨f1, f2⟩ := ih (by omega) s1 db' h
    constructor
    · rw [f1, e1, markAll_cons]
      exact markAll_congr _ _ (hashes_take_succ txs i hi) _
    · rw [f2, e2, deleteLog_cons]
      apply List.filter_congr
      intro r _
      have := hashes_take_succ txs i hi r.Hash
      by_cases hr : r.Hash ∈ (txs.take (i + 1)).map (·.TxHash)
      · simp only [hr, not_true_eq_false, decide_False, decide_eq_false_iff_not, not_not]
        exact this.mpr hr
      · simp only [hr, not_false_eq_true, decide_True, decide_eq_true_eq]
        exact fun hb => hr (this.mp hb)

/-- C11.  On the store, with the callees that are not in the sources leaving the tables
`transactions` and `log_transactions` alone: when `rollbackBlock` returns no error, then
for every transaction hash of the block no row of `log_transactions` has it and every
pool row that has it has `used = 0` and `verified = 0`; a pool row whose hash is not in
the block is unchanged, and so is the order of the rows.  In full: the pool is the old
pool with the rows of the block's hashes marked, the log is the old log without the rows
of the block's hashes. -/
theorem rollbackBlock_pool_and_log {τ : Type} (ext : RollbackOps (DB (Tables τ)))
    (markErr deleteErr : Bytes → DB (Tables τ) → Option Err) (hext : ext.KeepPoolAndLog)
    (block : block.Block) (db db' : DB (Tables τ))
    (hok : rollbackBlock (storeOps ext markErr deleteErr) block db = (db', none)) :
    (∀ t ∈ block.Transactions,
      (∀ r ∈ db'.rest.log_transactions, r.Hash ≠ t.TxHash) ∧
      (∀ r ∈ db'.transactions, r.Hash = t.TxHash → r.Used = 0 ∧ r.Verified = 0)) ∧
    db'.transactions = db.transactions.map (fun r =>
      if r.Hash ∈ block.Transactions.map (·.TxHash)
      then { r with Used := 0, Verified := 0 } else r) ∧
    db'.rest.log_transactions = db.rest.log_transactions.filter
      (fun r => decide (r.Hash ∉ block.Transactions.map (·.TxHash))) := by
  unfold rollbackBlock at hok
  obtain ⟨h1, h2⟩ := rollbackBlock.loop_store ext markErr deleteErr hext block.Transactions
    _ (le_refl _) db db' hok
  rw [List.take_length] at h1 h2
  refine ⟨fun t ht => ⟨fun r hr => ?_, fun r hr hh => ?_⟩, h1, h2⟩
  · rw [h2] at hr
    have := (List.mem_filter.mp hr).2
    simp only [decide_eq_true_eq] at this
    intro he
    exact this (List.mem_map.mpr ⟨t, ht, he.symm⟩)
  · rw [h1] at hr
    obtain ⟨r0, _, hr0⟩ := List.mem_map.mp hr
    by_cases hm : r0.Hash ∈ block.Transactions.map (·.TxHash)
    · rw [if_pos hm] at hr0
      subst hr0
      exact ⟨rfl, rfl⟩
    · rw [if_neg hm] at hr0
      subst hr0
      exact absurd (List.mem_map.mpr ⟨t, ht, hh.symm⟩) hm

/-- The block with the transactions `[1]` and `[2]` rolled back on a store that holds both
in the pool and in the log. -/
theorem rollbackBlock_pool_and_log_witness :
    (∀ t ∈ (twoTxBlock 2).Transactions,
      (∀ r ∈ (rollbackBlock (storeOps (idleOps _) (fun _ _ => none) (fun _ _ => none))
          (twoTxBlock 2) loggedStore).1.rest.log_transactions, r.Hash ≠ t.TxHash) ∧
      (∀ r ∈ (rollbackBlock (storeOps (idleOps _) (fun _ _ => none) (fun _ _ => none))
          (twoTxBlock 2) loggedStore).1.transactions,
        r.Hash = t.TxHash → r.Used = 0 ∧ r.Verified = 0)) ∧
    (rollbackBlock (storeOps (idleOps _) (fun _ _ => none) (fun _ _ => none)) (twoTxBlock 2)
        loggedStore).1.transactions
      = loggedStore.transactions.map (fun r =>
          if r.Hash ∈ (twoTxBlock 2).Transactions.map (·.TxHash)
          then { r with Used := 0, Verified := 0 } else r) ∧
    (rollbackBlock (storeOps (idleOps _) (fun _ _ => none) (fun _ _ => none)) (twoTxBlock 2)
        loggedStore).1.rest.log_transactions
      = loggedStore.rest.log_transactions.filter
          (fun r => decide (r.Hash ∉ (twoTxBlock 2).Transactions.map (·.TxHash))) :=
  rollbackBlock_pool_and_log (idleOps _) (fun _ _ => none) (fun _ _ => none)
    ⟨fun _ _ _ => ⟨rfl, rfl⟩, fun _ _ => ⟨rfl, rfl⟩, fun _ _ => ⟨rfl, rfl⟩,
      fun _ _ _ => ⟨rfl, rfl⟩, fun _ _ => ⟨rfl, rfl⟩, fun _ _ => ⟨rfl, rfl⟩⟩
    (twoTxBlock 2) loggedStore _ (Prod.ext rfl (by decide))

/-! ### C12: `getBlocks` never returns more than `rollback_blocks` blocks -/

theorem getBlocks.loop_length (env : FetchEnv) (blockID minCount : Int) :
    ∀ (blocksCh : List Bytes) (blocks : List block.Block) (nextBlockID : Int)
      (result : List block.Block),
      (blocks.length : Int) ≤ max env.GetRbBlocks1 0 →
      getBlocks.loop env blockID minCount blocksCh blocks nextBlockID = .ok result →
      (result.length : Int) ≤ max env.GetRbBlocks1 0 := by
  intro blocksCh
  induction blocksCh with
  | nil =>
    intro blocks _ result hlen h
    simp only [getBlocks.loop, Except.ok.injEq] at h
    subst h
    exact hlen
  | cons b rest ih =>
    intro blocks nextBlockID result hlen h
    rw [getBlocks.loop] at h
    split_ifs at h with h1 h2
    · cases h; exact hlen
    · cases h; exact hlen
    · cases hp : env.ProcessBlockWherePrevFromBlockchainTable b with
      | error e => rw [hp] at h; cases h
      | ok bl =>
        rw [hp] at h
        simp only [] at h
        by_cases h3 : bl.Header.BlockID ≠ nextBlockID
        · rw [if_pos h3] at h; cases h
        · rw [if_neg h3] at h
          cases hk : env.GetNodePublicKeyByPosition bl.Header.NodePosition with
          | error e => rw [hk] at h; cases h
          | ok key =>
            rw [hk] at h
            simp only [] at h
            have hlen' : (((blocks ++ [bl]).length : Nat) : Int) ≤ max env.GetRbBlocks1 0 := by
              simp only [List.length_append, List.length_singleton, Nat.cast_add,
                Nat.cast_one]
              have : (blocks.length : Int) < env.GetRbBlocks1 := not_le.mp h2
              omega
            split_ifs at h with h4
            · cases h; exact hlen'
            · exact ih _ _ _ hlen' h

/-- C12.  Whatever the peer streams and whatever `minCount` is, a list returned by
`getBlocks` has at most `max(rollback_blocks, 0)` blocks. -/
theorem getBlocks_length_le (env : FetchEnv) (blockID minCount : Int)
    (blocks : List block.Block) (h : getBlocks env blockID minCount = .ok blocks) :
    (blocks.length : Int) ≤ max env.GetRbBlocks1 0 := by
  unfold getBlocks at h
  cases hb : env.GetBlocksBodies with
  | error e => rw [hb] at h; cases h
  | ok blocksCh =>
    rw [hb] at h
    exact getBlocks.loop_length env blockID minCount blocksCh [] blockID blocks
      (by simp) h

/-- The peer streams four blocks, two are kept. -/
theorem getBlocks_length_le_witness :
    getBlocks longStream 9 10 = .ok [plainBlock 9, plainBlock 8] ∧
    (([plainBlock 9, plainBlock 8].length : Nat) : Int) ≤ max longStream.GetRbBlocks1 0 :=
  ⟨rfl, getBlocks_length_le longStream 9 10 [plainBlock 9, plainBlock 8] rfl⟩

/-! ### C13: the blocks that `Confirmations` probes -/

/-- The ids for which the loop of `confirmationsBlocks` asks the hosts lie between
`startBlockID` and the id at which the loop stands. -/
theorem confirmationsBlocks.loop_probed (env : ConfirmationsEnv) (startBlockID : Int)
    (lo hi : Int) :
    ∀ (n : Nat) (blockID : Int) (r : ConfirmationsRun),
      (n : Int) ≤ blockID - startBlockID + 1 → blockID ≤ hi → lo ≤ startBlockID →
      (∀ id ∈ r.probed, lo ≤ id ∧ id ≤ hi) →
      ∀ id ∈ (confirmationsBlocks.loop env startBlockID n blockID r).probed,
        lo ≤ id ∧ id ≤ hi := by
  intro n
  induction n with
  | zero =>
    intro blockID r _ _ _ hr
    simpa [confirmationsBlocks.loop] using hr
  | succ n ih =>
    intro blockID r hn hhi hlo hr
    have hn' : (n : Int) ≤ blockID - 1 - startBlockID + 1 := by push_cast at hn; omega
    have hhi' : blockID - 1 ≤ hi := by omega
    have hb : lo ≤ blockID ∧ blockID ≤ hi := by push_cast at hn; omega
    have hr' : ∀ id ∈ r.probed ++ [blockID], lo ≤ id ∧ id ≤ hi := by
      intro id hid
      rcases List.mem_append.1 hid with h | h
      · exact hr id h
      · rw [List.mem_singleton.1 h]
        exact hb
    simp only [confirmationsBlocks.loop]
    split
    · exact hr
    · split
      · exact hr
      · split
        · exact ih _ _ hn' hhi' hlo hr
        · split
          · exact hr
          · split
            · exact hr'
            · split
              · exact hr'
              · split
                · exact hr'
                · exact ih _ _ hn' hhi' hlo hr'

/-- Function `confirmationsBlocks` asks the hosts only for blocks from `startBlockID` to
`lastBlockID`. -/
theorem confirmationsBlocks_probed (env : ConfirmationsEnv) (lastBlockID startBlockID : Int)
    (id : Int) (h : id ∈ (confirmationsBlocks env lastBlockID startBlockID).probed) :
    startBlockID ≤ id ∧ id ≤ lastBlockID := by
  unfold confirmationsBlocks at h
  by_cases hle : startBlockID ≤ lastBlockID
  · refine confirmationsBlocks.loop_probed env startBlockID startBlockID lastBlockID _ _ _
      ?_ (le_refl _) (le_refl _) ?_ id h
    · rw [Int.toNat_of_nonneg (by omega)]
    · intro id hid
      simp at hid
  · have h0 : (lastBlockID - startBlockID + 1).toNat = 0 := by
      apply Int.toNat_eq_zero.2
      omega
    rw [h0] at h
    simp [confirmationsBlocks.loop] at h

/-- When the daemon runs, both queries answer and the tip is not 0, `confirmationsBlocks`
is called with the tip as `lastBlockID`, and with the `startBlockID` `confirmed + 1` when
the tip is more than 5 blocks ahead of the last confirmed block, and the tip itself
otherwise. -/
theorem Confirmations_start (env : ConfirmationsEnv) (d : ConfirmationsState)
    (confirmed : Int) (hfree : env.free = true) (hgood : env.GetGoodBlockErr = none)
    (hget : env.GetErr = none) (htip : env.infoBlockID ≠ 0)
    (hconf : (model.Confirmation.GetGoodBlock env.confirmations
      env.MIN_CONFIRMED_NODES).BlockID = confirmed) (hnonneg : 0 ≤ confirmed) :
    (Confirmations env d).2
      = .probe env.infoBlockID
          (if env.infoBlockID - confirmed > 5 then confirmed + 1 else env.infoBlockID)
          (confirmationsBlocks env env.infoBlockID
            (if env.infoBlockID - confirmed > 5 then confirmed + 1 else env.infoBlockID)) := by
  unfold Confirmations
  simp only [hfree, hgood, hget, htip, hconf, not_true_eq_false, if_false]
  by_cases hfar : env.infoBlockID - confirmed > 5
  · have : confirmed + 1 ≠ 0 := by omega
    simp [hfar, this]
  · simp [hfar]

/-- The tip is 100 and block 7 is the last confirmed one: the start is 8. -/
theorem Confirmations_start_witness :
    (Confirmations (tipEnv 100) ⟨20, 1⟩).2
      = .probe (tipEnv 100).infoBlockID
          (if (tipEnv 100).infoBlockID - 7 > 5 then 7 + 1 else (tipEnv 100).infoBlockID)
          (confirmationsBlocks (tipEnv 100) (tipEnv 100).infoBlockID
            (if (tipEnv 100).infoBlockID - 7 > 5 then 7 + 1
              else (tipEnv 100).infoBlockID)) :=
  Confirmations_start (tipEnv 100) ⟨20, 1⟩ 7 rfl rfl rfl (by decide) (by decide) (by decide)

/-- With hosts that agree on the hash, the loop of `confirmationsBlocks` stops after the
first block above `startBlockID`: from the tip 100 down to the start 8 only block 100 is
probed. -/
theorem confirmationsBlocks_early_break :
    (Confirmations (answerEnv 100 "ab") ⟨20, 1⟩).2
      = .probe 100 8 (confirmationsBlocks (answerEnv 100 "ab") 100 8) ∧
    (confirmationsBlocks (answerEnv 100 "ab") 100 8).probed = [100] ∧
    (confirmationsBlocks (answerEnv 100 "ab") 100 8).confirmations
      = confirmedUpTo7 ++ [⟨100, 3, 0, 90⟩] ∧
    (confirmationsBlocks (answerEnv 100 "ab") 100 8).err = none := by
  decide

/-- C13 (the code departs from the claim and from its own comment).  Block 7 is the last
confirmed block and no host confirms a block.  With the tip at 100, `confirmationsBlocks`
is called with the start 8, not `max(100 - 5, 7 + 1) = 95`, and probes the 93 blocks from
100 down to 8, although the comment in `Confirmations` reads "check last blocks, but not
more than 5".  With the tip at 10 the start is 10, not `max(10 - 5, 7 + 1) = 8`, and only
block 10 is probed. -/
theorem Confirmations_start_not_max :
    (model.Confirmation.GetGoodBlock confirmedUpTo7 2).BlockID = 7 ∧
    (Confirmations (tipEnv 100) ⟨20, 1⟩).2
      = .probe 100 8 (confirmationsBlocks (tipEnv 100) 100 8) ∧
    (8 : Int) ≠ max (100 - 5) (7 + 1) ∧
    (confirmationsBlocks (tipEnv 100) 100 8).probed
      = (List.range 93).map (fun k => (100 : Int) - k) ∧
    (confirmationsBlocks (tipEnv 100) 100 8).probed.length = 93 ∧
    (confirmationsBlocks (tipEnv 100) 100 8).probed.getLast? = some 8 ∧
    (confirmationsBlocks (tipEnv 100) 100 8).err = none ∧
    (confirmationsBlocks (tipEnv 100) 100 8).blocked = false ∧
    (Confirmations (tipEnv 10) ⟨20, 1⟩).2
      = .probe 10 10 (confirmationsBlocks (tipEnv 10) 10 10) ∧
    (10 : Int) ≠ max (10 - 5) (7 + 1) ∧
    (confirmationsBlocks (tipEnv 10) 10 10).probed = [10] := by
  decide!

/-! ### C14: the wire format of `newTransaction` -/

/-- C14 (as stated, refuted).  For an internal transaction the body is not the encoding of
the struct with only `PublicKey` set: `SignedBy` is overwritten with the address of the
public key first, so the data and the hash differ from the ones the claim gives. -/
theorem newTransaction_internal_signedBy :
    toyTxEnv.PrivateToPublic [7] = .ok [7] ∧
    toyTxEnv.Marshal { signedBy5 with PublicKey := [7] } = .ok [7, 5] ∧
    toyTxEnv.Sign [7] (toyTxEnv.DoubleHash [7, 5]) = .ok [7, 7, 5] ∧
    newTransaction toyTxEnv signedBy5 [7] true = ([128, 2, 7, 1, 3, 7, 7, 1], [7, 1], none) ∧
    (newTransaction toyTxEnv signedBy5 [7] true).1
      ≠ [128] ++ toyTxEnv.EncodeLengthPlusData [7, 5]
          ++ toyTxEnv.EncodeLengthPlusData [7, 7, 5] ∧
    (newTransaction toyTxEnv signedBy5 [7] true).2.1 ≠ toyTxEnv.DoubleHash [7, 5] := by
  refine ⟨rfl, rfl, rfl, rfl, by decide, by decide⟩

/-- C14 (amended).  When key derivation, encoding and signing succeed, the returned data is
`[0x80] ++ EncodeLengthPlusData(body) ++ EncodeLengthPlusData(signature)`, where `body` is
the encoding of the struct with `PublicKey` set to the derived public key and, for an
internal transaction, `SignedBy` set to the address of that key; the returned hash is
`DoubleHash(body)` and `signature = Sign(privateKey, hash)`; no error is returned.  So the
first byte is 0x80 and the hash does not depend on the signature. -/
theorem newTransaction_wire_format {π : Type} (env : TxEnv π) (smartTx : tx.SmartContract π)
    (privateKey : Bytes) (internal : Bool) (publicKey body signature : Bytes)
    (hkey : env.PrivateToPublic privateKey = .ok publicKey)
    (hbody : env.Marshal
      { smartTx with
        PublicKey := publicKey
        SignedBy := if internal then env.Address publicKey else smartTx.SignedBy }
      = .ok body)
    (hsign : env.Sign privateKey (env.DoubleHash body) = .ok signature) :
    newTransaction env smartTx privateKey internal
      = ([128] ++ env.EncodeLengthPlusData body ++ env.EncodeLengthPlusData signature,
          env.DoubleHash body, none) ∧
    (newTransaction env smartTx privateKey internal).1.head? = some 128 := by
  have hrun : newTransaction env smartTx privateKey internal
      = ([128] ++ env.EncodeLengthPlusData body ++ env.EncodeLengthPlusData signature,
          env.DoubleHash body, none) := by
    unfold newTransaction
    rw [hkey]
    simp only []
    cases internal with
    | true =>
      simp only [if_true] at hbody ⊢
      rw [hbody]
      simp only []
      rw [hsign]
    | false =>
      simp only [Bool.false_eq_true, if_false] at hbody ⊢
      rw [hbody]
      simp only []
      rw [hsign]
  exact ⟨hrun, by rw [hrun]; rfl⟩

/-- The internal transaction of the refutation, with the body that the code encodes. -/
theorem newTransaction_wire_format_witness :
    newTransaction toyTxEnv signedBy5 [7] true
      = ([128] ++ toyTxEnv.EncodeLengthPlusData [7, 1]
          ++ toyTxEnv.EncodeLengthPlusData [7, 7, 1],
          toyTxEnv.DoubleHash [7, 1], none) ∧
    (newTransaction toyTxEnv signedBy5 [7] true).1.head? = some 128 :=
  newTransaction_wire_format toyTxEnv signedBy5 [7] true [7] [7, 1] [7, 7, 1] rfl rfl rfl

/-! ### C15: the header that `BlockGenerator` assembles -/

/-- C15 (as stated, refuted).  The generator runs 2.5 seconds into the slot that starts at
second 1000: the header has `Time = 1002`, the second of the run, not the start 1000 of
the slot. -/
theorem BlockGenerator_time_not_slot_start :
    fourSecondSlots.RangeByTime 1002500000000 = .ok (1000000000000, 1004000000000) ∧
    BlockGenerator fourSecondSlots 1002500000000
      = .assembled ⟨42, 1002, 0⟩ [poolRow 1 2 5] ∧
    (1002 : Int) ≠ Unix 1000000000000 := by
  refine ⟨rfl, by decide, by decide⟩

/-- C15 (amended).  The header of a block assembled by `BlockGenerator` has
`BlockID = prevBlock.BlockID + 1` and `Time` equal to the Unix time in seconds of the
instant `st` at which the generator ran. -/
theorem BlockGenerator_header {L : Type} (env : BlockGeneratorEnv L) (st : Int)
    (header : HeaderStart) (trs : List Transaction)
    (h : BlockGenerator env st = .assembled header trs) :
    ∃ prevBlock, env.prevBlockGet = .ok prevBlock ∧
      header.BlockID = prevBlock.BlockID + 1 ∧ header.Time = Unix st := by
  unfold BlockGenerator at h
  repeat' split at h
  all_goals (try cases h)
  rename_i prevBlock hprev _ _ _ _
  simp only [] at h
  split_ifs at h
  cases h
  exact ⟨prevBlock, hprev, rfl, rfl⟩

/-- The run of the refutation: block 42 at second 1002. -/
theorem BlockGenerator_header_witness :
    ∃ prevBlock, fourSecondSlots.prevBlockGet = .ok prevBlock ∧
      (⟨42, 1002, 0⟩ : HeaderStart).BlockID = prevBlock.BlockID + 1 ∧
      (⟨42, 1002, 0⟩ : HeaderStart).Time = Unix 1002500000000 :=
  BlockGenerator_header fourSecondSlots 1002500000000 ⟨42, 1002, 0⟩ [poolRow 1 2 5]
    (by decide)

/-! ### C20: `Collector.Values` -/

theorem metric.foldl_append_toMap (result : List metric.Value)
    (values : List (List (String × metric.Field))) :
    result.foldl (fun values v => values ++ [v.ToMap]) values
      = values ++ result.map metric.Value.ToMap := by
  induction result generalizing values with
  | nil => simp
  | cons v rest ih => rw [List.foldl_cons, ih]; simp

theorem metric.Collector.Values.loop_eq (timeBlock : Int) :
    ∀ (funcs : List metric.CollectorFunc) (values : List (List (String × metric.Field))),
      metric.Collector.Values.loop timeBlock funcs values
        = values ++ funcs.flatMap (fun fn =>
            match fn timeBlock with
            | .ok result => result.map metric.Value.ToMap
            | .error _ => []) := by
  intro funcs
  induction funcs with
  | nil => intro values; simp [metric.Collector.Values.loop]
  | cons fn rest ih =>
    intro values
    rw [metric.Collector.Values.loop, List.flatMap_cons]
    cases h : fn timeBlock with
    | error e => simp only []; rw [ih]; simp
    | ok result =>
      simp only []
      rw [ih, metric.foldl_append_toMap, List.append_assoc]

/-- C20.  The result of `Collector.Values(t)` is the concatenation, in the order of
registration, of `ToMap(v)` for the values `v` of each collector function that returns no
error; a function that returns an error adds nothing and the functions after it are still
collected.  For the functions of `TestCollector`, yielding `[100]`, an error and `[200]`,
the result is the maps for 100 and 200, in that order. -/
theorem metric.Collector.Values_eq (funcs : List metric.CollectorFunc) (timeBlock : Int) :
    (metric.NewCollector funcs).Values timeBlock
        = funcs.flatMap (fun fn =>
            match fn timeBlock with
            | .ok result => result.map metric.Value.ToMap
            | .error _ => []) ∧
    (metric.NewCollector [metric.MockCollectorFunc 100 none,
        metric.MockCollectorFunc 0 (some "Test"), metric.MockCollectorFunc 200 none]).Values
        timeBlock
      = [[("time", .int64 1), ("metric", .string "test_metric"),
            ("key", .string "ecosystem_1"), ("value", .int64 100)],
          [("time", .int64 1), ("metric", .string "test_metric"),
            ("key", .string "ecosystem_1"), ("value", .int64 200)]] := by
  constructor
  · unfold metric.Collector.Values metric.NewCollector
    rw [metric.Collector.Values.loop_eq]
    simp
  · rfl











/-! ### ContractsList -/

theorem script.braceLevel_succ (pre : List script.Lexem) (l : script.Lexem)
    (rest : List script.Lexem) :
    script.braceLevel (pre ++ l :: rest) (pre.length + 1)
      = script.braceLevel (pre ++ l :: rest) pre.length
        + (if l.Type_ = .isLCurly then 1 else 0) - (if l.Type_ = .isRCurly then 1 else 0) := by
  unfold script.braceLevel
  have h1 : (pre ++ l :: rest).take (pre.length + 1) = pre ++ [l] := by
    rw [List.take_append_eq_append_take]
    simp
  have h2 : (pre ++ l :: rest).take pre.length = pre := by
    rw [List.take_append_eq_append_take]
    simp
  rw [h1, h2]
  by_cases hL : l.Type_ = .isLCurly <;> by_cases hR : l.Type_ = .isRCurly <;>
    simp [List.countP_append, List.countP_cons, hL, hR] <;> omega

theorem script.ContractsList.loop_names (rest pre : List script.Lexem) (names : List String)
    (hid : ∀ l ∈ rest, l.Type_ = .lexIdent → l.Value.isString = true) :
    script.ContractsList.loop rest (script.braceLevel (pre ++ rest) pre.length) names
      = .ok (names ++ (List.range' pre.length rest.length).filterMap
          (script.declaredAt (pre ++ rest))) := by
  induction rest generalizing pre names with
  | nil => simp [script.ContractsList.loop]
  | cons l rest ih =>
    have hid' : ∀ x ∈ rest, x.Type_ = .lexIdent → x.Value.isString = true :=
      fun x hx => hid x (List.mem_cons_of_mem _ hx)
    have hstep := script.braceLevel_succ pre l rest
    have happ : pre ++ l :: rest = (pre ++ [l]) ++ rest := by simp
    have hlen : (pre ++ [l]).length = pre.length + 1 := by simp
    have ih' := fun names => ih (pre ++ [l]) names hid'
    rw [← happ, hlen] at ih'
    have hget : (pre ++ l :: rest)[pre.length]? = some l := by
      rw [List.getElem?_append_right (le_refl _)]
      simp
    have hnext : (pre ++ l :: rest)[pre.length + 1]? = rest.head? := by
      rw [List.getElem?_append_right (by omega)]
      cases rest <;> simp
    rw [List.length_cons, List.range'_succ, List.filterMap_cons]
    conv_lhs => unfold script.ContractsList.loop
    by_cases hL : l.Type_ = .isLCurly
    · have hd : script.declaredAt (pre ++ l :: rest) pre.length = none := by
        unfold script.declaredAt
        rw [hget, hnext]
        cases rest.head? <;> simp [hL]
      rw [hd, if_pos hL]
      rw [hL] at hstep
      simp only [if_true, show ¬ (script.LexType.isLCurly = script.LexType.isRCurly) by decide,
        if_false, sub_zero] at hstep
      rw [← hstep, ih']
    · by_cases hR : l.Type_ = .isRCurly
      · have hd : script.declaredAt (pre ++ l :: rest) pre.length = none := by
          unfold script.declaredAt
          rw [hget, hnext]
          cases rest.head? <;> simp [hR]
        rw [hd, if_neg hL, if_pos hR]
        rw [hR] at hstep
        simp only [if_true, show ¬ (script.LexType.isRCurly = script.LexType.isLCurly) by decide,
          if_false, add_zero] at hstep
        rw [← hstep, ih']
      · simp only [hL, hR, if_false, add_zero, sub_zero] at hstep
        rw [hstep] at ih'
        rw [if_neg hL, if_neg hR]
        by_cases hK : l.Type_ = .lexKeyword .keyContract ∨ l.Type_ = .lexKeyword .keyFunc
        · rw [if_pos hK]
          cases rest with
          | nil =>
            have hd : script.declaredAt (pre ++ [l]) pre.length = none := by
              unfold script.declaredAt
              rw [hget, hnext]
              simp
            rw [hd]
            simpa using ih' names
          | cons next rest' =>
            simp only
            by_cases hc : script.braceLevel (pre ++ l :: next :: rest') pre.length = 0 ∧
                next.Type_ = .lexIdent
            · obtain ⟨s, hs⟩ : ∃ s, next.Value = .string s := by
                have h := hid next (by simp) hc.2
                cases hv : next.Value <;> simp [hv, script.Plain.isString] at h ⊢
              have hd : script.declaredAt (pre ++ l :: next :: rest') pre.length = some s := by
                unfold script.declaredAt
                rw [hget, hnext]
                simp [hK, hc.1, hc.2, hs]
              rw [hd, if_pos hc, hs]
              simp only [script.Plain.asString]
              rw [ih']
              simp
            · have hd : script.declaredAt (pre ++ l :: next :: rest') pre.length = none := by
                unfold script.declaredAt
                rw [hget, hnext]
                simp only [List.head?_cons]
                rw [if_neg]
                intro h
                exact hc ⟨h.2.1, h.2.2⟩
              rw [hd, if_neg hc]
              exact ih' names
        · have hd : script.declaredAt (pre ++ l :: rest) pre.length = none := by
            unfold script.declaredAt
            rw [hget, hnext]
            cases rest.head? <;> simp [hK]
          rw [hd, if_neg hK]
          exact ih' names

/-- C19.  `ContractsList(src)` returns, in source order, exactly the identifiers that
follow a `contract` or `func` key word in front of which as many braces were opened as
closed (`declaredNames`), so a declaration inside braces is not listed; when the lexer
fails, the result is the empty list together with the error of the lexer.  The lexer is
assumed to give every identifier lexeme its text as value. -/
theorem script.ContractsList_names (lexParser : String → Except Err (List script.Lexem))
    (value : String) :
    (∀ lexems, lexParser value = .ok lexems →
      (∀ l ∈ lexems, l.Type_ = .lexIdent → l.Value.isString = true) →
      script.ContractsList lexParser value = .ok (script.declaredNames lexems, none)) ∧
    (∀ err, lexParser value = .error err →
      script.ContractsList lexParser value = .ok ([], some err)) := by
  constructor
  · intro lexems hlex hid
    have h := script.ContractsList.loop_names lexems [] [] hid
    have h0 : script.braceLevel ([] ++ lexems) ([] : List script.Lexem).length = 0 := by
      simp [script.braceLevel]
    rw [h0] at h
    unfold script.ContractsList
    rw [hlex]
    simp only
    rw [h]
    simp [script.declaredNames, List.range_eq_range']
  · intro err hlex
    unfold script.ContractsList
    rw [hlex]

/-- On the lexemes of `nestedSource` the names are `A`, `g` and `C`: the function `f`
inside the contract `A` and the contract `B` inside the function `g` are left out; a text
that the lexer rejects gives no name and the error. -/
theorem script.ContractsList_names_witness :
    script.ContractsList (script.toyLexer "src" script.nestedSource) "src"
        = .ok (["A", "g", "C"], none) ∧
      script.ContractsList (script.toyLexer "src" script.nestedSource) "?"
        = .ok ([], some "unknown lexeme") :=
  ⟨(script.ContractsList_names (script.toyLexer "src" script.nestedSource) "src").1
      script.nestedSource rfl (by decide),
    (script.ContractsList_names (script.toyLexer "src" script.nestedSource) "?").2
      "unknown lexeme" rfl⟩

/-! ### Unary minus -/

theorem script.eq_error_of_failsWith {α : Type} {r : Except script.EvalErr α}
    {e : script.EvalErr} (h : script.failsWith r e = true) : r = .error e := by
  cases r with
  | error e' => simpa [script.failsWith] using h
  | ok a => simp [script.failsWith] at h

/-- C17.  The detection of the unary minus works on the plain cases (`- 3` gives the sign
command with the unary priority, `1 - 3` and `[2] - 3` give `cmdSub` with priority 25),
but in `1 + [2] - 3` the `-` that directly follows the closing bracket is not compiled as
a subtraction: the array literal is consumed without `prevLex` being set, `prevLex` is
still the operator `+`, and `compileEval` returns `errOper`. -/
theorem script.compileEval_minus_after_literal :
    script.plainVM.compileEval script.minusAfterLiteral 0 [script.rootBlock]
        = .error .errOper ∧
      script.plainVM.compileEval (script.minusAfterLiteral.drop 2) 0 [script.rootBlock]
        = .ok (5, [{ script.rootBlock with
            Code := [⟨.cmdArrayInit, 1, .arrayInit [.mapConst (.int64 2)]⟩,
              ⟨.cmdPush, 1, .plain (.int64 3)⟩, ⟨.cmdSub, 1, .uint16 25⟩] }]) ∧
      script.plainVM.compileEval [script.num 1, script.oper .isMinus, script.num 3] 0
          [script.rootBlock]
        = .ok (3, [{ script.rootBlock with
            Code := [⟨.cmdPush, 1, .plain (.int64 1)⟩, ⟨.cmdPush, 1, .plain (.int64 3)⟩,
              ⟨.cmdSub, 1, .uint16 25⟩] }]) ∧
      script.plainVM.compileEval [script.oper .isMinus, script.num 3] 0 [script.rootBlock]
        = .ok (2, [{ script.rootBlock with
            Code := [⟨.cmdPush, 1, .plain (.int64 3)⟩, ⟨.cmdSign, 1, .uint16 50⟩] }]) :=
  ⟨script.eq_error_of_failsWith (by decide!), rfl, rfl, rfl⟩

/-! ### Recursion of contracts -/

theorem script.usedLoop_recursion (name : String) (bs : List script.Block)
    (htyped : ∀ b ∈ bs, b.typed = true)
    (h : ∃ b ∈ bs, ∃ used, b.used = some (name, used)) :
    script.compileEval.usedLoop name bs = .error .errRecursion := by
  induction bs with
  | nil => simp at h
  | cons b rest ih =>
    have hb := htyped b (by simp)
    unfold script.compileEval.usedLoop
    by_cases hT : b.Type_ = .ObjContract
    · rw [if_pos hT]
      cases hI : b.Info with
      | contractInfo info =>
        simp only
        by_cases hn : name = info.Name
        · rw [if_pos hn]
        · rw [if_neg hn]
          have hrest : ∃ b ∈ rest, ∃ used, b.used = some (name, used) := by
            obtain ⟨b', hb', used, hu⟩ := h
            rcases List.mem_cons.mp hb' with rfl | hmem
            · simp [script.Block.used, hT, hI] at hu
              exact absurd hu.1.symm hn
            · exact ⟨b', hmem, used, hu⟩
          rw [ih (fun x hx => htyped x (List.mem_cons_of_mem _ hx)) hrest]
      | _ => simp [script.Block.typed, hT, hI] at hb
    · rw [if_neg hT]
      have hrest : ∃ b ∈ rest, ∃ used, b.used = some (name, used) := by
        obtain ⟨b', hb', used, hu⟩ := h
        rcases List.mem_cons.mp hb' with rfl | hmem
        · exfalso
          unfold script.Block.used at hu
          split at hu
          · rename_i h1 _
            exact hT h1
          · simp at hu
        · exact ⟨b', hmem, used, hu⟩
      rw [ih (fun x hx => htyped x (List.mem_cons_of_mem _ hx)) hrest]

theorem script.usedLoop_ok (name : String) (bs : List script.Block)
    (htyped : ∀ b ∈ bs, b.typed = true)
    (h : ∀ b ∈ bs, ∀ used, b.used ≠ some (name, used)) :
    script.compileEval.usedLoop name bs = .ok (bs.map (script.Block.use name)) := by
  induction bs with
  | nil => rfl
  | cons b rest ih =>
    have hb := htyped b (by simp)
    have hrest := ih (fun x hx => htyped x (List.mem_cons_of_mem _ hx))
      (fun x hx => h x (List.mem_cons_of_mem _ hx))
    have hnb := h b (by simp)
    unfold script.compileEval.usedLoop
    rw [hrest]
    by_cases hT : b.Type_ = .ObjContract
    · rw [if_pos hT]
      cases hI : b.Info with
      | contractInfo info =>
        have hn : name ≠ info.Name := by
          intro hn
          exact hnb info.Used (by simp [script.Block.used, hT, hI, hn])
        simp only [if_neg hn, List.map_cons]
        congr 2
        simp [script.Block.use, hT, hI]
      | _ => simp [script.Block.typed, hT, hI] at hb
    · rw [if_neg hT]
      simp only [List.map_cons]
      congr 2
      unfold script.Block.use
      split
      · rename_i h1 _
        exact absurd h1 hT
      · rfl

theorem script.setWritable_ok (bs : List script.Block) (htyped : ∀ b ∈ bs, b.typed = true) :
    script.setWritable bs = .ok (bs.map script.Block.writable) := by
  unfold script.setWritable
  induction bs with
  | nil => rfl
  | cons b rest ih =>
    have hb := htyped b (by simp)
    have hrest := ih (fun x hx => htyped x (List.mem_cons_of_mem _ hx))
    rw [List.mapM_cons, hrest]
    unfold script.Block.typed at hb
    simp only [List.map_cons]
    split at hb <;> simp_all [script.Block.writable] <;> rfl

theorem script.Block.use_typed (name : String) (b : script.Block) (h : b.typed = true) :
    (b.use name).typed = true := by
  unfold script.Block.use
  split
  · rename_i h1 h2
    simp [script.Block.typed, h1]
  · exact h

theorem script.Block.writable_used (b : script.Block) : b.writable.used = b.used := by
  unfold script.Block.writable
  split
  · rename_i h1 h2
    simp [script.Block.used, h1, h2]
  · rename_i h1 h2
    simp [script.Block.used, h1, h2]
  · rfl

theorem script.Block.use_used (name : String) (b : script.Block) :
    (b.use name).used
      = b.used.map fun p => (p.1, if name ∈ p.2 then p.2 else p.2 ++ [name]) := by
  unfold script.Block.use
  split
  · rename_i h1 h2
    simp [script.Block.used, h1, h2]
  · rename_i h1
    unfold script.Block.used
    split
    · rename_i h2 h3
      exact absurd h3 (h1 _ h2)
    · rfl

theorem script.compileEval.step_call (vm : script.VM) (lexems : List script.Lexem) (ind : Nat)
    (s : script.EvalState) (lexem : script.Lexem) (value : String)
    (obj contract : script.ObjInfo) (tobj : Option Nat)
    (htype : lexem.Type_ = .lexIdent) (hvalue : lexem.Value = .string value)
    (hlen : s.i + 2 < lexems.length)
    (hpar : (lexems.getD (s.i + 1) lexem).Type_ = .isLPar)
    (hfind : vm.findObj value s.block = .ok (some obj, tobj))
    (hguard : vm.callGuard lexem (some obj) = .ok (some contract)) :
    script.VM.compileEval.step vm lexems ind s lexem
      = script.VM.compileEval.call vm lexems lexem value contract
          { s with noMap := true } := by
  unfold script.VM.compileEval.step
  simp only [htype]
  rw [if_neg (by simp), if_neg (by simp)]
  simp only [script.VM.compileEval.lexIdent, hvalue, script.Plain.asString, hfind]
  rw [if_neg (by simp)]
  rw [if_pos ⟨hlen, hpar⟩, hguard]

theorem script.ObjInfo.callable_spec (exec : script.ObjInfo) (h : exec.callable = true) :
    (exec.Type_ = .ObjExtFunc → ∃ info, exec.extFuncInfo = .ok info) ∧
    (exec.Type_ = .ObjFunc → ∃ info, exec.funcInfo = .ok info) := by
  obtain ⟨t, v⟩ := exec
  constructor
  · intro ht
    simp only at ht
    subst ht
    cases v <;> simp [script.ObjInfo.callable, script.ObjInfo.extFuncInfo] at h ⊢
  · intro ht
    simp only at ht
    subst ht
    cases v with
    | block info => cases info <;> simp [script.ObjInfo.callable, script.ObjInfo.funcInfo] at h ⊢
    | _ => simp [script.ObjInfo.callable] at h

theorem script.compileEval.call_recursion (vm : script.VM) (lexems : List script.Lexem)
    (s : script.EvalState) (lexem : script.Lexem) (value : String) (state : Nat)
    (root : script.Block) (contract exec : script.ObjInfo) (eowner : Option Nat)
    (hroot : s.block.head? = some root) (hstate : root.Info = .uint32 state)
    (hcontract : contract.isContract = true)
    (hexec : vm.findObj "ExecContract" s.block = .ok (some exec, eowner))
    (hcall : exec.callable = true)
    (htyped : ∀ b ∈ s.block, b.typed = true)
    (h : ∃ b ∈ s.block, ∃ used, b.used = some (script.StateName state value, used)) :
    script.VM.compileEval.call vm lexems lexem value contract s = .error .errRecursion := by
  have hloop := script.usedLoop_recursion (script.StateName state value) s.block.reverse
    (fun b hb => htyped b (List.mem_reverse.mp hb))
    (by obtain ⟨b, hb, hu⟩ := h; exact ⟨b, List.mem_reverse.mpr hb, hu⟩)
  obtain ⟨hE, hF⟩ := script.ObjInfo.callable_spec exec hcall
  obtain ⟨o, t, i, c⟩ := root
  simp only at hstate
  subst hstate
  unfold script.VM.compileEval.call
  unfold script.ObjInfo.isContract at hcontract
  split at hcontract
  · rename_i hT hV
    simp [hT, hV, hexec, hroot, hloop, bind, Except.bind, pure, Except.pure, Except.map]
    by_cases h1 : exec.Type_ = .ObjExtFunc
    · obtain ⟨info, hi⟩ := hE h1
      simp [h1, hi]
    · by_cases h2 : exec.Type_ = .ObjFunc
      · obtain ⟨info, hi⟩ := hF h2
        simp [h2, hi]
      · simp [h1, h2]
  · rename_i hT hV
    simp [hT, hV, hexec, hroot, hloop, bind, Except.bind, pure, Except.pure, Except.map]
    by_cases h1 : exec.Type_ = .ObjExtFunc
    · obtain ⟨info, hi⟩ := hE h1
      simp [h1, hi]
    · by_cases h2 : exec.Type_ = .ObjFunc
      · obtain ⟨info, hi⟩ := hF h2
        simp [h2, hi]
      · simp [h1, h2]
  · simp at hcontract

theorem script.compileEval.call_ok (vm : script.VM) (lexems : List script.Lexem)
    (s : script.EvalState) (lexem : script.Lexem) (value : String) (state : Nat)
    (root : script.Block) (contract exec : script.ObjInfo) (eowner : Option Nat)
    (hroot : s.block.head? = some root) (hstate : root.Info = .uint32 state)
    (hcontract : contract.isContract = true)
    (hexec : vm.findObj "ExecContract" s.block = .ok (some exec, eowner))
    (hcall : exec.callable = true)
    (htyped : ∀ b ∈ s.block, b.typed = true)
    (h : ∀ b ∈ s.block, ∀ used, b.used ≠ some (script.StateName state value, used)) :
    ∃ s', script.VM.compileEval.call vm lexems lexem value contract s
        = .ok (.endSwitch s' none) ∧
      (s'.block = s.block.map (script.Block.use (script.StateName state value)) ∨
        s'.block = (s.block.map (script.Block.use (script.StateName state value))).map
          script.Block.writable) := by
  have hloop := script.usedLoop_ok (script.StateName state value) s.block.reverse
    (fun b hb => htyped b (List.mem_reverse.mp hb))
    (fun b hb => h b (List.mem_reverse.mp hb))
  have hw := script.setWritable_ok (s.block.map (script.Block.use (script.StateName state value)))
    (by
      intro b hb
      obtain ⟨b0, hb0, rfl⟩ := List.mem_map.mp hb
      exact script.Block.use_typed _ b0 (htyped b0 hb0))
  obtain ⟨hE, hF⟩ := script.ObjInfo.callable_spec exec hcall
  obtain ⟨o, t, i, c⟩ := root
  simp only at hstate
  subst hstate
  have hhead : (s.block.map (script.Block.use (script.StateName state value))).head?
      = some (script.Block.use (script.StateName state value) ⟨o, t, .uint32 state, c⟩) := by
    rw [List.head?_map, hroot]
    rfl
  have huse : script.Block.use (script.StateName state value) ⟨o, t, .uint32 state, c⟩
      = ⟨o, t, .uint32 state, c⟩ := by
    unfold script.Block.use
    split
    · rename_i h1 h2
      simp at h2
    · rfl
  have hwr : script.Block.writable ⟨o, t, .uint32 state, c⟩ = ⟨o, t, .uint32 state, c⟩ := by
    unfold script.Block.writable
    split
    · rename_i h1 h2
      simp at h2
    · rename_i h1 h2
      simp at h2
    · rfl
  have hhead2 : ((s.block.map (script.Block.use (script.StateName state value))).map
      script.Block.writable).head? = some ⟨o, t, .uint32 state, c⟩ := by
    rw [List.head?_map, List.head?_map, hroot]
    simp [huse, hwr]
  unfold script.VM.compileEval.call
  unfold script.ObjInfo.isContract at hcontract
  split at hcontract
  · rename_i hT hV
    by_cases h1 : exec.Type_ = .ObjExtFunc
    · obtain ⟨info, hi⟩ := hE h1
      simp [hT, hV, hexec, hroot, hloop, bind, Except.bind, pure, Except.pure, Except.map,
        huse, h1, hi]
      split_ifs <;> exact ⟨_, rfl, Or.inl rfl⟩
    · by_cases h2 : exec.Type_ = .ObjFunc
      · obtain ⟨info, hi⟩ := hF h2
        simp [hT, hV, hexec, hroot, hloop, bind, Except.bind, pure, Except.pure, Except.map,
          huse, h1, h2, hi]
        split_ifs <;> exact ⟨_, rfl, Or.inl rfl⟩
      · simp [hT, hV, hexec, hroot, hloop, bind, Except.bind, pure, Except.pure, Except.map,
          huse, h1, h2]
        split_ifs <;> exact ⟨_, rfl, Or.inl rfl⟩
  · rename_i hT hV
    by_cases h1 : exec.Type_ = .ObjExtFunc
    · obtain ⟨info, hi⟩ := hE h1
      simp [hT, hV, hexec, hroot, hloop, hw, hhead2, hwr, bind, Except.bind, pure, Except.pure,
        Except.map, huse, h1, hi]
      split_ifs <;> first | exact ⟨_, rfl, Or.inl rfl⟩ | exact ⟨_, rfl, Or.inr rfl⟩
    · by_cases h2 : exec.Type_ = .ObjFunc
      · obtain ⟨info, hi⟩ := hF h2
        simp [hT, hV, hexec, hroot, hloop, hw, hhead2, hwr, bind, Except.bind, pure, Except.pure,
          Except.map, huse, h1, h2, hi]
        split_ifs <;> first | exact ⟨_, rfl, Or.inl rfl⟩ | exact ⟨_, rfl, Or.inr rfl⟩
      · simp [hT, hV, hexec, hroot, hloop, hw, hhead2, hwr, bind, Except.bind, pure, Except.pure,
          Except.map, huse, h1, h2]
        split_ifs <;> first | exact ⟨_, rfl, Or.inl rfl⟩ | exact ⟨_, rfl, Or.inr rfl⟩
  · simp at hcontract

theorem script.Block.used_of_contractName {b : script.Block} {name : String}
    (h : b.contractName = some name) : ∃ used, b.used = some (name, used) := by
  unfold script.Block.contractName at h
  cases hu : b.used with
  | none => simp [hu] at h
  | some p =>
    obtain ⟨n, used⟩ := p
    simp [hu] at h
    exact ⟨used, by rw [h]⟩

theorem script.Block.contractName_of_used {b : script.Block} {name : String}
    {used : List String} (h : b.used = some (name, used)) : b.contractName = some name := by
  simp [script.Block.contractName, h]

/-- C18.  Let the lexeme at the current index be an identifier followed by an opening
parenthesis that names a contract (as found by `findObj`, after the statements of the call
branch that are not in the source file), with `ExecContract` known to the VM and the block
stack well typed.  If the state-qualified name `StateName(state, name)` is the `Name` of a
contract block of the stack, the iteration returns `errRecursion`, and so do the loop of
`compileEval` from any state that stands at this lexeme and `compileEval` itself when the
call opens the expression.  If no contract block of the stack has
that name, the iteration raises no error and every contract block of the stack has the
name in its `Used` set afterwards (what it held before is kept, other blocks stay
non-contract blocks). -/
theorem script.compileEval_recursion (vm : script.VM) (lexems : List script.Lexem) (ind : Nat)
    (s : script.EvalState) (lexem : script.Lexem) (value : String) (state : Nat)
    (root : script.Block) (obj contract exec : script.ObjInfo) (tobj eowner : Option Nat)
    (hlexem : lexems[s.i]? = some lexem)
    (htype : lexem.Type_ = .lexIdent) (hvalue : lexem.Value = .string value)
    (hlen : s.i + 2 < lexems.length)
    (hpar : (lexems.getD (s.i + 1) lexem).Type_ = .isLPar)
    (hroot : s.block.head? = some root) (hstate : root.Info = .uint32 state)
    (hfind : vm.findObj value s.block = .ok (some obj, tobj))
    (hguard : vm.callGuard lexem (some obj) = .ok (some contract))
    (hcontract : contract.isContract = true)
    (hexec : vm.findObj "ExecContract" s.block = .ok (some exec, eowner))
    (hcall : exec.callable = true)
    (htyped : ∀ b ∈ s.block, b.typed = true) :
    ((∃ b ∈ s.block, b.contractName = some (script.StateName state value)) →
      script.VM.compileEval.step vm lexems ind s lexem = .error .errRecursion ∧
      (∀ fuel, script.VM.compileEval.loop vm lexems ind (fuel + 1) s = .error .errRecursion) ∧
      vm.compileEval lexems s.i s.block = .error .errRecursion) ∧
    ((∀ b ∈ s.block, b.contractName ≠ some (script.StateName state value)) →
      ∃ s', script.VM.compileEval.step vm lexems ind s lexem = .ok (.endSwitch s' none) ∧
        s'.block.map script.Block.used = s.block.map fun b =>
          b.used.map fun p =>
            (p.1, if script.StateName state value ∈ p.2 then p.2
              else p.2 ++ [script.StateName state value])) := by
  constructor
  · intro h
    have h' : ∃ b ∈ s.block, ∃ used, b.used = some (script.StateName state value, used) := by
      obtain ⟨b, hb, hn⟩ := h
      exact ⟨b, hb, script.Block.used_of_contractName hn⟩
    have hstep0 : script.VM.compileEval.step vm lexems ind s lexem = .error .errRecursion := by
      rw [script.compileEval.step_call vm lexems ind s lexem value obj contract tobj htype
        hvalue hlen hpar hfind hguard]
      exact script.compileEval.call_recursion vm lexems _ lexem value state root contract exec
        eowner hroot hstate hcontract hexec hcall htyped h'
    refine ⟨hstep0, ?_, ?_⟩
    · intro fuel
      unfold script.VM.compileEval.loop
      simp [hlexem, hstep0]
    · have hstep := script.compileEval.step_call vm lexems s.i (script.startState s.i s.block)
        lexem value obj contract tobj htype hvalue hlen hpar hfind hguard
      have hrec := script.compileEval.call_recursion vm lexems
        { script.startState s.i s.block with noMap := true } lexem value state root contract
        exec eowner hroot hstate hcontract hexec hcall htyped h'
      rw [hrec] at hstep
      have hne : s.block.isEmpty = false := by
        cases hb : s.block with
        | nil => simp [hb] at hroot
        | cons b rest => rfl
      obtain ⟨n, hn⟩ : ∃ n, lexems.length - s.i = n + 1 := ⟨lexems.length - s.i - 1, by omega⟩
      unfold script.VM.compileEval
      rw [hne, hn]
      unfold script.VM.compileEval.loop
      unfold script.startState at hstep
      simp [hlexem, hstep]
  · intro h
    have h' : ∀ b ∈ s.block, ∀ used, b.used ≠ some (script.StateName state value, used) :=
      fun b hb used hu => h b hb (script.Block.contractName_of_used hu)
    rw [script.compileEval.step_call vm lexems ind s lexem value obj contract tobj htype
      hvalue hlen hpar hfind hguard]
    obtain ⟨s', hs', hblock⟩ := script.compileEval.call_ok vm lexems
      { s with noMap := true } lexem value state root contract exec eowner hroot hstate
      hcontract hexec hcall htyped h'
    refine ⟨s', hs', ?_⟩
    rcases hblock with hb | hb
    · rw [hb, List.map_map]
      apply List.map_congr_left
      intro b _
      exact script.Block.use_used _ b
    · rw [hb, List.map_map, List.map_map]
      apply List.map_congr_left
      intro b _
      simp only [Function.comp]
      rw [script.Block.writable_used]
      exact script.Block.use_used _ b

/-- Inside the contract `@1Pay` of state 1 the expression `Pay()` is a recursion, and the
call `Fee()` puts `@1Fee` into the `Used` set of the contract block. -/
theorem script.compileEval_recursion_witness :
    script.contractVM.compileEval script.callPay 0 [script.rootBlock, script.payBlock]
        = .error .errRecursion ∧
      ∃ s', script.VM.compileEval.step script.contractVM script.callFee 0
            (script.startState 0 [script.rootBlock, script.payBlock]) (script.ident "Fee")
          = .ok (.endSwitch s' none) ∧
        s'.block.map script.Block.used = [none, some ("@1Pay", ["@1Fee"])] :=
  ⟨((script.compileEval_recursion script.contractVM script.callPay 0
        (script.startState 0 [script.rootBlock, script.payBlock]) (script.ident "Pay") "Pay" 1
        script.rootBlock ⟨.ObjContract, .nil⟩ ⟨.ObjContract, .nil⟩
        ⟨.ObjExtFunc, .extFunc ⟨"ExecContract", [], [], true, false⟩⟩ none none
        rfl rfl rfl (by decide) rfl rfl rfl rfl rfl rfl rfl rfl (by decide)).1
      (by decide)).2.2,
    (script.compileEval_recursion script.contractVM script.callFee 0
        (script.startState 0 [script.rootBlock, script.payBlock]) (script.ident "Fee") "Fee" 1
        script.rootBlock ⟨.ObjContract, .nil⟩ ⟨.ObjContract, .nil⟩
        ⟨.ObjExtFunc, .extFunc ⟨"ExecContract", [], [], true, false⟩⟩ none none
        rfl rfl rfl (by decide) rfl rfl rfl rfl rfl rfl rfl rfl (by decide)).2
      (by decide)⟩



/-! ### The conversion of expressions to postfix order -/

theorem script.binaryOper_spec {lexem : script.Lexem} {oper : script.operPrior}
    (h : script.binaryOper lexem = some oper) (cmdUnary : Nat) :
    lexem.Type_ = .lexOper ∧
      (∃ c, lexem.Value = .uint32 c ∧ script.opers cmdUnary c = some oper) ∧
      oper.Priority ∈ [10, 15, 20, 22, 25, 30] ∧ oper.Cmd ≠ .cmdSys := by
  obtain ⟨ty, v, line⟩ := lexem
  unfold script.binaryOper at h
  simp only at h
  split at h
  · rename_i _ _ c
    refine ⟨rfl, ?_⟩
    split at h
    · rename_i hc
      cases c <;> simp [script.binaryOpers] at hc <;>
        simp [script.opers] at h <;> subst h <;> exact ⟨⟨_, rfl, rfl⟩, by simp, by simp⟩
    · simp at h
  · simp at h

theorem script.compileEval.operLoop_pop (cmdUnary : Nat) (oper : script.operPrior)
    (byteOper : script.ByteCode) (hne : oper.Priority ≠ cmdUnary)
    (xs under : List script.ByteCode)
    (hxs : ∀ b ∈ xs, ∃ p, b.Value = .uint16 p ∧ oper.Priority ≤ p ∧ p ≠ cmdUnary ∧
      b.Cmd ≠ .cmdSys)
    (hunder : under = [] ∨
      ∃ b rest p, under = b :: rest ∧ b.Value = .uint16 p ∧ p < oper.Priority) :
    ∀ (fuel : Nat) (bytecode : List script.ByteCode), xs.length + under.length ≤ fuel →
      script.compileEval.operLoop cmdUnary oper byteOper fuel (xs ++ under) bytecode
        = .ok (byteOper :: under, bytecode ++ xs) := by
  induction xs with
  | nil =>
    intro fuel bytecode hfuel
    rcases hunder with rfl | ⟨b, rest, p, rfl, hv, hp⟩
    · simp [script.compileEval.operLoop]
    · obtain ⟨f, rfl⟩ : ∃ f, fuel = f + 1 := ⟨fuel - 1, by simp at hfuel; omega⟩
      simp only [List.nil_append, script.compileEval.operLoop, hv, script.BCValue.asUint16,
        List.append_nil]
      rw [if_neg]
      intro h
      omega
  | cons x xs ih =>
    intro fuel bytecode hfuel
    obtain ⟨f, rfl⟩ : ∃ f, fuel = f + 1 := ⟨fuel - 1, by simp at hfuel; omega⟩
    obtain ⟨p, hv, hp, hpu, hc⟩ := hxs x (by simp)
    simp only [List.cons_append, script.compileEval.operLoop, hv, script.BCValue.asUint16]
    rw [if_pos ⟨hp, hne, hc⟩, if_neg hpu]
    simp only [List.append_eq]
    rw [ih (fun b hb => hxs b (List.mem_cons_of_mem _ hb)) f _
      (by simp at hfuel ⊢; omega)]
    simp


theorem script.getD_of_lt (lexems : List script.Lexem) (i : Nat) (d : script.Lexem)
    (h : i < lexems.length) : lexems[i]? = some (lexems.getD i d) := by
  rw [List.getD_eq_getElem?_getD, List.getElem?_eq_getElem h]
  rfl

theorem script.operand_type {vm : script.VM} {block : List script.Block} {x : script.Lexem}
    (h : (vm.operand block x).isSome = true) :
    x.Type_ = .lexNumber ∨ x.Type_ = .lexString ∨ x.Type_ = .lexExtend ∨
      x.Type_ = .lexIdent := by
  unfold script.VM.operand at h
  split at h
  · exact Or.inl ‹_›
  · exact Or.inr (Or.inl ‹_›)
  · exact Or.inr (Or.inr (Or.inl ‹_›))
  · exact Or.inr (Or.inr (Or.inr ‹_›))
  · simp at h

theorem script.compileEval.step_operand (vm : script.VM) (lexems : List script.Lexem)
    (ind : Nat) (s : script.EvalState) (x : script.Lexem) (bc : script.ByteCode)
    (hop : vm.operand s.block x = some bc)
    (hnext : ∀ l, lexems[s.i + 1]? = some l → l.Type_ ≠ .isLPar ∧ l.Type_ ≠ .isLBrack) :
    script.VM.compileEval.step vm lexems ind s x
      = .ok (.endSwitch { s with noMap := true } (some bc)) := by
  have hpar : ¬ (s.i + 2 < lexems.length ∧ (lexems.getD (s.i + 1) x).Type_ = .isLPar) := by
    rintro ⟨h1, h2⟩
    exact (hnext _ (script.getD_of_lt lexems (s.i + 1) x (by omega))).1 h2
  have hbr : ¬ (s.i + 1 < lexems.length ∧ (lexems.getD (s.i + 1) x).Type_ = .isLBrack) := by
    rintro ⟨h1, h2⟩
    exact (hnext _ (script.getD_of_lt lexems (s.i + 1) x h1)).2 h2
  have hbr2 : ¬ (s.i + 2 < lexems.length ∧
      (lexems.getD (s.i + 1) x).Type_ = .isLBrack) := by
    rintro ⟨h1, h2⟩
    exact hbr ⟨by omega, h2⟩
  unfold script.VM.operand at hop
  unfold script.VM.compileEval.step
  split at hop
  · rename_i hT
    simp only [hT]
    rw [if_neg (by simp), if_neg (by simp)]
    simp only [Option.some.injEq] at hop
    rw [hop]
  · rename_i hT
    simp only [hT]
    rw [if_neg (by simp), if_neg (by simp)]
    simp only [Option.some.injEq] at hop
    rw [hop]
  · rename_i hT
    simp only [hT]
    rw [if_neg (by simp), if_neg (by simp)]
    split at hop
    · rename_i name hV
      simp only [Option.some.injEq] at hop
      simp only [script.VM.compileEval.lexExtend, hV, script.Plain.asString]
      rw [if_neg hpar, if_neg hbr, hop]
    · simp at hop
  · rename_i hT
    simp only [hT]
    rw [if_neg (by simp), if_neg (by simp)]
    split at hop
    · rename_i name hV
      split at hop
      · rename_i obj owner hF
        split at hop
        · rename_i hO
          simp only [Option.some.injEq] at hop
          simp only [script.VM.compileEval.lexIdent, hV, script.Plain.asString, hF]
          rw [if_neg (by simp), if_neg hpar]
          rw [if_neg hbr2, if_neg (by simpa using hO), hop]
        · simp at hop
      · simp at hop
    · simp at hop
  · simp at hop


theorem script.compileEval.step_operator (vm : script.VM) (lexems : List script.Lexem)
    (ind : Nat) (s : script.EvalState) (op : script.Lexem) (oper : script.operPrior)
    (hop : script.binaryOper op = some oper)
    (hunary : ∀ p ∈ [10, 15, 20, 22, 25, 30], p ≠ vm.cmdUnary)
    (hi : 0 < s.i)
    (hprev : (lexems.getD (s.i - 1) op).Type_ = .lexNumber ∨
      (lexems.getD (s.i - 1) op).Type_ = .lexString ∨
      (lexems.getD (s.i - 1) op).Type_ = .lexExtend ∨
      (lexems.getD (s.i - 1) op).Type_ = .lexIdent)
    (hlex : s.prevLex ≠ .lexOper)
    (xs under : List script.ByteCode) (hbuf : s.buffer = xs ++ under)
    (hxs : ∀ b ∈ xs, ∃ p, b.Value = .uint16 p ∧ oper.Priority ≤ p ∧ p ≠ vm.cmdUnary ∧
      b.Cmd ≠ .cmdSys)
    (hunder : under = [] ∨
      ∃ b rest p, under = b :: rest ∧ b.Value = .uint16 p ∧ p < oper.Priority) :
    script.VM.compileEval.step vm lexems ind s op
      = .ok (.endSwitch { s with
          noMap := false,
          buffer := ⟨oper.Cmd, op.Line, .uint16 oper.Priority⟩ :: under,
          bytecode := s.bytecode ++ xs } none) := by
  obtain ⟨hT, ⟨c, hV, hoper⟩, hprio, hcmd⟩ := script.binaryOper_spec hop vm.cmdUnary
  have hne : oper.Priority ≠ vm.cmdUnary := hunary _ hprio
  have hloop := script.compileEval.operLoop_pop vm.cmdUnary oper
    ⟨oper.Cmd, op.Line, .uint16 oper.Priority⟩ hne xs under hxs hunder
    (xs ++ under).length s.bytecode (by simp)
  have hsign : ¬ (oper.Cmd = .cmdSub ∧ (s.i = 0 ∨
      ((if s.i > 0 then (lexems.getD (s.i - 1) op).Type_ else script.LexType.zero)
          ≠ .lexNumber ∧
        (if s.i > 0 then (lexems.getD (s.i - 1) op).Type_ else script.LexType.zero)
          ≠ .lexIdent ∧
        (if s.i > 0 then (lexems.getD (s.i - 1) op).Type_ else script.LexType.zero)
          ≠ .lexExtend ∧
        (if s.i > 0 then (lexems.getD (s.i - 1) op).Type_ else script.LexType.zero)
          ≠ .lexString ∧
        (if s.i > 0 then (lexems.getD (s.i - 1) op).Type_ else script.LexType.zero)
          ≠ .isRCurly ∧
        (if s.i > 0 then (lexems.getD (s.i - 1) op).Type_ else script.LexType.zero)
          ≠ .isRBrack ∧
        (if s.i > 0 then (lexems.getD (s.i - 1) op).Type_ else script.LexType.zero)
          ≠ .isRPar))) := by
    rw [if_pos hi]
    rintro ⟨_, h0 | ⟨h1, h2, h3, h4, _⟩⟩
    · omega
    · rcases hprev with h | h | h | h
      · exact h1 h
      · exact h4 h
      · exact h3 h
      · exact h2 h
  unfold script.VM.compileEval.step
  simp only [hT]
  rw [if_neg (by simp), if_neg (by simp)]
  simp only [script.VM.compileEval.lexOper, hV, hoper]
  rw [if_neg hsign, if_neg (fun h => hlex h.1), hbuf, hloop]


theorem script.compileEval.loop_next (vm : script.VM) (lexems : List script.Lexem)
    (ind fuel : Nat) (s s1 : script.EvalState) (lexem : script.Lexem)
    (cmd : Option script.ByteCode)
    (hlexem : lexems[s.i]? = some lexem)
    (hstep : script.VM.compileEval.step vm lexems ind s lexem = .ok (.endSwitch s1 cmd))
    (hT : lexem.Type_ = .lexNumber ∨ lexem.Type_ = .lexString ∨ lexem.Type_ = .lexExtend ∨
      lexem.Type_ = .lexIdent ∨ lexem.Type_ = .lexOper) :
    script.VM.compileEval.loop vm lexems ind (fuel + 1) s
      = script.VM.compileEval.loop vm lexems ind fuel
          { s1 with
            prevLex := lexem.Type_, bytecode := s1.bytecode ++ cmd.toList, i := s1.i + 1 } := by
  conv_lhs => unfold script.VM.compileEval.loop
  simp only [hlexem, hstep]
  have hafter : script.compileEval.afterSwitch lexem s1 cmd
      = .ok { s1 with prevLex := lexem.Type_, bytecode := s1.bytecode ++ cmd.toList } := by
    unfold script.compileEval.afterSwitch
    have hnl : lexem.Type_ ≠ .lexNewLine := by
      rcases hT with h | h | h | h | h <;> rw [h] <;> simp
    rw [if_pos hnl]
    rcases hT with h | h | h | h | h <;> rw [h] <;> cases cmd <;> simp
  rw [hafter]

theorem script.VM.code_eq (vm : script.VM) (block : List script.Block) (t : script.Tree) :
    vm.code block t = vm.done block t ++ vm.spine block t := by
  have hsingle : ∀ x, List.filterMap (vm.emit block) [x] = (vm.emit block x).toList := by
    intro x
    cases h : vm.emit block x <;> simp [List.filterMap_cons, h]
  induction t with
  | leaf x => simp [script.VM.code, script.VM.done, script.VM.spine, script.Tree.postorder, hsingle]
  | node l op r ihl ihr =>
    simp only [script.VM.code, script.Tree.postorder, List.filterMap_append, script.VM.done,
      script.VM.spine] at ihl ihr ⊢
    rw [ihr, hsingle]
    simp [List.append_assoc]

theorem script.Tree.inorder_last (t : script.Tree) :
    ∃ init, t.inorder = init ++ [t.last] := by
  induction t with
  | leaf x => exact ⟨[], rfl⟩
  | node l op r _ ihr =>
    obtain ⟨init, h⟩ := ihr
    exact ⟨l.inorder ++ op :: init, by simp [script.Tree.inorder, script.Tree.last, h]⟩

theorem script.Tree.last_operand {vm : script.VM} {block : List script.Block}
    {t : script.Tree} (h : t.WF vm block) : (vm.operand block t.last).isSome = true := by
  induction t with
  | leaf x => exact h
  | node l op r _ ihr => exact ihr h.2.1

theorem script.emit_operand {vm : script.VM} {block : List script.Block} {x : script.Lexem}
    (h : (vm.operand block x).isSome = true) : vm.emit block x = vm.operand block x := by
  have hT := script.operand_type h
  unfold script.VM.emit script.binaryOper
  rcases hT with h | h | h | h <;> simp [h]

theorem script.emit_operator {vm : script.VM} {block : List script.Block} {op : script.Lexem}
    {oper : script.operPrior} (h : script.binaryOper op = some oper) :
    vm.emit block op = some ⟨oper.Cmd, op.Line, .uint16 oper.Priority⟩ := by
  simp [script.VM.emit, h]

theorem script.priority_eq {op : script.Lexem} {oper : script.operPrior}
    (h : script.binaryOper op = some oper) : script.priority op = oper.Priority := by
  simp [script.priority, h]

theorem script.VM.spine_mem {vm : script.VM} {block : List script.Block} {t : script.Tree}
    (ht : t.WF vm block) :
    ∀ b ∈ vm.spine block t, ∃ o ∈ t.operators, ∃ oper, script.binaryOper o = some oper ∧
      b = ⟨oper.Cmd, o.Line, .uint16 oper.Priority⟩ := by
  induction t with
  | leaf x => simp [script.VM.spine]
  | node l op r _ ihr =>
    intro b hb
    obtain ⟨_, hr, hop, _, _⟩ := ht
    obtain ⟨oper, hoper⟩ := Option.isSome_iff_exists.mp hop
    simp only [script.VM.spine, script.emit_operator hoper, Option.toList_some,
      List.mem_append, List.mem_singleton] at hb
    rcases hb with hb | hb
    · obtain ⟨o, ho, oper', h1, h2⟩ := ihr hr b hb
      exact ⟨o, by simp [script.Tree.operators, ho], oper', h1, h2⟩
    · exact ⟨op, by simp [script.Tree.operators], oper, hoper, hb⟩


theorem script.getElem?_append_cons (pre : List script.Lexem) (x : script.Lexem)
    (post : List script.Lexem) : (pre ++ x :: post)[pre.length]? = some x := by
  rw [List.getElem?_append_right (le_refl _)]
  simp

theorem script.compileEval.loop_tree (vm : script.VM) (lexems : List script.Lexem)
    (ind : Nat) (block : List script.Block)
    (hunary : ∀ p ∈ [10, 15, 20, 22, 25, 30], p ≠ vm.cmdUnary)
    (t : script.Tree) (ht : t.WF vm block) :
    ∀ (pre post : List script.Lexem) (fuel i : Nat) (buffer bytecode : List script.ByteCode)
      (parcount : List Int) (setIndex : Bool) (indexInfo : Option script.IndexInfo)
      (noMap : Bool) (prevLex : script.LexType),
      lexems = pre ++ t.inorder ++ post → i = pre.length →
      (∀ l, post.head? = some l → l.Type_ ≠ .isLPar ∧ l.Type_ ≠ .isLBrack) →
      (buffer = [] ∨ ∃ b rest p, buffer = b :: rest ∧ b.Value = .uint16 p ∧
        ∀ o ∈ t.operators, p < script.priority o) →
      script.VM.compileEval.loop vm lexems ind (fuel + t.inorder.length)
          ⟨i, buffer, bytecode, parcount, setIndex, indexInfo, noMap, prevLex, block⟩
        = script.VM.compileEval.loop vm lexems ind fuel
          ⟨i + t.inorder.length, vm.spine block t ++ buffer, bytecode ++ vm.done block t,
            parcount, setIndex, indexInfo, true, t.last.Type_, block⟩ := by
  induction t with
  | leaf x =>
    intro pre post fuel i buffer bytecode parcount setIndex indexInfo noMap prevLex hlex hi
      hpost _
    subst hi
    have hshape : lexems = pre ++ x :: post := by
      rw [hlex]
      simp [script.Tree.inorder]
    have hx : lexems[pre.length]? = some x := by
      rw [hshape]
      exact script.getElem?_append_cons pre x post
    have hnext : ∀ l, lexems[pre.length + 1]? = some l →
        l.Type_ ≠ .isLPar ∧ l.Type_ ≠ .isLBrack := by
      intro l hl
      apply hpost
      rw [hshape, List.getElem?_append_right (by omega)] at hl
      simp only [Nat.add_sub_cancel_left, List.getElem?_cons_succ] at hl
      rw [← hl]
      cases post <;> simp
    obtain ⟨bc, hbc⟩ := Option.isSome_iff_exists.mp ht
    have hstep := script.compileEval.step_operand vm lexems ind
      ⟨pre.length, buffer, bytecode, parcount, setIndex, indexInfo, noMap, prevLex, block⟩
      x bc hbc hnext
    have hT := script.operand_type ht
    have hT' : x.Type_ = .lexNumber ∨ x.Type_ = .lexString ∨ x.Type_ = .lexExtend ∨
        x.Type_ = .lexIdent ∨ x.Type_ = .lexOper := by
      rcases hT with h | h | h | h
      · exact Or.inl h
      · exact Or.inr (Or.inl h)
      · exact Or.inr (Or.inr (Or.inl h))
      · exact Or.inr (Or.inr (Or.inr (Or.inl h)))
    simp only [script.Tree.inorder, List.length_singleton]
    rw [script.compileEval.loop_next vm lexems ind fuel _ _ x (some bc) hx hstep hT']
    simp [script.VM.spine, script.VM.done, script.Tree.last, script.emit_operand ht, hbc]
  | node l op r ihl ihr =>
    intro pre post fuel i buffer bytecode parcount setIndex indexInfo noMap prevLex hlex hi
      hpost hbuf
    subst hi
    obtain ⟨hl, hr, hop, hlp, hrp⟩ := ht
    obtain ⟨oper, hoper⟩ := Option.isSome_iff_exists.mp hop
    obtain ⟨hopT, _, _, _⟩ := script.binaryOper_spec hoper vm.cmdUnary
    have hprio := script.priority_eq hoper
    -- the left operand
    have hfuel : fuel + (script.Tree.node l op r).inorder.length
        = (fuel + r.inorder.length + 1) + l.inorder.length := by
      simp [script.Tree.inorder]
      omega
    rw [hfuel]
    rw [ihl hl pre (op :: r.inorder ++ post) (fuel + r.inorder.length + 1) pre.length buffer
      bytecode parcount setIndex indexInfo noMap prevLex
      (by rw [hlex]; simp [script.Tree.inorder]) rfl
      (by
        intro x hx
        have hx' : x = op := by
          simp only [List.cons_append, List.head?_cons, Option.some.injEq] at hx
          exact hx.symm
        rw [hx', hopT]
        exact ⟨by decide, by decide⟩)
      (by
        rcases hbuf with h | ⟨b, rest, p, h1, h2, h3⟩
        · exact Or.inl h
        · exact Or.inr ⟨b, rest, p, h1, h2,
            fun o ho => h3 o (by simp [script.Tree.operators, ho])⟩)]
    -- the operator
    have hshape : lexems = (pre ++ l.inorder) ++ op :: (r.inorder ++ post) := by
      rw [hlex]
      simp [script.Tree.inorder]
    have hopAt : lexems[pre.length + l.inorder.length]? = some op := by
      rw [hshape, ← List.length_append]
      exact script.getElem?_append_cons _ op _
    obtain ⟨init, hinit⟩ := l.inorder_last
    have hprevAt : lexems.getD (pre.length + l.inorder.length - 1) op = l.last := by
      have hshape2 : lexems = (pre ++ init) ++ l.last :: (op :: (r.inorder ++ post)) := by
        rw [hshape, hinit]
        simp
      have hidx : pre.length + l.inorder.length - 1 = (pre ++ init).length := by
        rw [hinit]
        simp
      rw [hidx, List.getD_eq_getElem?_getD, hshape2, script.getElem?_append_cons]
      rfl
    have hlastT := script.operand_type (script.Tree.last_operand hl)
    have hxs : ∀ b ∈ vm.spine block l, ∃ p, b.Value = .uint16 p ∧ oper.Priority ≤ p ∧
        p ≠ vm.cmdUnary ∧ b.Cmd ≠ .cmdSys := by
      intro b hb
      obtain ⟨o, ho, oper', h1, h2⟩ := script.VM.spine_mem hl b hb
      obtain ⟨_, _, hp', hc'⟩ := script.binaryOper_spec h1 vm.cmdUnary
      refine ⟨oper'.Priority, by rw [h2], ?_, hunary _ hp', by rw [h2]; exact hc'⟩
      have := hlp o ho
      rw [hprio, script.priority_eq h1] at this
      exact this
    have hunder : buffer = [] ∨
        ∃ b rest p, buffer = b :: rest ∧ b.Value = .uint16 p ∧ p < oper.Priority := by
      rcases hbuf with h | ⟨b, rest, p, h1, h2, h3⟩
      · exact Or.inl h
      · refine Or.inr ⟨b, rest, p, h1, h2, ?_⟩
        have := h3 op (by simp [script.Tree.operators])
        rw [hprio] at this
        exact this
    have hstep := script.compileEval.step_operator vm lexems ind
      ⟨pre.length + l.inorder.length, vm.spine block l ++ buffer,
        bytecode ++ vm.done block l, parcount, setIndex, indexInfo, true, l.last.Type_, block⟩
      op oper hoper hunary
      (by
        obtain ⟨init, hinit⟩ := l.inorder_last
        simp [hinit])
      (by
        simp only
        rw [hprevAt]
        rcases hlastT with h | h | h | h
        · exact Or.inl h
        · exact Or.inr (Or.inl h)
        · exact Or.inr (Or.inr (Or.inl h))
        · exact Or.inr (Or.inr (Or.inr h)))
      (by
        simp only
        rcases hlastT with h | h | h | h <;> rw [h] <;> simp)
      (vm.spine block l) buffer rfl hxs hunder
    rw [script.compileEval.loop_next vm lexems ind (fuel + r.inorder.length) _ _ op none hopAt
      hstep (Or.inr (Or.inr (Or.inr (Or.inr hopT))))]
    -- the right operand
    simp only [Option.toList_none, List.append_nil]
    rw [ihr hr (pre ++ l.inorder ++ [op]) post fuel (pre.length + l.inorder.length + 1)
      (⟨oper.Cmd, op.Line, .uint16 oper.Priority⟩ :: buffer)
      (bytecode ++ vm.done block l ++ vm.spine block l) parcount setIndex indexInfo false
      op.Type_
      (by rw [hlex]; simp [script.Tree.inorder])
      (by simp only [List.length_append, List.length_singleton])
      hpost
      (Or.inr ⟨_, buffer, oper.Priority, rfl, rfl, fun o ho => by
        have := hrp o ho
        rw [hprio] at this
        exact this⟩)]
    congr 1
    simp [script.VM.spine, script.VM.done, script.Tree.last, script.Tree.inorder,
      script.emit_operator hoper, script.VM.code_eq]
    omega


theorem script.compileEval.flush_spine {vm : script.VM} {block : List script.Block}
    {t : script.Tree} (ht : t.WF vm block) (bytecode : List script.ByteCode) :
    script.compileEval.flush (vm.spine block t) bytecode
      = .ok (bytecode ++ vm.spine block t) := by
  have hmem := script.VM.spine_mem ht
  generalize vm.spine block t = xs at hmem
  induction xs generalizing bytecode with
  | nil => simp [script.compileEval.flush]
  | cons b rest ih =>
    obtain ⟨o, _, oper, h1, h2⟩ := hmem b (by simp)
    obtain ⟨_, _, _, hc⟩ := script.binaryOper_spec h1 0
    have hb : b.Cmd ≠ .cmdSys := by rw [h2]; exact hc
    simp only [script.compileEval.flush]
    rw [if_neg hb, ih _ (fun x hx => hmem x (List.mem_cons_of_mem _ hx))]
    simp

theorem script.appendCode_length (bytecode : List script.ByteCode) (block : List script.Block) :
    (script.appendCode bytecode block).length = block.length := by
  induction block with
  | nil => rfl
  | cons b rest ih =>
    cases rest with
    | nil => rfl
    | cons c rest' =>
      simp only [script.appendCode, List.length_cons] at ih ⊢
      omega

theorem script.Tree.operands_in_order {vm : script.VM} {block : List script.Block}
    {t : script.Tree} (ht : t.WF vm block) :
    t.postorder.filter (fun x => (script.binaryOper x).isNone)
      = t.inorder.filter (fun x => (script.binaryOper x).isNone) := by
  induction t with
  | leaf x => rfl
  | node l op r ihl ihr =>
    obtain ⟨hl, hr, hop, _, _⟩ := ht
    simp only [script.Tree.postorder, script.Tree.inorder, List.filter_append, List.filter_cons,
      ihl hl, ihr hr]
    obtain ⟨oper, hoper⟩ := Option.isSome_iff_exists.mp hop
    simp [hoper]

theorem script.compileEval_tree (vm : script.VM) (block : List script.Block)
    (t : script.Tree) (hunary : ∀ p ∈ [10, 15, 20, 22, 25, 30], p ≠ vm.cmdUnary)
    (hblock : block ≠ []) (ht : t.WF vm block) :
    vm.compileEval t.inorder 0 block
        = .ok (t.inorder.length, script.appendCode (vm.code block t) block) := by
  have hloop := script.compileEval.loop_tree vm t.inorder 0 block hunary t ht [] [] 0 0 [] []
    [] false none false .zero (by simp) rfl (by simp) (Or.inl rfl)
  have hne : block.isEmpty = false := by
    cases block with
    | nil => exact absurd rfl hblock
    | cons b rest => rfl
  have hlast : t.last.Type_ ≠ .lexOper := by
    rcases script.operand_type (script.Tree.last_operand ht) with h | h | h | h <;>
      rw [h] <;> simp
  unfold script.VM.compileEval
  rw [hne]
  simp only [Nat.sub_zero, Bool.false_eq_true, if_false]
  simp only [Nat.zero_add] at hloop
  rw [hloop]
  simp only [script.VM.compileEval.loop, lt_self_iff_false, if_false, List.append_nil,
    List.nil_append]
  rw [if_neg hlast, script.compileEval.flush_spine ht, ← script.VM.code_eq]
  simp

theorem script.Tree.insert_inorder (t : script.Tree) (op x : script.Lexem) :
    (t.insert op x).inorder = t.inorder ++ [op, x] := by
  induction t with
  | leaf y => rfl
  | node l o r _ ihr =>
    unfold script.Tree.insert
    split_ifs
    · simp [script.Tree.inorder, ihr]
    · simp [script.Tree.inorder]

theorem script.Tree.insert_operators (t : script.Tree) (op x o : script.Lexem) :
    o ∈ (t.insert op x).operators ↔ o ∈ t.operators ∨ o = op := by
  induction t with
  | leaf y => simp [script.Tree.insert, script.Tree.operators]
  | node l o' r _ ihr =>
    unfold script.Tree.insert
    split_ifs
    · simp only [script.Tree.operators, List.mem_append, List.mem_cons, ihr]
      tauto
    · simp only [script.Tree.operators, List.mem_append, List.mem_cons, List.not_mem_nil]
      tauto

theorem script.Tree.insert_WF {vm : script.VM} {block : List script.Block} {t : script.Tree}
    {op x : script.Lexem} (ht : t.WF vm block) (hop : (script.binaryOper op).isSome = true)
    (hx : (vm.operand block x).isSome = true) : (t.insert op x).WF vm block := by
  induction t with
  | leaf y =>
    exact ⟨ht, hx, hop, by simp [script.Tree.operators], by simp [script.Tree.operators]⟩
  | node l o r _ ihr =>
    obtain ⟨hl, hr, ho, hlp, hrp⟩ := ht
    unfold script.Tree.insert
    split_ifs with hlt
    · refine ⟨hl, ihr hr, ho, hlp, ?_⟩
      intro o' ho'
      rcases (script.Tree.insert_operators r op x o').mp ho' with h | h
      · exact hrp o' h
      · rw [h]
        exact hlt
    · refine ⟨⟨hl, hr, ho, hlp, hrp⟩, hx, hop, ?_, by simp [script.Tree.operators]⟩
      intro o' ho'
      simp only [script.Tree.operators, List.mem_append, List.mem_cons] at ho'
      rcases ho' with h | h | h
      · have := hlp o' h
        omega
      · rw [h]
        omega
      · have := hrp o' h
        omega

theorem script.parse_spec {vm : script.VM} {block : List script.Block}
    (rest : List (script.Lexem × script.Lexem)) :
    ∀ (t : script.Tree), t.WF vm block →
      (∀ p ∈ rest, (script.binaryOper p.1).isSome = true ∧
        (vm.operand block p.2).isSome = true) →
      (rest.foldl (fun t p => t.insert p.1 p.2) t).WF vm block ∧
      (rest.foldl (fun t p => t.insert p.1 p.2) t).inorder
        = t.inorder ++ rest.flatMap fun p => [p.1, p.2] := by
  induction rest with
  | nil =>
    intro t ht _
    exact ⟨ht, by simp⟩
  | cons p rest ih =>
    intro t ht hrest
    obtain ⟨h1, h2⟩ := ih (t.insert p.1 p.2)
      (script.Tree.insert_WF ht (hrest p (by simp)).1 (hrest p (by simp)).2)
      (fun q hq => hrest q (List.mem_cons_of_mem _ hq))
    refine ⟨h1, ?_⟩
    rw [List.foldl_cons, h2, script.Tree.insert_inorder]
    simp

/-- C16.  For every expression that is an operand followed by pairs of a binary operator
of the table `opers` and an operand (numbers, strings, `$` variables and identifiers of
variables), `compileEval` on its lexemes returns the index after the last lexeme and
appends to the current block the byte-codes of the lexemes in the postfix order of the
tree `parse`.  That tree reads in source order as the expression and respects the
priorities and the association to the left (`Tree.WF`); the operands keep their source
order.  The constant `cmdUnary` is assumed not to be the priority of a binary
operator. -/
theorem script.compileEval_postorder (vm : script.VM) (block : List script.Block)
    (x : script.Lexem) (rest : List (script.Lexem × script.Lexem))
    (hunary : ∀ p ∈ [10, 15, 20, 22, 25, 30], p ≠ vm.cmdUnary)
    (hblock : block ≠ [])
    (hx : (vm.operand block x).isSome = true)
    (hrest : ∀ p ∈ rest, (script.binaryOper p.1).isSome = true ∧
      (vm.operand block p.2).isSome = true) :
    vm.compileEval (script.expression x rest) 0 block
        = .ok ((script.expression x rest).length,
            script.appendCode (vm.code block (script.parse x rest)) block) ∧
      (script.parse x rest).WF vm block ∧
      (script.parse x rest).inorder = script.expression x rest ∧
      (script.parse x rest).postorder.filter (fun l => (script.binaryOper l).isNone)
        = (script.expression x rest).filter (fun l => (script.binaryOper l).isNone) := by
  obtain ⟨hwf, hin⟩ := script.parse_spec rest (.leaf x) hx hrest
  have hin' : (script.parse x rest).inorder = script.expression x rest := by
    unfold script.parse script.expression
    rw [hin]
    rfl
  refine ⟨?_, hwf, hin', ?_⟩
  · rw [← hin']
    exact script.compileEval_tree vm block _ hunary hblock hwf
  · rw [← hin']
    exact script.Tree.operands_in_order hwf

/-- The expression `a + b * c` gives `a b c * +`, and `a - b - c` gives `a b - c -`. -/
theorem script.compileEval_postorder_witness :
    script.plainVM.compileEval
        [script.ident "a", script.oper .isPlus, script.ident "b", script.oper .isAsterisk,
          script.ident "c"] 0 [script.rootBlock]
      = .ok (5, [{ script.rootBlock with
          Code := [⟨.cmdVar, 1, .varInfo ⟨.ObjVar, .int 0⟩ (some 0)⟩,
            ⟨.cmdVar, 1, .varInfo ⟨.ObjVar, .int 1⟩ (some 0)⟩,
            ⟨.cmdVar, 1, .varInfo ⟨.ObjVar, .int 2⟩ (some 0)⟩,
            ⟨.cmdMul, 1, .uint16 30⟩, ⟨.cmdAdd, 1, .uint16 25⟩] }]) ∧
    script.plainVM.compileEval
        [script.ident "a", script.oper .isMinus, script.ident "b", script.oper .isMinus,
          script.ident "c"] 0 [script.rootBlock]
      = .ok (5, [{ script.rootBlock with
          Code := [⟨.cmdVar, 1, .varInfo ⟨.ObjVar, .int 0⟩ (some 0)⟩,
            ⟨.cmdVar, 1, .varInfo ⟨.ObjVar, .int 1⟩ (some 0)⟩,
            ⟨.cmdSub, 1, .uint16 25⟩,
            ⟨.cmdVar, 1, .varInfo ⟨.ObjVar, .int 2⟩ (some 0)⟩,
            ⟨.cmdSub, 1, .uint16 25⟩] }]) :=
  ⟨(script.compileEval_postorder script.plainVM [script.rootBlock] (script.ident "a")
      [(script.oper .isPlus, script.ident "b"), (script.oper .isAsterisk, script.ident "c")]
      (by decide) (by simp) (by decide) (by decide)).1,
    (script.compileEval_postorder script.plainVM [script.rootBlock] (script.ident "a")
      [(script.oper .isMinus, script.ident "b"), (script.oper .isMinus, script.ident "c")]
      (by decide) (by simp) (by decide) (by decide)).1⟩

/-! ### `StateName` -/

/-- With enough fuel the digits of a number start with a digit character. -/
theorem script.toDigitsCore_head (fuel : Nat) : ∀ (n : Nat) (ds : List Char), n < fuel →
    ∃ k, k < 10 ∧ ∃ tl, Nat.toDigitsCore 10 fuel n ds = Nat.digitChar k :: tl := by
  induction fuel with
  | zero => intro n ds h; omega
  | succ fuel ih =>
    intro n ds h
    unfold Nat.toDigitsCore
    by_cases h0 : n / 10 = 0
    · simp only [h0, if_true]
      exact ⟨n % 10, Nat.mod_lt _ (by decide), _, rfl⟩
    · simp only [h0, if_false]
      apply ih
      omega

/-- The characters of the ten digits lie between `'0'` and `'9'`. -/
theorem script.digitChar_digit (k : Nat) (h : k < 10) :
    ¬ (Nat.digitChar k < '0' ∨ '9' < Nat.digitChar k) := by
  interval_cases k <;> decide

/-- The text `%d` of a state number starts with a digit. -/
theorem script.toString_head (n : Nat) :
    ∃ d tl, (toString n).data = d :: tl ∧ ¬ (d < '0' ∨ '9' < d) := by
  obtain ⟨k, hk, tl, h⟩ := script.toDigitsCore_head (n + 1) n [] (by omega)
  refine ⟨Nat.digitChar k, tl, ?_, script.digitChar_digit k hk⟩
  show (Nat.repr n).data = _
  unfold Nat.repr Nat.toDigits
  simp [List.asString, h]

/-- A name that starts with `@` and a digit is returned as it is. -/
theorem script.StateName_qualified (s : Nat) (name : String) (d : Char) (tl : List Char)
    (h : name.data = '@' :: d :: tl) (hd : ¬ (d < '0' ∨ '9' < d)) :
    script.StateName s name = name := by
  simp only [script.StateName, h]
  simp [hd]

/-- A name that does not start with `@` gets the prefix `@` and the state number. -/
theorem script.StateName_plain (s : Nat) (name : String) (h : name.data.head? ≠ some '@') :
    script.StateName s name = "@" ++ toString s ++ name := by
  unfold script.StateName
  cases hn : name.data with
  | nil => rfl
  | cons c rest =>
    have hc : c ≠ '@' := by
      intro hc
      apply h
      rw [hn, hc]
      rfl
    simp [hc]

/-- A name `@x...` with `x` not a digit: the `@` is replaced by `@1`. -/
theorem script.StateName_first (s : Nat) (name : String) (x : Char) (rest : List Char)
    (h : name.data = '@' :: x :: rest) (hx : x < '0' ∨ '9' < x) :
    script.StateName s name = "@1" ++ String.mk (x :: rest) := by
  simp only [script.StateName, h]
  simp [hx]

/-- C29: `StateName` is idempotent, whatever the two states are; a name that does not begin
with `@` becomes `@`, the decimal digits of the state, and the name; a name `@x...` whose
second character `x` is not a digit becomes `@1x...`. -/
theorem script.StateName_idempotent (s s' : Nat) (name : String) :
    script.StateName s' (script.StateName s name) = script.StateName s name ∧
    (name.data.head? ≠ some '@' →
      script.StateName s name = "@" ++ toString s ++ name) ∧
    (∀ x rest, name.data = '@' :: x :: rest → (x < '0' ∨ '9' < x) →
      script.StateName s name = "@1" ++ String.mk (x :: rest)) := by
  refine ⟨?_, script.StateName_plain s name, fun x rest => script.StateName_first s name x rest⟩
  obtain ⟨d, tl, hd, hdigit⟩ := script.toString_head s
  by_cases h : name.data.head? = some '@'
  · cases hn : name.data with
    | nil => rw [hn] at h; simp at h
    | cons c rest =>
      have hc : c = '@' := by rw [hn] at h; simpa using h
      subst hc
      cases rest with
      | nil =>
        have h1 : script.StateName s name = name := by
          simp only [script.StateName, hn]
          simp
        have h2 : script.StateName s' name = name := by
          simp only [script.StateName, hn]
          simp
        rw [h1, h2]
      | cons x rest =>
        by_cases hx : x < '0' ∨ '9' < x
        · rw [script.StateName_first s name x rest hn hx]
          exact script.StateName_qualified s' _ '1' (x :: rest) rfl (by decide)
        · rw [script.StateName_qualified s name x rest hn hx]
          exact script.StateName_qualified s' name x rest hn hx
  · rw [script.StateName_plain s name h]
    apply script.StateName_qualified s' _ d (tl ++ name.data) _ hdigit
    simp [hd]

/-- Instance: under state 5 the name `Pay` becomes `@5Pay` and `@Pay` becomes `@1Pay`, and
a second qualification under state 7 changes neither. -/
theorem script.StateName_idempotent_witness :
    script.StateName 7 (script.StateName 5 "Pay") = script.StateName 5 "Pay" ∧
    script.StateName 5 "Pay" = "@" ++ toString 5 ++ "Pay" ∧
    script.StateName 5 "@Pay" = "@1" ++ String.mk ('P' :: ['a', 'y']) :=
  ⟨(script.StateName_idempotent 5 7 "Pay").1,
    (script.StateName_idempotent 5 7 "Pay").2.1 (by decide),
    (script.StateName_idempotent 5 7 "@Pay").2.2 'P' ['a', 'y'] rfl (by decide)⟩

/-! ### `processTransactions` returns a subsequence -/

/-- The loop keeps a subsequence: when the list collected so far is a subsequence of the
transactions already visited, the returned list is a subsequence of all of them. -/
theorem processTransactions.loop_sublist {L : Type} (env : GeneratorEnv L)
    (done : Nat → Bool) (rest : List Transaction) :
    ∀ (i : Nat) (limits : L) (txList : List Transaction) (bad : List badTxStruct)
      (pre : List Transaction), txList.Sublist pre →
      (processTransactions.loop env done i rest limits txList bad).1.Sublist (pre ++ rest) := by
  induction rest with
  | nil =>
    intro i limits txList bad pre h
    simpa [processTransactions.loop] using h
  | cons txItem rest ih =>
    intro i limits txList bad pre h
    have hskip : txList.Sublist (pre ++ [txItem]) :=
      h.trans (List.sublist_append_left pre [txItem])
    have hkeep : (txList ++ [txItem]).Sublist (pre ++ [txItem]) :=
      List.Sublist.append h (List.Sublist.refl _)
    have hone : [txItem].Sublist (pre ++ [txItem]) := List.sublist_append_right pre [txItem]
    have hshape : pre ++ txItem :: rest = (pre ++ [txItem]) ++ rest := by simp
    rw [hshape]
    unfold processTransactions.loop
    split_ifs with h1 h2
    · exact h.trans ((List.sublist_append_left pre [txItem]).trans
        (List.sublist_append_left _ rest))
    · exact ih _ _ _ _ _ hone
    · split
      · exact ih _ _ _ _ _ hskip
      · exact ih _ _ _ _ _ hskip
      · split_ifs
        · split
          · split_ifs
            · exact ih _ _ _ _ _ hskip
            · exact ih _ _ _ _ _ hskip
            · exact ih _ _ _ _ _ hskip
          · exact ih _ _ _ _ _ hkeep
        · exact ih _ _ _ _ _ hkeep

/-- C27: the list that `processTransactions` returns is a subsequence of its processing
order, the delayed transactions followed by the selection from the pool: every returned
element stands at a position of that sequence, the positions increase along the returned
list (so none is used twice), for every input, every outcome of decoding and of the
limits, and every instant at which the deadline fires. -/
theorem processTransactions_sublist {L : Type} (env : GeneratorEnv L)
    (pool : List Transaction) (maxTxCount : Int) (txs : List Transaction)
    (done : Nat → Bool) :
    (processTransactions env pool maxTxCount txs done).1.Sublist
      (txs ++ GetAllUnusedTransactions pool maxTxCount) := by
  have h := processTransactions.loop_sublist env done
    (txs ++ GetAllUnusedTransactions pool maxTxCount) 0 env.NewLimits [] [] []
    (List.Sublist.refl _)
  simpa [processTransactions] using h

/-! ### Runs of unary operators -/

/-- C25.  A run of unary operators is emitted right to left only when it is flushed at the
end of the expression: `!-a` gives `a`, sign, not.  When the run is flushed by a binary
operator it is appended in the order of the buffer, the operator farthest from the operand
first: `!-a == b` gives `a`, not, sign, `b`, equal, so the not is applied before the
sign. -/
theorem script.compileEval_unary_run :
    script.plainVM.compileEval
        [script.oper .isNot, script.oper .isMinus, script.ident "a", script.oper .isEqEq,
          script.ident "b"] 0 [script.rootBlock]
      = .ok (5, [{ script.rootBlock with
          Code := [⟨.cmdVar, 1, .varInfo ⟨.ObjVar, .int 0⟩ (some 0)⟩,
            ⟨.cmdNot, 1, .uint16 50⟩, ⟨.cmdSign, 1, .uint16 50⟩,
            ⟨.cmdVar, 1, .varInfo ⟨.ObjVar, .int 1⟩ (some 0)⟩,
            ⟨.cmdEqual, 1, .uint16 20⟩] }]) ∧
    script.plainVM.compileEval
        [script.oper .isNot, script.oper .isMinus, script.ident "a"] 0 [script.rootBlock]
      = .ok (3, [{ script.rootBlock with
          Code := [⟨.cmdVar, 1, .varInfo ⟨.ObjVar, .int 0⟩ (some 0)⟩,
            ⟨.cmdSign, 1, .uint16 50⟩, ⟨.cmdNot, 1, .uint16 50⟩] }]) :=
  ⟨rfl, rfl⟩

/-! ### `GetBlockchain` -/

/-- C28.  `GetBlockchain` does not report a failed query: whatever error the database
answers with, the function returns no blocks and a nil error, because it returns the
variable `err`, which is never assigned, in place of `query.Error`.  When the query
succeeds the error is nil and the result holds the rows with
`startBlockID < id <= endblockID` (with `startBlockID < id` when `endblockID <= 0`), in the
requested order. -/
theorem model.GetBlockchain_failed_query (block_chain : List model.Block) (e : Err)
    (startBlockID endblockID : Int) (order : model.ordering) :
    model.GetBlockchain block_chain (some e) startBlockID endblockID order = ([], none) ∧
    (model.GetBlockchain block_chain none startBlockID endblockID order).2 = none ∧
    (∀ b, b ∈ (model.GetBlockchain block_chain none startBlockID endblockID order).1 ↔
      b ∈ block_chain ∧ startBlockID < b.ID ∧ (endblockID ≤ 0 ∨ b.ID ≤ endblockID)) ∧
    (model.GetBlockchain block_chain none startBlockID endblockID order).1.Sorted
      (fun a b => if order = .OrderASC then a.ID ≤ b.ID else a.ID ≥ b.ID) := by
  haveI : IsTotal model.Block (fun a b => a.ID ≤ b.ID) := ⟨fun a b => le_total a.ID b.ID⟩
  haveI : IsTrans model.Block (fun a b => a.ID ≤ b.ID) := ⟨fun a b c => le_trans⟩
  haveI : IsTotal model.Block (fun a b => a.ID ≥ b.ID) := ⟨fun a b => le_total b.ID a.ID⟩
  haveI : IsTrans model.Block (fun a b => a.ID ≥ b.ID) :=
    ⟨fun a b c hab hbc => le_trans hbc hab⟩
  refine ⟨rfl, rfl, ?_, ?_⟩
  · intro b
    cases order <;> by_cases hend : endblockID > 0 <;>
      simp [model.GetBlockchain, hend, (List.perm_insertionSort _ _).mem_iff] <;>
      intro _ _ <;> omega
  · cases order
    · simpa [model.GetBlockchain] using
        List.sorted_insertionSort (fun a b : model.Block => a.ID ≤ b.ID) _
    · simpa [model.GetBlockchain] using
        List.sorted_insertionSort (fun a b : model.Block => a.ID ≥ b.ID) _

/-! ### `playRawBlock` -/

/-- C24.  A downloaded block whose `PrevHeader` is missing, or whose `PrevHeader.BlockID`
differs from the `BlockID` of the info block, is not rejected with an error:
`playRawBlock` returns nil (the `err` it returns is the nil result of `curBlock.Get()`).
The block is not checked and not played (the state is touched by `banNodePause` with a nil
error only), and the loop over the downloaded bodies counts it and goes on with the next
body. -/
theorem UpdateChain.playRawBlock_wrong_prev {σ : Type} (env : UpdateChainEnv σ)
    (rawBlock : Bytes) (rawBlocksChan : List Bytes) (count : Nat) (s : σ)
    (bl : block.PlayableBlock) (curBlock : model.InfoBlock)
    (hbl : env.ProcessBlockWherePrevFromBlockchainTable rawBlock s = .ok bl)
    (hcur : env.Get s = .ok curBlock)
    (hprev : ∀ PrevHeader, bl.PrevHeader = some PrevHeader →
      curBlock.BlockID ≠ PrevHeader.BlockID) :
    UpdateChain.playRawBlock env rawBlock s = (env.banNodePause 0 0 none s, none) ∧
    UpdateChain.rawBlocks env (rawBlock :: rawBlocksChan) count s
      = UpdateChain.rawBlocks env rawBlocksChan (count + 1) (env.banNodePause 0 0 none s) := by
  have h : UpdateChain.playRawBlock env rawBlock s = (env.banNodePause 0 0 none s, none) := by
    unfold UpdateChain.playRawBlock
    simp only [hbl, hcur]
    cases hp : bl.PrevHeader with
    | none => rfl
    | some PrevHeader => simp [hprev PrevHeader hp]
  refine ⟨h, ?_⟩
  simp only [UpdateChain.rawBlocks, h]

/-- Instance: a node at block 5 is sent the bodies of block 8 (no previous header), of
block 9 (previous header 8, not 5) and of block 6.  The first two return no error and are
counted, only block 6 is played, and the loop ends with the count 3. -/
theorem UpdateChain.playRawBlock_wrong_prev_witness :
    (UpdateChain.playRawBlock headerlessEnv [8] [] = ([], none) ∧
      UpdateChain.rawBlocks headerlessEnv [[8], [9], [6]] 0 []
        = UpdateChain.rawBlocks headerlessEnv [[9], [6]] 1 []) ∧
    UpdateChain.rawBlocks headerlessEnv [[8], [9], [6]] 0 [] = ([6], 3, none) :=
  ⟨UpdateChain.playRawBlock_wrong_prev headerlessEnv [8] [[9], [6]] 0 []
      ⟨(plainBlock 8).Header, none⟩ ⟨[], [], 5, "", 0, 0, ""⟩ rfl rfl
      (fun _ h => by cases h),
    by decide⟩

/-! ### `IsBanned` -/

/-- The loop over the honor nodes finds the global ban. -/
theorem NodesBanService.IsBanned.scan_eq (node : syspar.HonorNode)
    (honorNodes : List syspar.HonorNode) :
    NodesBanService.IsBanned.scan node honorNodes = globallyBanned node honorNodes := by
  induction honorNodes with
  | nil => rfl
  | cons fn rest ih =>
    unfold NodesBanService.IsBanned.scan globallyBanned
    by_cases h : fn.PublicKey = node.PublicKey
    · by_cases hu : fn.UnbanTime = 0 <;> simp [List.find?, h, hu]
    · simp only [h, if_false, List.find?, decide_False]
      rw [ih]
      rfl

/-- C21.  `IsBanned` is not "locally banned or globally banned": for a node that has a
local-ban entry which has run out (`now` is not before `LocalUnBanTime`) and that is
globally banned, the call drops the entry and returns false without looking at the list of
honor nodes; a second call at the same instant returns true. -/
theorem NodesBanService.IsBanned_expired_local (env : NodesBanEnv) (now : Int)
    (nbs : NodesBanService) (node : syspar.HonorNode) (fn : localBannedNode)
    (hlocal : nbs.localBannedNodes (env.Address node.PublicKey) = some fn)
    (hexpired : fn.LocalUnBanTime ≤ now)
    (hglobal : globallyBanned node env.GetNodes = true) :
    (NodesBanService.IsBanned env now nbs node).1 = false ∧
    (NodesBanService.IsBanned env now (NodesBanService.IsBanned env now nbs node).2 node).1
      = true := by
  have hcond : now = fn.LocalUnBanTime ∨ now > fn.LocalUnBanTime := by omega
  have h1 : NodesBanService.IsBanned env now nbs node
      = (false, { nbs.refreshNodes env with
          localBannedNodes :=
            Function.update nbs.localBannedNodes (env.Address node.PublicKey) none }) := by
    simp [NodesBanService.IsBanned, NodesBanService.refreshNodes, hlocal, hcond]
  rw [h1]
  refine ⟨rfl, ?_⟩
  simp [NodesBanService.IsBanned, NodesBanService.refreshNodes,
    NodesBanService.IsBanned.scan_eq, hglobal]

/-- Instance: the node of key `[7]` is globally banned and its local ban ended at the
instant 50; at the instant 60 the first call answers false and the second true. -/
theorem NodesBanService.IsBanned_expired_local_witness :
    (NodesBanService.IsBanned bannedNodeEnv 60 expiredLocalBan ⟨[7], 99⟩).1 = false ∧
    (NodesBanService.IsBanned bannedNodeEnv 60
      (NodesBanService.IsBanned bannedNodeEnv 60 expiredLocalBan ⟨[7], 99⟩).2 ⟨[7], 99⟩).1
      = true :=
  NodesBanService.IsBanned_expired_local bannedNodeEnv 60 expiredLocalBan ⟨[7], 99⟩
    ⟨⟨[7], 99⟩, 50⟩ (by simp [expiredLocalBan, bannedNodeEnv]) (by decide) (by decide)

/-! ### `CheckLogTx` -/

/-- C22.  When the two lookups do not fail, `CheckLogTx` returns `ErrDuplicatedTx` if the
hash is in `log_transactions`, or if the flag `transactions` is set and the pool has a
row with the hash and `verified = 1`; otherwise it returns nil. -/
theorem CheckLogTx_duplicate {τ : Type} (db : DB (Tables τ)) (ErrInfo : Err → Err)
    (txHash : Bytes) (transactions txQueue : Bool) :
    CheckLogTx db none none ErrInfo txHash transactions txQueue =
      if (∃ r ∈ db.rest.log_transactions, r.Hash = txHash) ∨
          (transactions = true ∧ ∃ t ∈ db.transactions, t.Hash = txHash ∧ t.Verified = 1)
      then some ErrDuplicatedTx else none := by
  have hlog : model.LogTransaction.GetByHash db.rest.log_transactions txHash = true ↔
      ∃ r ∈ db.rest.log_transactions, r.Hash = txHash := by
    simp [model.LogTransaction.GetByHash]
  have hpool : Transaction.GetVerified db.transactions txHash = true ↔
      ∃ t ∈ db.transactions, t.Hash = txHash ∧ t.Verified = 1 := by
    simp [Transaction.GetVerified]
  unfold CheckLogTx
  by_cases h1 : ∃ r ∈ db.rest.log_transactions, r.Hash = txHash
  · simp [hlog.mpr h1, h1]
  · have h1' : model.LogTransaction.GetByHash db.rest.log_transactions txHash = false := by
      simpa using fun h => h1 (hlog.mp h)
    by_cases h2 : ∃ t ∈ db.transactions, t.Hash = txHash ∧ t.Verified = 1
    · cases transactions <;> simp [h1', h1, hpool.mpr h2, h2]
    · have h2' : Transaction.GetVerified db.transactions txHash = false := by
        simpa using fun h => h2 (hpool.mp h)
      cases transactions <;> simp [h1', h1, h2', h2]

/-! ### `FlushBlock` -/

/-- C26.  `FlushBlock` does not keep the identifiers of the contracts equal to their
positions when the contract that is replaced has the identifier 0.  The source
`contract A {}` is compiled twice and flushed twice into an empty VM: a compilation gives
a root whose object `@1A` points to its only child, the contract block `@1A` with the
identifier 0 (the two blocks stand at the addresses 0 and 1).  After the first flush the
contract is the child 0 with the identifier 0.  In the second flush the new block gets the
identifier `0 + flushMark`, which is not greater than `flushMark`, so it is taken for a
new contract: it does not replace the child 0, it is appended as the child 1, and its
identifier is `flushMark + 1`. -/
theorem script.FlushBlock_replaces_first_contract :
    script.rootSummary
        (script.plainVM.CompileBlock script.idleHandlers
          [script.keyword .keyContract, script.ident "A", script.sys .isLCurly,
            script.sys .isRCurly] 1 4)
      = some ([("@1A", ⟨.ObjContract, .child 0⟩)], [some ("@1A", 0)]) ∧
    script.VM.FlushBlock [script.contractA, script.contractA] ⟨[], []⟩ (script.rootOfA 0)
      = .ok ([script.contractA, script.contractA], script.rootOfA 0) ∧
    script.idsArePositions [script.contractA, script.contractA] [0] = true ∧
    script.VM.FlushBlock [script.contractA, script.contractA] (script.rootOfA 0)
        (script.rootOfA 1)
      = .ok ([script.contractA,
            { script.contractA with
              Info := .contractInfo ⟨script.flushMark + 1, "@1A", false, []⟩ }],
          ⟨[("@1A", ⟨.ObjContract, some 1⟩)], [0, 1]⟩) ∧
    script.idsArePositions
      [script.contractA,
        { script.contractA with
          Info := .contractInfo ⟨script.flushMark + 1, "@1A", false, []⟩ }] [0, 1] = false :=
  ⟨by decide!, rfl, rfl, rfl, rfl⟩

/-! ### `fElse` -/

/-- C23.  `fElse` with the enclosing block `parent` under the block `top`: when the
enclosing block has no byte-code yet (the `else` is the first statement of a body) the
handler does not return the error "there is not if before", it stops with the run-time
panic of reading `code[len(code)-1]`, and so does `CompileBlock` for the source
`func f { else { } }`; when the last byte-code is not `cmdIf` it returns that error; when
it is `cmdIf`, a `cmdElse` that refers to the new block is appended to the enclosing
block. -/
theorem script.fElse_after_if (pre : List script.BlockTree) (parent top : script.BlockTree)
    (code : List script.ByteCode) (last : script.ByteCode) (state : Nat)
    (lexem : script.Lexem) :
    script.fElse (pre ++ [.node { parent.block with Code := [] } parent.Children, top])
        state lexem
      = .error (.panic "index out of range") ∧
    script.plainVM.CompileBlock script.idleHandlers script.elseFirst 1 7
      = .error (.panic "index out of range") ∧
    script.fElse
        (pre ++ [.node { parent.block with Code := code ++ [last] } parent.Children, top])
        state lexem
      = if last.Cmd ≠ .cmdIf then .error (.Errorf "there is not if before")
        else .ok (pre ++ [.node { parent.block with
          Code := code ++ [last] ++ [⟨.cmdElse, lexem.Line, .block parent.Children.length⟩] }
          parent.Children, top]) := by
  have hlen : ∀ p : script.BlockTree, (pre ++ [p, top]).length - 2 = pre.length := by
    intro p; simp
  have hget : ∀ p : script.BlockTree, (pre ++ [p, top])[pre.length]? = some p := by
    intro p
    rw [List.getElem?_append_right (Nat.le_refl _)]
    simp
  have hset : ∀ p q : script.BlockTree,
      (pre ++ [p, top]).set pre.length q = pre ++ [q, top] := by
    intro p q; simp
  have hpar : ∀ p : script.BlockTree, script.parentOf (pre ++ [p, top]) = some p := by
    intro p
    unfold script.parentOf
    rw [if_pos (by simp), hlen, hget]
  refine ⟨?_, script.eq_error_of_failsWith (by decide!), ?_⟩
  · simp [script.fElse, hpar, script.BlockTree.block]
  · simp only [script.fElse, hpar, hlen, hset, script.BlockTree.block,
      script.BlockTree.Children]
    simp

/-! ### The state machine of `CompileBlock` -/

/-- The table has 21 lines. -/
theorem script.states_lt (c : Nat) (line : script.LexType → script.compileState)
    (h : script.states[c]? = some line) : c < 21 := by
  have h1 := (List.getElem?_eq_some_iff.mp h).1
  simpa [script.states] using h1

/-- The entries of the line `stateRoot`. -/
theorem script.states_root (line : script.LexType → script.compileState)
    (h : script.states[0]? = some line) (t : script.LexType) :
    line t = ⟨script.stateRoot, 0⟩ ∨
    line t = ⟨script.stateContract ||| script.statePush, 0⟩ ∨
    line t = ⟨script.stateFunc ||| script.statePush, 0⟩ ∨
    line t = ⟨script.errUnknownCmd, script.cfError⟩ := by
  simp only [script.states, List.getElem?_cons_zero, Option.some.injEq] at h
  subst h
  cases t with
  | lexKeyword key => cases key <;> simp
  | _ => simp

/-- Two facts about every entry of the table.  The flag `statePop` stands in one entry
only, the closing brace in `stateBody`.  The handlers that read the block under the top of
the stack stand in entries without `statePop`: `fIf`, `fElse` and `fWhile` in entries with
the flag `statePush`, `fNameBlock` in entries without it of states other than
`stateRoot`. -/
theorem script.states_flags (c : Nat) (line : script.LexType → script.compileState)
    (h : script.states[c]? = some line) (t : script.LexType) :
    ((line t).NewState &&& script.statePop > 0 → line t = ⟨script.statePop, 0⟩) ∧
    ((line t).Func = script.cfNameBlock ∨ (line t).Func = script.cfIf ∨
        (line t).Func = script.cfElse ∨ (line t).Func = script.cfWhile →
      (line t).NewState &&& script.statePop = 0 ∧
      ((line t).NewState &&& script.statePush > 0 ∨
        ((line t).NewState &&& script.statePush = 0 ∧ c ≠ script.stateRoot))) := by
  have hc := script.states_lt c line h
  interval_cases c <;> simp only [script.states, List.getElem?_cons_succ,
      List.getElem?_cons_zero, Option.some.injEq] at h <;> subst h <;>
    cases t with
    | lexKeyword key => cases key <;> first | decide | (simp only []; decide)
    | _ => first | decide | (simp only []; decide)

/-- A handler that appends to the block on top keeps the length of the stack. -/
theorem script.appendTop_length (buf buf' : List script.BlockTree)
    (code : List script.ByteCode) (h : script.appendTop buf code = .ok buf') :
    buf'.length = buf.length := by
  unfold script.appendTop at h
  split at h
  · cases h
  · cases h
    simp

/-- The handler `fNameBlock` keeps the length of the stack. -/
theorem script.fNameBlock_length (buf buf' : List script.BlockTree) (state : Nat)
    (lexem : script.Lexem) (h : script.fNameBlock buf state lexem = .ok buf') :
    buf'.length = buf.length := by
  unfold script.fNameBlock at h
  split at h
  · split at h
    · simp only at h
      split at h
      · cases h
      · cases h
        simp
    · cases h
  · cases h

/-- The handler `fIf` keeps the length of the stack. -/
theorem script.fIf_length (buf buf' : List script.BlockTree) (state : Nat)
    (lexem : script.Lexem) (h : script.fIf buf state lexem = .ok buf') :
    buf'.length = buf.length := by
  unfold script.fIf at h
  split at h
  · cases h
  · cases h
    simp

/-- The handler `fWhile` keeps the length of the stack. -/
theorem script.fWhile_length (buf buf' : List script.BlockTree) (state : Nat)
    (lexem : script.Lexem) (h : script.fWhile buf state lexem = .ok buf') :
    buf'.length = buf.length := by
  unfold script.fWhile at h
  split at h
  · cases h
  · cases h
    simp

/-- The handler `fElse` keeps the length of the stack. -/
theorem script.fElse_length (buf buf' : List script.BlockTree) (state : Nat)
    (lexem : script.Lexem) (h : script.fElse buf state lexem = .ok buf') :
    buf'.length = buf.length := by
  unfold script.fElse at h
  split at h
  · cases h
  · simp only at h
    split at h
    · cases h
    · split_ifs at h
      cases h
      simp

/-- Every handler keeps the length of the block stack. -/
theorem script.funcs_length (env : script.CompileEnv) (index : Nat)
    (buf buf' : List script.BlockTree) (state : Nat) (lexem : script.Lexem)
    (h : script.funcs env index buf state lexem = .ok buf') : buf'.length = buf.length := by
  unfold script.funcs at h
  by_cases h1 : index = script.cfError
  · rw [if_pos h1] at h
    cases h
  rw [if_neg h1] at h
  by_cases h2 : index = script.cfNameBlock
  · rw [if_pos h2] at h
    exact script.fNameBlock_length _ _ _ _ h
  rw [if_neg h2] at h
  by_cases h3 : index = script.cfReturn
  · rw [if_pos h3] at h
    exact script.appendTop_length _ _ _ h
  rw [if_neg h3] at h
  by_cases h4 : index = script.cfIf
  · rw [if_pos h4] at h
    exact script.fIf_length _ _ _ _ h
  rw [if_neg h4] at h
  by_cases h5 : index = script.cfElse
  · rw [if_pos h5] at h
    exact script.fElse_length _ _ _ _ h
  rw [if_neg h5] at h
  by_cases h6 : index = script.cfAssign
  · rw [if_pos h6] at h
    exact script.appendTop_length _ _ _ h
  rw [if_neg h6] at h
  by_cases h7 : index = script.cfWhile
  · rw [if_pos h7] at h
    exact script.fWhile_length _ _ _ _ h
  rw [if_neg h7] at h
  by_cases h8 : index = script.cfContinue
  · rw [if_pos h8] at h
    exact script.appendTop_length _ _ _ h
  rw [if_neg h8] at h
  by_cases h9 : index = script.cfBreak
  · rw [if_pos h9] at h
    exact script.appendTop_length _ _ _ h
  rw [if_neg h9] at h
  by_cases h10 : index = script.cfCmdError
  · rw [if_pos h10] at h
    exact script.appendTop_length _ _ _ h
  rw [if_neg h10] at h
  by_cases h11 : 0 < index ∧ index ≤ 26
  · rw [if_pos h11] at h
    split at h
    · cases h
    · split at h
      · cases h
      · cases h
        simp
  · rw [if_neg h11] at h
    cases h

/-- The handler `fError` always ends the compilation. -/
theorem script.funcs_cfError (env : script.CompileEnv) (buf : List script.BlockTree)
    (state : Nat) (lexem : script.Lexem) :
    script.funcs env script.cfError buf state lexem = .error (script.fError state lexem) := by
  unfold script.funcs
  rw [if_pos rfl]

/-- Writing back keeps the length of the block stack. -/
theorem script.writeBack_length (buf : List script.BlockTree) (blocks : List script.Block) :
    (script.writeBack buf blocks).length = buf.length := by
  simp [script.writeBack]

/-- The expression compiler keeps the length of the block stack. -/
theorem script.CompileBlock.eval_length (vm : script.VM) (lexems : List script.Lexem)
    (newState : script.compileState) (i i' : Int) (lexem : script.Lexem)
    (blockstack blockstack' : List script.BlockTree)
    (h : script.VM.CompileBlock.eval vm lexems newState i lexem blockstack
      = .ok (i', blockstack')) :
    blockstack'.length = blockstack.length := by
  unfold script.VM.CompileBlock.eval at h
  simp only at h
  split at h
  · cases h
  · rename_i labelled hl
    have hlen : labelled.length = blockstack.length := by
      split_ifs at hl
      · exact script.appendTop_length _ _ _ hl
      · cases hl
        rfl
    split at h
    · cases h
    · split at h
      · cases h
      · split at h
        · cases h
        · split_ifs at h
          cases h
          rw [script.writeBack_length, hlen]

/-- The branch `statePush` adds one element to each stack. -/
theorem script.CompileBlock.push_spec (curState : Nat) (stack stack' : List Nat)
    (blockstack blockstack' : List script.BlockTree)
    (h : script.CompileBlock.push curState stack blockstack = .ok (stack', blockstack')) :
    stack' = stack ++ [curState] ∧ blockstack'.length = blockstack.length + 1 := by
  unfold script.CompileBlock.push at h
  split_ifs at h
  cases h
  simp

/-- The branch `statePop` takes the last element from each stack; it needs a state stack
that is not empty. -/
theorem script.CompileBlock.pop_spec (lexem : script.Lexem) (stack stack' : List Nat)
    (blockstack blockstack' : List script.BlockTree) (nextState : Nat)
    (h : script.CompileBlock.pop lexem stack blockstack = .ok (nextState, stack', blockstack')) :
    stack.getLast? = some nextState ∧ stack' = stack.dropLast ∧
      blockstack'.length + 1 = blockstack.length := by
  unfold script.CompileBlock.pop at h
  split at h
  · cases h
  · rename_i ns hns
    split at h
    · cases h
    · rename_i top htop
      have hne : blockstack ≠ [] := by
        intro he
        rw [he] at htop
        simp at htop
      have hpos : 0 < blockstack.length := List.length_pos.mpr hne
      split at h
      · cases h
        refine ⟨hns, rfl, ?_⟩
        simp
        omega
      · cases h
        refine ⟨hns, rfl, ?_⟩
        simp
        omega

/-- The invariant at the call of the handler: an iteration that starts with the invariant
and comes to the call of the handler has stacks of matching lengths, the state stack
starts with `stateRoot`, an empty state stack goes with the next state `stateRoot` or with
the handler `fError`, and a handler that reads the block under the top finds at least two
blocks. -/
theorem script.CompileBlock.prepare_inr (vm : script.VM) (lexems : List script.Lexem)
    (s : script.CompileLoop) (hinv : s.Inv) (p : script.Prepared)
    (h : script.VM.CompileBlock.prepare vm lexems s = .ok (.inr p)) :
    p.blockstack.length = p.stack.length + 1 ∧
    (p.stack = [] → p.nextState = script.stateRoot ∨ p.newState.Func = script.cfError) ∧
    (∀ x, p.stack.head? = some x → x = script.stateRoot) ∧
    (p.newState.Func = script.cfNameBlock ∨ p.newState.Func = script.cfIf ∨
        p.newState.Func = script.cfElse ∨ p.newState.Func = script.cfWhile →
      2 ≤ p.blockstack.length) := by
  obtain ⟨hlen, hroot, hbottom⟩ := hinv
  unfold script.VM.CompileBlock.prepare at h
  split at h
  · rename_i lexem line hlex hline
    simp only at h
    have hfl := script.states_flags s.curState line hline lexem.Type_
    have hrt : s.curState = 0 → _ := fun h0 =>
      script.states_root line (by rw [← h0]; exact hline) lexem.Type_
    generalize line lexem.Type_ = e at h hfl hrt
    split at h
    · cases h
    · rename_i i fork lexem1 hmoved
      by_cases hstay : e.NewState &&& script.stateStay > 0
      · rw [if_pos hstay] at h
        simp at h
      rw [if_neg hstay] at h
      split at h
      · cases h
      · rename_i i1 bs1 ns1 hev
        have hbs1 : bs1.length = s.blockstack.length := by
          split_ifs at hev with he
          · split at hev
            · cases hev
            · rename_i i2 bs2 hev2
              cases hev
              exact script.CompileBlock.eval_length _ _ _ _ _ _ _ _ hev2
          · cases hev
            rfl
        have hns1 : e.NewState &&& 255 ≠ script.stateEval → ns1 = e.NewState &&& 255 := by
          intro he
          rw [if_neg he] at hev
          cases hev
          rfl
        split at h
        · cases h
        · rename_i st2 bs2 hpu
          split at h
          · cases h
          · rename_i ns3 st3 bs3 hpo
            simp only [Except.ok.injEq, Sum.inr.injEq] at h
            subst h
            simp only
            by_cases hpop : e.NewState &&& script.statePop > 0
            · -- the closing brace in `stateBody`
              have he := hfl.1 hpop
              subst he
              rw [if_neg (by decide)] at hpu
              cases hpu
              rw [if_pos (by decide)] at hpo
              obtain ⟨hlast, hst3, hbs3⟩ := script.CompileBlock.pop_spec _ _ _ _ _ _ hpo
              subst hst3
              have hne : s.stack ≠ [] := by
                intro he
                rw [he] at hlast
                simp at hlast
              have hpos : 0 < s.stack.length := List.length_pos.mpr hne
              refine ⟨?_, ?_, ?_, ?_⟩
              · simp
                omega
              · intro hnil
                left
                rw [if_neg (by decide), if_neg (by decide)]
                have h1 : s.stack.length = 1 := by
                  have := congrArg List.length hnil
                  simp at this
                  omega
                obtain ⟨x, hx⟩ := List.length_eq_one.mp h1
                rw [hx] at hlast
                simp at hlast
                subst hlast
                exact hbottom x (by rw [hx]; rfl)
              · intro x hx
                apply hbottom x
                cases hs : s.stack with
                | nil => exact absurd hs hne
                | cons a rest =>
                  rw [hs] at hx
                  cases rest with
                  | nil => simp at hx
                  | cons b rest => simpa using hx
              · intro hf
                rcases hf with hf | hf | hf | hf <;> simp at hf
            · rw [if_neg hpop] at hpo
              cases hpo
              by_cases hpush : e.NewState &&& script.statePush > 0
              · rw [if_pos hpush] at hpu
                obtain ⟨hst2, hbs2⟩ := script.CompileBlock.push_spec _ _ _ _ _ hpu
                subst hst2
                refine ⟨?_, ?_, ?_, ?_⟩
                · simp
                  omega
                · intro hnil
                  simp at hnil
                · intro x hx
                  cases hs : s.stack with
                  | nil =>
                    rw [hs] at hx
                    simp at hx
                    rw [← hx]
                    exact hroot hs
                  | cons a rest =>
                    rw [hs] at hx
                    apply hbottom x
                    rw [hs]
                    simpa using hx
                · intro _
                  omega
              · rw [if_neg hpush] at hpu
                cases hpu
                refine ⟨?_, ?_, hbottom, ?_⟩
                · omega
                · intro hnil
                  have hcur := hroot hnil
                  rcases hrt hcur with he | he | he | he
                  · left
                    subst he
                    rw [hns1 (by decide)]
                    decide
                  · subst he
                    exact absurd (by decide) hpush
                  · subst he
                    exact absurd (by decide) hpush
                  · right
                    subst he
                    rfl
                · intro hf
                  rcases (hfl.2 hf).2 with hp | ⟨_, hc⟩
                  · exact absurd hp hpush
                  · have hne : s.stack ≠ [] := fun hs => hc (hroot hs)
                    have hpos : 0 < s.stack.length := List.length_pos.mpr hne
                    omega
  · cases h

/-- An iteration that ends with `continue` keeps the invariant. -/
theorem script.CompileBlock.prepare_inl (vm : script.VM) (lexems : List script.Lexem)
    (s s' : script.CompileLoop) (hinv : s.Inv)
    (h : script.VM.CompileBlock.prepare vm lexems s = .ok (.inl s')) : s'.Inv := by
  obtain ⟨hlen, hroot, hbottom⟩ := hinv
  unfold script.VM.CompileBlock.prepare at h
  split at h
  · rename_i lexem line hlex hline
    simp only at h
    have hrt : s.curState = 0 → _ := fun h0 =>
      script.states_root line (by rw [← h0]; exact hline) lexem.Type_
    generalize line lexem.Type_ = e at h hrt
    split at h
    · cases h
    · rename_i i fork lexem1 hmoved
      by_cases hstay : e.NewState &&& script.stateStay > 0
      · rw [if_pos hstay] at h
        simp only [Except.ok.injEq, Sum.inl.injEq] at h
        subst h
        refine ⟨hlen, ?_, hbottom⟩
        intro hnil
        exfalso
        rcases hrt (hroot hnil) with he | he | he | he <;> subst he <;>
          exact absurd hstay (by decide)
      · rw [if_neg hstay] at h
        split at h
        · cases h
        · split at h
          · cases h
          · split at h
            · cases h
            · simp at h
  · cases h

/-- An iteration keeps the invariant. -/
theorem script.CompileBlock.step_inv (vm : script.VM) (env : script.CompileEnv)
    (lexems : List script.Lexem) (s s' : script.CompileLoop) (hinv : s.Inv)
    (h : script.VM.CompileBlock.step vm env lexems s = .ok s') : s'.Inv := by
  unfold script.VM.CompileBlock.step at h
  split at h
  · cases h
  · rename_i s1 hp
    cases h
    exact script.CompileBlock.prepare_inl vm lexems s _ hinv hp
  · rename_i p hp
    obtain ⟨hlen, hnext, hbottom, _⟩ := script.CompileBlock.prepare_inr vm lexems s hinv p hp
    by_cases hf : p.newState.Func > 0
    · rw [if_pos hf] at h
      split at h
      · cases h
      · rename_i bs hfun
        cases h
        refine ⟨?_, ?_, hbottom⟩
        · simp only
          rw [script.funcs_length env _ _ _ _ _ hfun]
          exact hlen
        · intro hnil
          rcases hnext hnil with hn | hn
          · exact hn
          · rw [hn, script.funcs_cfError] at hfun
            cases hfun
    · rw [if_neg hf] at h
      cases h
      refine ⟨hlen, ?_, hbottom⟩
      intro hnil
      rcases hnext hnil with hn | hn
      · exact hn
      · rw [hn] at hf
        exact absurd (by decide) hf

/-- The invariant holds before the first iteration. -/
theorem script.CompileBlock.start_inv (StateID : Nat) : (script.CompileBlock.start StateID).Inv :=
  ⟨rfl, fun _ => rfl, fun _ h => by simp [script.CompileBlock.start] at h⟩

/-- The invariant holds at the start of every iteration. -/
theorem script.CompileBlock.iteration_inv (vm : script.VM) (env : script.CompileEnv)
    (lexems : List script.Lexem) (n : Nat) :
    ∀ s s' : script.CompileLoop, s.Inv →
      script.VM.CompileBlock.iteration vm env lexems n s = .ok (some s') →
      s'.Inv ∧ s'.i < lexems.length := by
  induction n with
  | zero =>
    intro s s' hinv h
    unfold script.VM.CompileBlock.iteration at h
    by_cases hi : s.i < lexems.length
    · rw [if_pos hi] at h
      cases h
      exact ⟨hinv, hi⟩
    · rw [if_neg hi] at h
      cases h
  | succ n ih =>
    intro s s' hinv h
    unfold script.VM.CompileBlock.iteration at h
    by_cases hi : s.i < lexems.length
    · rw [if_pos hi] at h
      split at h
      · cases h
      · rename_i s1 hs1
        exact ih s1 s' (script.CompileBlock.step_inv vm env lexems s s1 hinv hs1) h
    · rw [if_neg hi] at h
      cases h

/-- The invariant holds when the main loop ends, and the lexemes are used up then. -/
theorem script.CompileBlock.loop_inv (vm : script.VM) (env : script.CompileEnv)
    (lexems : List script.Lexem) (fuel : Nat) :
    ∀ s s' : script.CompileLoop, s.Inv →
      script.VM.CompileBlock.loop vm env lexems fuel s = .ok s' →
      s'.Inv ∧ ¬ s'.i < lexems.length := by
  induction fuel with
  | zero =>
    intro s s' hinv h
    unfold script.VM.CompileBlock.loop at h
    by_cases hi : s.i < lexems.length
    · rw [if_pos hi] at h
      cases h
    · rw [if_neg hi] at h
      cases h
      exact ⟨hinv, hi⟩
  | succ fuel ih =>
    intro s s' hinv h
    unfold script.VM.CompileBlock.loop at h
    by_cases hi : s.i < lexems.length
    · rw [if_pos hi] at h
      split at h
      · cases h
      · rename_i s1 hs1
        exact ih s1 s' (script.CompileBlock.step_inv vm env lexems s s1 hinv hs1) h
    · rw [if_neg hi] at h
      cases h
      exact ⟨hinv, hi⟩

/-- An error in the iteration number `n` is the result of the main loop, when the loop is
not cut before. -/
theorem script.CompileBlock.loop_error (vm : script.VM) (env : script.CompileEnv)
    (lexems : List script.Lexem) (e : script.EvalErr) (n : Nat) :
    ∀ (s s' : script.CompileLoop) (fuel : Nat), n < fuel →
      script.VM.CompileBlock.iteration vm env lexems n s = .ok (some s') →
      script.VM.CompileBlock.step vm env lexems s' = .error e →
      script.VM.CompileBlock.loop vm env lexems fuel s = .error e := by
  induction n with
  | zero =>
    intro s s' fuel hfuel h hstep
    unfold script.VM.CompileBlock.iteration at h
    by_cases hi : s.i < lexems.length
    · rw [if_pos hi] at h
      cases h
      obtain ⟨fuel, rfl⟩ : ∃ k, fuel = k + 1 := ⟨fuel - 1, by omega⟩
      unfold script.VM.CompileBlock.loop
      rw [if_pos hi, hstep]
    · rw [if_neg hi] at h
      cases h
  | succ n ih =>
    intro s s' fuel hfuel h hstep
    unfold script.VM.CompileBlock.iteration at h
    by_cases hi : s.i < lexems.length
    · rw [if_pos hi] at h
      split at h
      · cases h
      · rename_i s1 hs1
        obtain ⟨fuel, rfl⟩ : ∃ k, fuel = k + 1 := ⟨fuel - 1, by omega⟩
        unfold script.VM.CompileBlock.loop
        rw [if_pos hi, hs1]
        exact ih s1 s' fuel (by omega) h hstep
    · rw [if_neg hi] at h
      cases h

/-- A closing brace that arrives in `stateRoot` ends the compilation with the error
"unknown command". -/
theorem script.CompileBlock.step_root_brace (vm : script.VM) (env : script.CompileEnv)
    (lexems : List script.Lexem) (s : script.CompileLoop) (lexem : script.Lexem)
    (hcur : s.curState = script.stateRoot) (hlex : script.lexemAt lexems s.i = some lexem)
    (ht : lexem.Type_ = .isRCurly) :
    script.VM.CompileBlock.step vm env lexems s = .error (.Errorf "unknown command") := by
  obtain ⟨i, cur, stack, bs, fork⟩ := s
  simp only at hcur hlex
  subst hcur
  have hp : script.VM.CompileBlock.prepare vm lexems ⟨i, script.stateRoot, stack, bs, fork⟩
      = .ok (.inr ⟨⟨script.errUnknownCmd, script.cfError⟩, 1, lexem, i, fork, stack, bs⟩) := by
    unfold script.VM.CompileBlock.prepare
    simp only [hlex, script.states, List.getElem?_cons_zero, ht]
    rfl
  unfold script.VM.CompileBlock.step
  rw [hp]
  simp only
  rw [if_pos (by decide), script.funcs_cfError]
  simp [script.fError, ht]

/-- C30, the claim as it stands does not hold: a closing brace that arrives with an empty
state stack does not yield the error "must be '{'".  The machine is then in `stateRoot`,
whose line sends the brace to the error "unknown command": so for the source `}` and for
`contract A { } }`. -/
theorem script.CompileBlock_extra_brace :
    script.plainVM.CompileBlock script.idleHandlers [script.sys .isRCurly] 1 1
      = .error (.Errorf "unknown command") ∧
    script.plainVM.CompileBlock script.idleHandlers script.extraBrace 1 5
      = .error (.Errorf "unknown command") ∧
    script.fError script.errMustLCurly (script.sys .isRCurly) = .Errorf "must be '\x7b'" ∧
    script.EvalErr.Errorf "unknown command" ≠ .Errorf "must be '\x7b'" :=
  ⟨script.eq_error_of_failsWith (by decide!), script.eq_error_of_failsWith (by decide!),
    by decide, by decide⟩

/-- C30, amended.  At the start of every iteration of the main loop of `CompileBlock`
the block stack has one block more than the state stack (so the root is never popped), and
an empty state stack goes with `stateRoot`.  When an iteration comes to the call of
`fNameBlock`, `fIf`, `fElse` or `fWhile`, the block stack it passes has at least two
blocks.  The branch `statePop` is never entered with an empty state stack, so its error
"must be '{'" is never returned from there: a closing brace that arrives with an empty
state stack finds the machine in `stateRoot` and ends the compilation with the error
"unknown command".  `CompileBlock` returns a root only if the state stack is empty (and
the machine in `stateRoot`, the block stack holding the root alone) when the lexemes are
used up; with a state stack that is not empty then, it returns the error "must be '}'" for
the last lexeme. -/
theorem script.CompileBlock_block_stack (vm : script.VM) (env : script.CompileEnv)
    (lexems : List script.Lexem) (StateID : Nat) :
    (∀ n s, script.VM.CompileBlock.iteration vm env lexems n (script.CompileBlock.start StateID)
        = .ok (some s) →
      s.blockstack.length = s.stack.length + 1 ∧
      (s.stack = [] → s.curState = script.stateRoot) ∧
      (∀ p, script.VM.CompileBlock.prepare vm lexems s = .ok (.inr p) →
        p.newState.Func = script.cfNameBlock ∨ p.newState.Func = script.cfIf ∨
          p.newState.Func = script.cfElse ∨ p.newState.Func = script.cfWhile →
        2 ≤ p.blockstack.length) ∧
      (∀ lexem line, script.lexemAt lexems s.i = some lexem →
        script.states[s.curState]? = some line →
        (line lexem.Type_).NewState &&& script.statePop > 0 → s.stack ≠ []) ∧
      (∀ lexem fuel, s.stack = [] → script.lexemAt lexems s.i = some lexem →
        lexem.Type_ = .isRCurly → n < fuel →
        script.VM.CompileBlock vm env lexems StateID fuel
          = .error (.Errorf "unknown command"))) ∧
    (∀ fuel root, script.VM.CompileBlock vm env lexems StateID fuel = .ok root →
      lexems = [] ∨
      ∃ s, script.VM.CompileBlock.loop vm env lexems fuel (script.CompileBlock.start StateID)
          = .ok s ∧
        s.stack = [] ∧ s.curState = script.stateRoot ∧ s.blockstack.length = 1) ∧
    (∀ fuel s, lexems ≠ [] →
      script.VM.CompileBlock.loop vm env lexems fuel (script.CompileBlock.start StateID)
        = .ok s →
      s.stack ≠ [] →
      ∃ lexem, lexems.getLast? = some lexem ∧
        script.VM.CompileBlock vm env lexems StateID fuel
          = .error (script.fError script.errMustRCurly lexem)) := by
  refine ⟨?_, ?_, ?_⟩
  · intro n s hs
    obtain ⟨hinv, hi⟩ := script.CompileBlock.iteration_inv vm env lexems n _ s
      (script.CompileBlock.start_inv StateID) hs
    refine ⟨hinv.1, hinv.2.1, ?_, ?_, ?_⟩
    · intro p hp
      exact (script.CompileBlock.prepare_inr vm lexems s hinv p hp).2.2.2
    · intro lexem line _ hline hpop hnil
      have h0 := hinv.2.1 hnil
      rw [h0] at hline
      rcases script.states_root line hline lexem.Type_ with he | he | he | he <;>
        rw [he] at hpop <;> exact absurd hpop (by decide)
    · intro lexem fuel hnil hlex ht hfuel
      have hstep := script.CompileBlock.step_root_brace vm env lexems s lexem (hinv.2.1 hnil)
        hlex ht
      have hloop := script.CompileBlock.loop_error vm env lexems _ n _ s fuel hfuel hs hstep
      have hne : ¬ lexems.length = 0 := by
        intro h0
        rw [h0] at hi
        unfold script.lexemAt at hlex
        split_ifs at hlex with hneg
        omega
      unfold script.VM.CompileBlock
      rw [if_neg hne, hloop]
  · intro fuel root h
    by_cases hne : lexems.length = 0
    · left
      exact List.length_eq_zero.mp hne
    · right
      unfold script.VM.CompileBlock at h
      rw [if_neg hne] at h
      split at h
      · cases h
      · rename_i s hs
        obtain ⟨hinv, _⟩ := script.CompileBlock.loop_inv vm env lexems fuel _ s
          (script.CompileBlock.start_inv StateID) hs
        unfold script.CompileBlock.finish at h
        by_cases hst : s.stack.length > 0
        · rw [if_pos hst] at h
          split at h <;> cases h
        · have hnil : s.stack = [] := List.length_eq_zero.mp (by omega)
          refine ⟨s, hs, hnil, hinv.2.1 hnil, ?_⟩
          rw [hinv.1, hnil]
          rfl
  · intro fuel s hne hs hst
    have hlast : ∃ lexem, lexems.getLast? = some lexem := by
      cases h : lexems.getLast? with
      | none => exact absurd (List.getLast?_eq_none_iff.mp h) hne
      | some lexem => exact ⟨lexem, rfl⟩
    obtain ⟨lexem, hlexem⟩ := hlast
    refine ⟨lexem, hlexem, ?_⟩
    have hlen : ¬ lexems.length = 0 := fun h => hne (List.length_eq_zero.mp h)
    have hpos : s.stack.length > 0 := List.length_pos.mpr hst
    unfold script.VM.CompileBlock
    rw [if_neg hlen, hs]
    simp only [script.CompileBlock.finish, if_pos hpos, hlexem]

/-- Instance: the source `}`; the first iteration starts with an empty state stack at the
closing brace, and the compilation ends with "unknown command" whatever the bound on the
iterations is. -/
theorem script.CompileBlock_block_stack_witness :
    script.VM.CompileBlock script.plainVM script.idleHandlers [script.sys .isRCurly] 1 7
      = .error (.Errorf "unknown command") :=
  ((script.CompileBlock_block_stack script.plainVM script.idleHandlers
      [script.sys .isRCurly] 1).1 0 (script.CompileBlock.start 1) rfl).2.2.2.2
    (script.sys .isRCurly) 7 rfl rfl rfl (by decide)

end Ibax
